import Mathlib

/-!
Shallow embedding of the RoundRobin task scheduler core
(the zustand store actions and the reconciliation module),
together with proofs of the specification claims about it.

Modelling conventions:
* JavaScript numbers that hold timestamps, revisions and sequence counters
  are modelled as `Int` (all values produced by the code are integers;
  `Math.floor` on them is the identity and `Number.isFinite` always holds).
* `Record<TaskId, Task>` objects are modelled as association lists in
  insertion order (JS objects with string keys iterate in insertion order).
* A store action that executes `return state` (returning the identical
  reference, which the `set` wrapper detects with `Object.is` and therefore
  skips the write-metadata bump) is modelled as returning `none`;
  returning a fresh object is modelled as `some` of the new state.
-/

namespace RoundRobin

abbrev TaskId := String

structure TaskAttachment where
  id : String
  name : String
  mimeType : String
  size : Int
  createdAt : Int
  removedAt : Option Int
  cloudPath : Option String
deriving DecidableEq

structure Subtask where
  id : String
  text : String
  done : Bool
  createdAt : Int
  doneAt : Option Int
deriving DecidableEq

structure TaskUIState where
  subtasksOpen : Bool
  notesOpen : Bool
  attachmentsOpen : Bool
  showCompletedSubtasks : Bool
deriving DecidableEq

structure Task where
  id : TaskId
  title : String
  createdAt : Int
  updatedAt : Int
  doneAt : Option Int
  restoredAt : Option Int
  attachments : List TaskAttachment
  subtasks : List Subtask
  notesMd : String
  ui : TaskUIState
  snoozeUntil : Option Int
  snoozeSeq : Option Int
deriving DecidableEq

/-- Association-list model of the `Record<TaskId, Task>` map. -/
abbrev Tasks := List (TaskId × Task)

structure AppState where
  rev : Int
  updatedAt : Int
  clientId : String
  version : Int
  currentTaskId : Option TaskId
  wokenQueue : List TaskId
  readyQueue : List TaskId
  snoozedIds : List TaskId
  completedIds : List TaskId
  deletedIds : List TaskId
  tasks : Tasks
  nextSnoozeSeq : Int
deriving DecidableEq

/-- Key lookup in the task map (`tasks[id]`). -/
def lookupTask : Tasks → TaskId → Option Task
  | [], _ => none
  | (k, v) :: ts, id => if k = id then some v else lookupTask ts id

/-- Key update in the task map (`{ ...tasks, [id]: t }`): replaces the value
at an existing key in place, otherwise appends the new binding. -/
def setTask : Tasks → TaskId → Task → Tasks
  | [], id, t => [(id, t)]
  | (k, v) :: ts, id, t => if k = id then (id, t) :: ts else (k, v) :: setTask ts id t

/-- Key removal from the task map (`delete tasks[id]`). -/
def eraseTask (ts : Tasks) (id : TaskId) : Tasks :=
  ts.filter (fun p => p.1 ≠ id)

/-- Key list of the task map (`Object.keys(tasks)`), in insertion order. -/
def keysOf (ts : Tasks) : List TaskId :=
  ts.map Prod.fst

theorem lookupTask_set_self (ts : Tasks) (id : TaskId) (t : Task) :
    lookupTask (setTask ts id t) id = some t := by
  induction ts with
  | nil => simp [setTask, lookupTask]
  | cons p ts ih =>
    by_cases h : p.1 = id <;> simp [setTask, lookupTask, h, ih]

theorem lookupTask_set_other (ts : Tasks) (id j : TaskId) (t : Task) (h : j ≠ id) :
    lookupTask (setTask ts id t) j = lookupTask ts j := by
  have hij : id ≠ j := fun hh => h hh.symm
  induction ts with
  | nil => simp [setTask, lookupTask, hij]
  | cons p ts ih =>
    obtain ⟨k, v⟩ := p
    by_cases hk : k = id
    · subst hk
      have : k ≠ j := hij
      simp [setTask, lookupTask, this]
    · by_cases hj : k = j
      · subst hj
        simp [setTask, lookupTask, hk]
      · simp [setTask, lookupTask, hk, hj, ih]

theorem isSome_lookupTask_set (ts : Tasks) (id j : TaskId) (t : Task) :
    (lookupTask (setTask ts id t) j).isSome = true ↔
      j = id ∨ (lookupTask ts j).isSome = true := by
  by_cases h : j = id
  · subst h; simp [lookupTask_set_self]
  · simp [lookupTask_set_other ts id j t h, h]

theorem lookupTask_erase_self (ts : Tasks) (id : TaskId) :
    lookupTask (eraseTask ts id) id = none := by
  induction ts with
  | nil => simp [eraseTask, lookupTask]
  | cons p ts ih =>
    obtain ⟨k, v⟩ := p
    by_cases h : k = id
    · simpa [eraseTask, lookupTask, h] using ih
    · simpa [eraseTask, lookupTask, h] using ih

theorem lookupTask_erase_other (ts : Tasks) (id j : TaskId) (h : j ≠ id) :
    lookupTask (eraseTask ts id) j = lookupTask ts j := by
  induction ts with
  | nil => simp [eraseTask, lookupTask]
  | cons p ts ih =>
    obtain ⟨k, v⟩ := p
    by_cases hk : k = id
    · subst hk
      have hj : ¬k = j := fun hh => h hh.symm
      simpa [eraseTask, lookupTask, hj] using ih
    · by_cases hj : k = j
      · subst hj
        simp [eraseTask, lookupTask, hk]
      · simpa [eraseTask, lookupTask, hk, hj] using ih

theorem keysOf_set (ts : Tasks) (id : TaskId) (t : Task) :
    keysOf (setTask ts id t) =
      if (lookupTask ts id).isSome then keysOf ts else keysOf ts ++ [id] := by
  induction ts with
  | nil => simp [setTask, keysOf, lookupTask]
  | cons p ts ih =>
    by_cases h : p.1 = id
    · subst h; simp [setTask, keysOf, lookupTask]
    · simp only [setTask, keysOf, lookupTask, h, if_neg h, List.map_cons]
      by_cases hs : (lookupTask ts id).isSome <;>
        simp [hs, keysOf] at ih ⊢ <;> simp [ih]

theorem mem_keysOf_iff (ts : Tasks) (id : TaskId) :
    id ∈ keysOf ts ↔ (lookupTask ts id).isSome = true := by
  induction ts with
  | nil => simp [keysOf, lookupTask]
  | cons p ts ih =>
    obtain ⟨k, v⟩ := p
    by_cases h : k = id
    · subst h
      simp [keysOf, lookupTask]
    · have hik : ¬id = k := fun hh => h hh.symm
      simp only [keysOf, List.map_cons, List.mem_cons, lookupTask, if_neg h]
      simp only [keysOf] at ih
      rw [ih]
      simp [hik]

theorem keysOf_nodup_set (ts : Tasks) (id : TaskId) (t : Task)
    (h : (keysOf ts).Nodup) : (keysOf (setTask ts id t)).Nodup := by
  rw [keysOf_set]
  by_cases hs : (lookupTask ts id).isSome
  · simpa [hs] using h
  · have hid : id ∉ keysOf ts := by
      rw [mem_keysOf_iff]
      simpa using hs
    simp only [hs, if_false, List.nodup_append, Bool.false_eq_true]
    refine ⟨h, List.nodup_singleton id, ?_⟩
    intro x hx hx1
    simp at hx1
    exact hid (hx1 ▸ hx)

/-- Logical-clock helper: `nowMs <= prev ? prev + 1 : nowMs`. -/
def nextUpdatedAt (prev nowMs : Int) : Int :=
  if nowMs ≤ prev then prev + 1 else nowMs

/-- Process-wide mutable clock state (`maxKnownRev` module variable),
made explicit. -/
structure ClockState where
  maxKnownRev : Int
deriving DecidableEq

structure WriteMeta where
  rev : Int
  updatedAt : Int
  clientId : String
deriving DecidableEq

/-- Embedding of `noteExternalRevision` (`Math.floor` on an integer model is
the identity and `Number.isFinite` always holds). -/
def noteExternalRevision (c : ClockState) (rev : Int) : ClockState :=
  { maxKnownRev := max c.maxKnownRev rev }

/-- Embedding of `getNextWriteMeta`: returns the write metadata together with
the updated process-wide clock state. -/
def getNextWriteMeta (c : ClockState) (clientId : String)
    (currentRev currentUpdatedAt nowMs : Int) : WriteMeta × ClockState :=
  let updatedAt := nextUpdatedAt currentUpdatedAt nowMs
  let rev := max currentRev c.maxKnownRev + 1
  (⟨rev, updatedAt, clientId⟩, ⟨max c.maxKnownRev rev⟩)

/-- Result of `takeNextTaskId`. -/
structure TakeNext where
  nextId : Option TaskId
  wokenQueue : List TaskId
  readyQueue : List TaskId
deriving DecidableEq

/-- Embedding of `takeNextTaskId`: pop the woken-queue head if any, else the
ready-queue head. -/
def takeNextTaskId : List TaskId → List TaskId → TakeNext
  | nextId :: rest, readyQueue => ⟨some nextId, rest, readyQueue⟩
  | [], nextId :: rest => ⟨some nextId, [], rest⟩
  | [], [] => ⟨none, [], []⟩

/-- The `set` wrapper's metadata stamp: `{ ...next, ...meta }`. -/
def applyMeta (m : WriteMeta) (s : AppState) : AppState :=
  { s with rev := m.rev, updatedAt := m.updatedAt, clientId := m.clientId }

/-- The `set` wrapper: an updater returning the identical reference (`none`)
leaves the state untouched, any other result is stamped with fresh write
metadata. -/
def runOp (m : WriteMeta) (body : AppState → Option AppState) (s : AppState) :
    AppState :=
  match body s with
  | none => s
  | some t => applyMeta m t

/-- Embedding of the `addTask` updater. The generated `crypto.randomUUID()`
and `Date.now()` are passed as parameters. -/
def addTaskBody (id : TaskId) (title : String) (now : Int) (s : AppState) :
    Option AppState :=
  let newTask : Task :=
    { id := id, title := title.trim, createdAt := now, updatedAt := now
      doneAt := none, restoredAt := none, attachments := [], subtasks := []
      notesMd := ""
      ui := ⟨false, false, false, false⟩, snoozeUntil := none, snoozeSeq := none }
  let newReadyQueue :=
    match s.currentTaskId with
    | some cur => s.readyQueue ++ [cur]
    | none => s.readyQueue
  some { s with tasks := setTask s.tasks id newTask, currentTaskId := some id
                readyQueue := newReadyQueue }

/-- Embedding of the `completeTask` updater. -/
def completeTaskBody (now : Int) (s : AppState) : Option AppState :=
  match s.currentTaskId with
  | none => none
  | some cur =>
    let updatedTasks :=
      match lookupTask s.tasks cur with
      | some t =>
        let u := nextUpdatedAt t.updatedAt now
        setTask s.tasks cur { t with doneAt := some u, restoredAt := none, updatedAt := u }
      | none => s.tasks
    let pick := takeNextTaskId s.wokenQueue s.readyQueue
    some { s with tasks := updatedTasks, currentTaskId := pick.nextId
                  wokenQueue := pick.wokenQueue, readyQueue := pick.readyQueue
                  completedIds := cur :: s.completedIds }

/-- Embedding of the `completeTaskById` updater. -/
def completeTaskByIdBody (id : TaskId) (now : Int) (s : AppState) :
    Option AppState :=
  match lookupTask s.tasks id with
  | none => none
  | some task =>
    if id ∈ s.completedIds then none
    else
      let updatedAt := nextUpdatedAt task.updatedAt now
      let updatedTask : Task :=
        { task with doneAt := some updatedAt, updatedAt := updatedAt
                    restoredAt := none, snoozeUntil := none, snoozeSeq := none }
      let nextWokenQueue := s.wokenQueue.filter (fun x => x ≠ id)
      let nextReadyQueue := s.readyQueue.filter (fun x => x ≠ id)
      let nextSnoozedIds := s.snoozedIds.filter (fun x => x ≠ id)
      let nextCompletedIds := id :: s.completedIds.filter (fun x => x ≠ id)
      if some id = s.currentTaskId then
        let pick := takeNextTaskId nextWokenQueue nextReadyQueue
        some { s with tasks := setTask s.tasks id updatedTask
                      currentTaskId := pick.nextId
                      wokenQueue := pick.wokenQueue, readyQueue := pick.readyQueue
                      snoozedIds := nextSnoozedIds, completedIds := nextCompletedIds }
      else
        some { s with tasks := setTask s.tasks id updatedTask
                      wokenQueue := nextWokenQueue, readyQueue := nextReadyQueue
                      snoozedIds := nextSnoozedIds, completedIds := nextCompletedIds }

/-- Shared "Case B" of the `snoozeTask` updater (round-robin rotate when
another runnable task exists, otherwise a fixed 60 s auto snooze), reached
both with no duration argument and with a non-positive one. -/
def snoozeQuickDefer (now : Int) (cur : TaskId) (currentTask : Task)
    (s : AppState) : Option AppState :=
  if s.wokenQueue.length > 0 ∨ s.readyQueue.length > 0 then
    let updatedReadyQueue := s.readyQueue ++ [cur]
    let pick := takeNextTaskId s.wokenQueue updatedReadyQueue
    some { s with wokenQueue := pick.wokenQueue, readyQueue := pick.readyQueue
                  currentTaskId := pick.nextId }
  else
    let autoDurationMs : Int := 60 * 1000
    let seq := s.nextSnoozeSeq
    let updatedTasks :=
      setTask s.tasks cur
        { currentTask with snoozeUntil := some (now + autoDurationMs)
                           snoozeSeq := some seq }
    let updatedSnoozedIds :=
      if cur ∈ s.snoozedIds then s.snoozedIds else s.snoozedIds ++ [cur]
    some { s with tasks := updatedTasks
                  snoozedIds := updatedSnoozedIds
                  currentTaskId := none
                  nextSnoozeSeq := s.nextSnoozeSeq + 1 }

/-- Embedding of the `snoozeTask` updater; `durationMs` is `none` for the
argument-less "quick defer" call. -/
def snoozeTaskBody (durationMs : Option Int) (now : Int) (s : AppState) :
    Option AppState :=
  match s.currentTaskId with
  | none => none
  | some cur =>
    match lookupTask s.tasks cur with
    | none =>
      let pick := takeNextTaskId s.wokenQueue s.readyQueue
      some { s with currentTaskId := pick.nextId
                    wokenQueue := pick.wokenQueue, readyQueue := pick.readyQueue }
    | some currentTask =>
      match durationMs with
      | some d =>
        if 0 < d then
          let seq := s.nextSnoozeSeq
          let updatedTasks :=
            setTask s.tasks cur
              { currentTask with snoozeUntil := some (now + d), snoozeSeq := some seq }
          let updatedSnoozedIds :=
            if cur ∈ s.snoozedIds then s.snoozedIds else s.snoozedIds ++ [cur]
          let pick := takeNextTaskId s.wokenQueue s.readyQueue
          some { s with tasks := updatedTasks
                        wokenQueue := pick.wokenQueue, readyQueue := pick.readyQueue
                        snoozedIds := updatedSnoozedIds
                        currentTaskId := pick.nextId
                        nextSnoozeSeq := s.nextSnoozeSeq + 1 }
        else
          snoozeQuickDefer now cur currentTask s
      | none => snoozeQuickDefer now cur currentTask s

/-- Embedding of the `moveTaskToWake` updater. -/
def moveTaskToWakeBody (id : TaskId) (s : AppState) : Option AppState :=
  if some id = s.currentTaskId then none
  else if id ∈ s.completedIds then none
  else
    match lookupTask s.tasks id with
    | none => none
    | some task =>
      let wasSnoozed := id ∈ s.snoozedIds
      let nextSnoozedIds := s.snoozedIds.filter (fun x => x ≠ id)
      let nextWokenQueue := s.wokenQueue.filter (fun x => x ≠ id) ++ [id]
      let nextReadyQueue := s.readyQueue.filter (fun x => x ≠ id)
      let updatedTasks :=
        if wasSnoozed then
          setTask s.tasks id { task with snoozeUntil := none, snoozeSeq := none }
        else s.tasks
      match s.currentTaskId with
      | some cur =>
        some { s with currentTaskId := some cur
                      wokenQueue := nextWokenQueue, readyQueue := nextReadyQueue
                      snoozedIds := nextSnoozedIds, tasks := updatedTasks }
      | none =>
        let pick := takeNextTaskId nextWokenQueue nextReadyQueue
        some { s with currentTaskId := pick.nextId
                      wokenQueue := pick.wokenQueue, readyQueue := pick.readyQueue
                      snoozedIds := nextSnoozedIds, tasks := updatedTasks }

/-- Embedding of the `moveTaskToQueue` updater. -/
def moveTaskToQueueBody (id : TaskId) (s : AppState) : Option AppState :=
  if some id = s.currentTaskId then none
  else if id ∈ s.completedIds then none
  else
    match lookupTask s.tasks id with
    | none => none
    | some task =>
      let wasSnoozed := id ∈ s.snoozedIds
      let nextSnoozedIds := s.snoozedIds.filter (fun x => x ≠ id)
      let nextWokenQueue := s.wokenQueue.filter (fun x => x ≠ id)
      let nextReadyQueue := s.readyQueue.filter (fun x => x ≠ id) ++ [id]
      let updatedTasks :=
        if wasSnoozed then
          setTask s.tasks id { task with snoozeUntil := none, snoozeSeq := none }
        else s.tasks
      match s.currentTaskId with
      | some cur =>
        some { s with currentTaskId := some cur
                      wokenQueue := nextWokenQueue, readyQueue := nextReadyQueue
                      snoozedIds := nextSnoozedIds, tasks := updatedTasks }
      | none =>
        let pick := takeNextTaskId nextWokenQueue nextReadyQueue
        some { s with currentTaskId := pick.nextId
                      wokenQueue := pick.wokenQueue, readyQueue := pick.readyQueue
                      snoozedIds := nextSnoozedIds, tasks := updatedTasks }

/-- Embedding of the `moveTaskToQueueHead` updater. -/
def moveTaskToQueueHeadBody (id : TaskId) (s : AppState) : Option AppState :=
  if some id = s.currentTaskId then none
  else if id ∈ s.completedIds then none
  else
    match lookupTask s.tasks id with
    | none => none
    | some task =>
      let wasSnoozed := id ∈ s.snoozedIds
      let nextSnoozedIds := s.snoozedIds.filter (fun x => x ≠ id)
      let nextWokenQueue := s.wokenQueue.filter (fun x => x ≠ id)
      let nextReadyQueue := id :: s.readyQueue.filter (fun x => x ≠ id)
      let updatedTasks :=
        if wasSnoozed then
          setTask s.tasks id { task with snoozeUntil := none, snoozeSeq := none }
        else s.tasks
      match s.currentTaskId with
      | some cur =>
        some { s with currentTaskId := some cur
                      wokenQueue := nextWokenQueue, readyQueue := nextReadyQueue
                      snoozedIds := nextSnoozedIds, tasks := updatedTasks }
      | none =>
        let pick := takeNextTaskId nextWokenQueue nextReadyQueue
        some { s with currentTaskId := pick.nextId
                      wokenQueue := pick.wokenQueue, readyQueue := pick.readyQueue
                      snoozedIds := nextSnoozedIds, tasks := updatedTasks }

/-- Embedding of the `focusTask` updater (demotes the previous current task
to the woken-queue head). -/
def focusTaskBody (id : TaskId) (s : AppState) : Option AppState :=
  if some id = s.currentTaskId then none
  else if id ∈ s.completedIds then none
  else
    match lookupTask s.tasks id with
    | none => none
    | some task =>
      let wasSnoozed := id ∈ s.snoozedIds
      let nextSnoozedIds := s.snoozedIds.filter (fun x => x ≠ id)
      let nextWokenQueue := s.wokenQueue.filter (fun x => x ≠ id)
      let nextReadyQueue := s.readyQueue.filter (fun x => x ≠ id)
      let updatedTasks :=
        if wasSnoozed then
          setTask s.tasks id { task with snoozeUntil := none, snoozeSeq := none }
        else s.tasks
      let normalizedWokenQueue :=
        match s.currentTaskId with
        | some cur =>
          if (lookupTask s.tasks cur).isSome then
            cur :: nextWokenQueue.filter (fun x => x ≠ cur)
          else nextWokenQueue
        | none => nextWokenQueue
      some { s with currentTaskId := some id
                    wokenQueue := normalizedWokenQueue, readyQueue := nextReadyQueue
                    snoozedIds := nextSnoozedIds, tasks := updatedTasks }

/-- Embedding of the `focusTaskFromQueue` updater (demotes the previous
current task to the woken-queue tail). -/
def focusTaskFromQueueBody (id : TaskId) (s : AppState) : Option AppState :=
  if some id = s.currentTaskId then none
  else if id ∈ s.completedIds then none
  else
    match lookupTask s.tasks id with
    | none => none
    | some task =>
      let wasSnoozed := id ∈ s.snoozedIds
      let nextSnoozedIds := s.snoozedIds.filter (fun x => x ≠ id)
      let nextWokenQueue := s.wokenQueue.filter (fun x => x ≠ id)
      let nextReadyQueue := s.readyQueue.filter (fun x => x ≠ id)
      let updatedTasks :=
        if wasSnoozed then
          setTask s.tasks id { task with snoozeUntil := none, snoozeSeq := none }
        else s.tasks
      let normalizedWokenQueue :=
        match s.currentTaskId with
        | some cur =>
          if (lookupTask s.tasks cur).isSome then
            nextWokenQueue.filter (fun x => x ≠ cur) ++ [cur]
          else nextWokenQueue
        | none => nextWokenQueue
      some { s with currentTaskId := some id
                    wokenQueue := normalizedWokenQueue, readyQueue := nextReadyQueue
                    snoozedIds := nextSnoozedIds, tasks := updatedTasks }

/-- Embedding of the `moveCurrentToQueueHead` updater. -/
def moveCurrentToQueueHeadBody (s : AppState) : Option AppState :=
  match s.currentTaskId with
  | none => none
  | some cur =>
    if cur ∈ s.completedIds then none
    else
      match lookupTask s.tasks cur with
      | none =>
        let pick := takeNextTaskId s.wokenQueue s.readyQueue
        some { s with currentTaskId := pick.nextId
                      wokenQueue := pick.wokenQueue, readyQueue := pick.readyQueue }
      | some currentTask =>
        let updatedTasks :=
          if currentTask.snoozeUntil.isSome then
            setTask s.tasks cur
              { currentTask with snoozeUntil := none, snoozeSeq := none }
          else s.tasks
        let nextSnoozedIds := s.snoozedIds.filter (fun x => x ≠ cur)
        let baseWokenQueue := s.wokenQueue.filter (fun x => x ≠ cur)
        let baseReadyQueue := s.readyQueue.filter (fun x => x ≠ cur)
        match baseWokenQueue with
        | wakeHead :: restWake =>
          some { s with currentTaskId := some wakeHead
                        wokenQueue := restWake
                        readyQueue := (cur :: baseReadyQueue).filter (fun x => x ≠ wakeHead)
                        snoozedIds := nextSnoozedIds, tasks := updatedTasks }
        | [] =>
          match baseReadyQueue with
          | queueHead :: restReady =>
            some { s with currentTaskId := some queueHead
                          wokenQueue := []
                          readyQueue := cur :: restReady
                          snoozedIds := nextSnoozedIds, tasks := updatedTasks }
          | [] =>
            some { s with currentTaskId := none
                          wokenQueue := []
                          readyQueue := [cur]
                          snoozedIds := nextSnoozedIds, tasks := updatedTasks }

/-- Embedding of the `swapCurrentWithWakeHead` updater. -/
def swapCurrentWithWakeHeadBody (s : AppState) : Option AppState :=
  match s.currentTaskId with
  | none => none
  | some cur =>
    if cur ∈ s.completedIds then none
    else
      match lookupTask s.tasks cur with
      | none =>
        let pick := takeNextTaskId s.wokenQueue s.readyQueue
        some { s with currentTaskId := pick.nextId
                      wokenQueue := pick.wokenQueue, readyQueue := pick.readyQueue }
      | some currentTask =>
        let updatedTasks :=
          if currentTask.snoozeUntil.isSome then
            setTask s.tasks cur
              { currentTask with snoozeUntil := none, snoozeSeq := none }
          else s.tasks
        let baseWokenQueue := s.wokenQueue.filter (fun x => x ≠ cur)
        let baseReadyQueue := s.readyQueue.filter (fun x => x ≠ cur)
        let baseSnoozedIds := s.snoozedIds.filter (fun x => x ≠ cur)
        match baseWokenQueue with
        | wakeHead :: restWake =>
          let normalizedReadyQueue := baseReadyQueue.filter (fun x => x ≠ wakeHead)
          let normalizedSnoozedIds := baseSnoozedIds.filter (fun x => x ≠ wakeHead)
          let updatedTasks2 :=
            match lookupTask s.tasks wakeHead with
            | some wakeTask =>
              if wakeTask.snoozeUntil.isSome then
                setTask updatedTasks wakeHead
                  { wakeTask with snoozeUntil := none, snoozeSeq := none }
              else updatedTasks
            | none => updatedTasks
          some { s with currentTaskId := some wakeHead
                        wokenQueue := cur :: restWake
                        readyQueue := normalizedReadyQueue
                        snoozedIds := normalizedSnoozedIds, tasks := updatedTasks2 }
        | [] =>
          match baseReadyQueue with
          | h :: t =>
            some { s with currentTaskId := some h
                          wokenQueue := [cur], readyQueue := t
                          snoozedIds := baseSnoozedIds, tasks := updatedTasks }
          | [] =>
            some { s with currentTaskId := none
                          wokenQueue := [cur], readyQueue := []
                          snoozedIds := baseSnoozedIds, tasks := updatedTasks }

/-- Embedding of the `resumeSnoozedTask` updater. -/
def resumeSnoozedTaskBody (id : TaskId) (s : AppState) : Option AppState :=
  if id ∉ s.snoozedIds then none
  else
    let nextSnoozedIds := s.snoozedIds.filter (fun sid => sid ≠ id)
    match lookupTask s.tasks id with
    | none => some { s with snoozedIds := nextSnoozedIds }
    | some task =>
      if some id = s.currentTaskId ∨ id ∈ s.wokenQueue ∨ id ∈ s.readyQueue ∨
          id ∈ s.completedIds then
        some { s with snoozedIds := nextSnoozedIds
                      tasks := setTask s.tasks id
                        { task with snoozeUntil := none, snoozeSeq := none } }
      else
        let updatedTasks :=
          setTask s.tasks id { task with snoozeUntil := none, snoozeSeq := none }
        let nextReadyQueue := s.readyQueue ++ [id]
        match s.currentTaskId with
        | some cur =>
          some { s with tasks := updatedTasks, snoozedIds := nextSnoozedIds
                        wokenQueue := s.wokenQueue, readyQueue := nextReadyQueue
                        currentTaskId := some cur }
        | none =>
          let pick := takeNextTaskId s.wokenQueue nextReadyQueue
          some { s with tasks := updatedTasks, snoozedIds := nextSnoozedIds
                        wokenQueue := pick.wokenQueue, readyQueue := pick.readyQueue
                        currentTaskId := pick.nextId }

/-- Accumulating walk shared by the two `reorder*` updaters: keep, in hint
order, the first occurrence of every id that is a member of the existing
queue. -/
def reorderPick (existing : List TaskId) :
    List TaskId → List TaskId → List TaskId
  | _, [] => []
  | seen, id :: rest =>
    if id ∈ existing then
      if id ∈ seen then reorderPick existing seen rest
      else id :: reorderPick existing (id :: seen) rest
    else reorderPick existing seen rest

/-- Second phase of the `reorder*` updaters: append the members of the
existing queue that the hint did not mention. -/
def reorderFill (seen : List TaskId) : List TaskId → List TaskId
  | [] => []
  | id :: rest =>
    if id ∈ seen then reorderFill seen rest
    else id :: reorderFill (id :: seen) rest

/-- Normalized queue computed by the `reorder*` updaters from a hint order. -/
def reorderNormalized (existing newOrder : List TaskId) : List TaskId :=
  reorderPick existing [] newOrder ++
    reorderFill (reorderPick existing [] newOrder) existing

/-- Embedding of the `reorderWokenQueue` updater. -/
def reorderWokenQueueBody (newOrder : List TaskId) (s : AppState) :
    Option AppState :=
  if s.wokenQueue.length = 0 then none
  else
    let normalized := reorderNormalized s.wokenQueue newOrder
    if normalized = s.wokenQueue then none
    else some { s with wokenQueue := normalized }

/-- Embedding of the `reorderReadyQueue` updater. -/
def reorderReadyQueueBody (newOrder : List TaskId) (s : AppState) :
    Option AppState :=
  if s.readyQueue.length = 0 then none
  else
    let normalized := reorderNormalized s.readyQueue newOrder
    if normalized = s.readyQueue then none
    else some { s with readyQueue := normalized }

/-- Embedding of the `deleteTask` updater. -/
def deleteTaskBody (s : AppState) : Option AppState :=
  match s.currentTaskId with
  | none => none
  | some cur =>
    let newTasks := eraseTask s.tasks cur
    let nextWokenQueue := s.wokenQueue.filter (fun x => x ≠ cur)
    let nextReadyQueue := s.readyQueue.filter (fun x => x ≠ cur)
    let nextSnoozedIds := s.snoozedIds.filter (fun x => x ≠ cur)
    let nextCompletedIds := s.completedIds.filter (fun x => x ≠ cur)
    let nextDeletedIds :=
      (if cur ∈ s.deletedIds then s.deletedIds else s.deletedIds ++ [cur]).insertionSort (· ≤ ·)
    let pick := takeNextTaskId nextWokenQueue nextReadyQueue
    some { s with currentTaskId := pick.nextId
                  wokenQueue := pick.wokenQueue, readyQueue := pick.readyQueue
                  snoozedIds := nextSnoozedIds, completedIds := nextCompletedIds
                  deletedIds := nextDeletedIds, tasks := newTasks }

/-- Embedding of the `updateTaskTitle` updater. -/
def updateTaskTitleBody (id : TaskId) (title : String) (now : Int)
    (s : AppState) : Option AppState :=
  match lookupTask s.tasks id with
  | none => none
  | some task =>
    some { s with tasks := setTask s.tasks id
                    { task with title := title
                                updatedAt := nextUpdatedAt task.updatedAt now } }

/-- Embedding of the `restoreTask` updater. -/
def restoreTaskBody (id : TaskId) (now : Int) (s : AppState) :
    Option AppState :=
  if id ∉ s.completedIds then none
  else
    let newCompletedIds := s.completedIds.filter (fun cid => cid ≠ id)
    let newReadyQueue := s.readyQueue ++ [id]
    let afterPick :=
      match s.currentTaskId with
      | some cur => (some cur, s.wokenQueue, newReadyQueue)
      | none =>
        let pick := takeNextTaskId s.wokenQueue newReadyQueue
        (pick.nextId, pick.wokenQueue, pick.readyQueue)
    let updatedTasks :=
      match lookupTask s.tasks id with
      | some task =>
        let restoredAt := nextUpdatedAt task.updatedAt now
        setTask s.tasks id
          { task with restoredAt := some restoredAt, updatedAt := restoredAt }
      | none => s.tasks
    some { s with completedIds := newCompletedIds
                  wokenQueue := afterPick.2.1, readyQueue := afterPick.2.2
                  currentTaskId := afterPick.1, tasks := updatedTasks }

/-- Accumulating walk of `clearHistory` over `completedIds`: every completed
id not referenced from another lane is removed from the task map and pushed
onto the tombstone list unless already present. -/
def clearHistoryFold (referenced : List TaskId) :
    Tasks → List TaskId → List TaskId → Tasks × List TaskId
  | ts, dels, [] => (ts, dels)
  | ts, dels, id :: rest =>
    if id ∈ referenced then clearHistoryFold referenced ts dels rest
    else
      clearHistoryFold referenced (eraseTask ts id)
        (if id ∈ dels then dels else dels ++ [id]) rest

/-- Due test used by `tick`: the task exists, has a numeric `snoozeUntil`,
and it is not in the future. -/
def dueAt (tasks : Tasks) (now : Int) (id : TaskId) : Bool :=
  match lookupTask tasks id with
  | some t =>
    match t.snoozeUntil with
    | some u => u ≤ now
    | none => false
  | none => false

/-- Single pass of `tick` over `snoozedIds` carrying the original index:
separates the due entries `(id, until, seq, index)` (with `seq` defaulting
to the index when the task has no numeric `snoozeSeq`) from the ids that
stay snoozed. -/
def dueSplit (tasks : Tasks) (now : Int) :
    List TaskId → Nat → List (TaskId × Int × Int × Nat) × List TaskId
  | [], _ => ([], [])
  | id :: rest, i =>
    let (d, r) := dueSplit tasks now rest (i + 1)
    match lookupTask tasks id with
    | some t =>
      match t.snoozeUntil with
      | some u =>
        if u ≤ now then ((id, u, t.snoozeSeq.getD (Int.ofNat i), i) :: d, r)
        else (d, id :: r)
      | none => (d, id :: r)
    | none => (d, id :: r)

/-- Comparator of the due-entry sort: ascending `(until, seq, index)`. -/
def dueLe (x y : TaskId × Int × Int × Nat) : Prop :=
  x.2.1 < y.2.1 ∨
    (x.2.1 = y.2.1 ∧
      (x.2.2.1 < y.2.2.1 ∨ (x.2.2.1 = y.2.2.1 ∧ x.2.2.2 ≤ y.2.2.2)))

instance : DecidableRel dueLe := fun x y => by
  unfold dueLe
  infer_instance

/-- The `existing` set of `tick`: ids already placed somewhere other than
`snoozedIds`. -/
def tickExisting (s : AppState) : List TaskId :=
  (match s.currentTaskId with
   | some cur => [cur]
   | none => []) ++ s.wokenQueue ++ s.readyQueue ++ s.completedIds

/-- The accumulating `due.forEach` of `tick`: enqueue a due id unless it is
already `existing`, extending the set as it goes. -/
def buildEnqueued (existing : List TaskId) : List TaskId → List TaskId
  | [] => []
  | id :: rest =>
    if id ∈ existing then buildEnqueued existing rest
    else id :: buildEnqueued (id :: existing) rest

/-- Due ids of `tick`, in the woken order `(until, seq, index)`. -/
def tickDueIds (now : Int) (s : AppState) : List TaskId :=
  (((dueSplit s.tasks now s.snoozedIds 0).1).insertionSort dueLe).map (·.1)

/-- Ids `tick` actually appends to the woken queue. -/
def tickEnqueuedIds (now : Int) (s : AppState) : List TaskId :=
  buildEnqueued (tickExisting s) (tickDueIds now s)

/-- The `due.forEach` snooze-field clearing of `tick`: every due id with a
task record gets `snoozeUntil`/`snoozeSeq` cleared (reading the original
map, writing the accumulator, exactly like the source). -/
def clearDueSnooze (orig : Tasks) : Tasks → List TaskId → Tasks
  | acc, [] => acc
  | acc, id :: rest =>
    match lookupTask orig id with
    | some t =>
      clearDueSnooze orig
        (setTask acc id { t with snoozeUntil := none, snoozeSeq := none }) rest
    | none => clearDueSnooze orig acc rest

/-- Embedding of `tick`: returns the woken count and, when anything was due,
the updated state (`none` models the `return state` same-reference paths,
which also covers the early `snoozedIds.length === 0` exit). -/
def tickBody (now : Int) (s : AppState) : Int × Option AppState :=
  if s.snoozedIds = [] then (0, none)
  else if ¬s.snoozedIds.any (fun id => dueAt s.tasks now id) then (0, none)
  else
    let split := dueSplit s.tasks now s.snoozedIds 0
    if split.1 = [] then (0, none)
    else
      let dueIds := tickDueIds now s
      let enqueuedIds := tickEnqueuedIds now s
      let updatedTasks := clearDueSnooze s.tasks s.tasks dueIds
      let nextWokenQueue :=
        if enqueuedIds.length > 0 then s.wokenQueue ++ enqueuedIds
        else s.wokenQueue
      match s.currentTaskId with
      | some cur =>
        (Int.ofNat enqueuedIds.length,
          some { s with snoozedIds := split.2, wokenQueue := nextWokenQueue
                        readyQueue := s.readyQueue, currentTaskId := some cur
                        tasks := updatedTasks })
      | none =>
        let pick := takeNextTaskId nextWokenQueue s.readyQueue
        (Int.ofNat enqueuedIds.length,
          some { s with snoozedIds := split.2, wokenQueue := pick.wokenQueue
                        readyQueue := pick.readyQueue, currentTaskId := pick.nextId
                        tasks := updatedTasks })

/-- The full `tick` call through the `set` wrapper. -/
def tickRun (m : WriteMeta) (now : Int) (s : AppState) : Int × AppState :=
  match tickBody now s with
  | (n, none) => (n, s)
  | (n, some t) => (n, applyMeta m t)

/-- Embedding of the `clearHistory` updater. -/
def clearHistoryBody (s : AppState) : Option AppState :=
  if s.completedIds = [] then none
  else
    let referencedIds :=
      (match s.currentTaskId with
       | some cur => [cur]
       | none => []) ++ s.wokenQueue ++ s.readyQueue ++ s.snoozedIds
    let folded := clearHistoryFold referencedIds s.tasks s.deletedIds s.completedIds
    some { s with completedIds := []
                  deletedIds := folded.2.insertionSort (· ≤ ·)
                  tasks := folded.1 }

/-- Sign of `compareOrderKey(orderKey(a), orderKey(b)) >= 0`: `a` wins the
descending lexicographic comparison of `(updatedAt, rev, clientId)`. -/
def newerIsA (a b : AppState) : Prop :=
  if a.updatedAt ≠ b.updatedAt then b.updatedAt < a.updatedAt
  else if a.rev ≠ b.rev then b.rev < a.rev
  else b.clientId ≤ a.clientId

instance (a b : AppState) : Decidable (newerIsA a b) := by
  unfold newerIsA
  infer_instance

/-- Embedding of `pickNewerTask`; `tieToA` is the value of the reference
check `tieBreaker.tasks[a.id] === a` (true exactly when the tie-breaking
snapshot is the first argument's). -/
def pickNewerTask (ta tb : Task) (tieToA : Bool) : Task :=
  if ta.updatedAt ≠ tb.updatedAt then
    if tb.updatedAt < ta.updatedAt then ta else tb
  else if tieToA then ta else tb

/-- Embedding of `maxOptionalNumber`. -/
def maxOptionalNumber : Option Int → Option Int → Option Int
  | none, b => b
  | some x, none => some x
  | some x, some y => some (max x y)

/-- Embedding of `isCompleted`: `doneAt ?? -1 > restoredAt ?? -1`. -/
def isCompleted (t : Task) : Bool :=
  decide (t.restoredAt.getD (-1) < t.doneAt.getD (-1))

/-- First-occurrence deduplication, the iteration order of a JS `Set`. -/
def uniqueFirstAux (seen : List TaskId) : List TaskId → List TaskId
  | [] => []
  | x :: xs =>
    if x ∈ seen then uniqueFirstAux seen xs
    else x :: uniqueFirstAux (x :: seen) xs

def uniqueFirst (l : List TaskId) : List TaskId :=
  uniqueFirstAux [] l

/-- Embedding of `uniqueSortedIds`: `Array.from(new Set(ids)).sort()`. -/
def uniqueSortedIds (ids : List TaskId) : List TaskId :=
  (uniqueFirst ids).insertionSort (· ≤ ·)

/-- Tombstone union computed by `mergeAppState`. -/
def mergeDeletedIds (a b : AppState) : List TaskId :=
  uniqueSortedIds (a.deletedIds ++ b.deletedIds)

/-- Per-task merge body of `mergeAppState` when the id exists on both
sides. -/
def mergeBoth (ta tb : Task) (tieToA : Bool) (id : TaskId) : Task :=
  let base := pickNewerTask ta tb tieToA
  let createdAt := min ta.createdAt tb.createdAt
  let doneAt := maxOptionalNumber ta.doneAt tb.doneAt
  let restoredAt := maxOptionalNumber ta.restoredAt tb.restoredAt
  let nextUpd := max base.updatedAt (max (doneAt.getD (-1)) (restoredAt.getD (-1)))
  { base with id := id, createdAt := createdAt, updatedAt := nextUpd
              doneAt := doneAt, restoredAt := restoredAt }

/-- Per-task merge body of `mergeAppState` when the id exists on one side
only (`base` is that side's record; `createdAt` stays, `doneAt` and
`restoredAt` are the max with the absent side, i.e. unchanged). -/
def mergeOne (t : Task) (id : TaskId) : Task :=
  { t with id := id
           updatedAt := max t.updatedAt
             (max (t.doneAt.getD (-1)) (t.restoredAt.getD (-1))) }

/-- The merged record `mergeAppState` stores for an id, before the
snooze-sequence normalization pass. -/
def mergeTaskAt (a b : AppState) (id : TaskId) : Option Task :=
  match lookupTask a.tasks id, lookupTask b.tasks id with
  | none, none => none
  | some ta, none => some (mergeOne ta id)
  | none, some tb => some (mergeOne tb id)
  | some ta, some tb => some (mergeBoth ta tb (decide (newerIsA a b)) id)

/-- The merged task map before the snooze-sequence normalization pass. -/
def mergeTasks0 (a b : AppState) : Tasks :=
  (uniqueFirst (keysOf a.tasks ++ keysOf b.tasks)).filterMap
    (fun id =>
      if id ∈ mergeDeletedIds a b then none
      else (mergeTaskAt a b id).map (fun t => (id, t)))

/-- The `completedEntries` list: completed tasks with a numeric `doneAt`. -/
def completedEntriesOf (ts : Tasks) : List (TaskId × Int) :=
  ts.filterMap (fun p =>
    if isCompleted p.2 then p.2.doneAt.map (fun d => (p.1, d)) else none)

/-- Comparator of the completed sort: `doneAt` descending, then id. -/
def completedLe (x y : TaskId × Int) : Prop :=
  y.2 < x.2 ∨ (y.2 = x.2 ∧ x.1 ≤ y.1)

instance : DecidableRel completedLe := fun x y => by
  unfold completedLe
  infer_instance

/-- Recomputed `completedIds`, most recent `doneAt` first. -/
def completedIdsOf (ts : Tasks) : List TaskId :=
  ((completedEntriesOf ts).insertionSort completedLe).map (·.1)

/-- First normalization pass over the merged map: the running maximum of
the numeric `snoozeSeq` values (`Math.floor` is the identity here). -/
def maxSnoozeSeqOf (ts : Tasks) : Int :=
  ts.foldl
    (fun m p =>
      match p.2.snoozeSeq with
      | some sq => max m sq
      | none => m) 0

/-- Second normalization pass: walk the merged map in order; every
non-completed task with a `snoozeUntil` becomes a snoozed entry, allocating
`maxSnoozeSeq + 1` (and bumping the maximum) when it lacks a `snoozeSeq`.
Returns the updated map, the entries `(id, until, seq)`, and the final
maximum. -/
def allocSnoozeSeq (completed : List TaskId) :
    Tasks → Int → Tasks × List (TaskId × Int × Int) × Int
  | [], m => ([], [], m)
  | (id, t) :: ts, m =>
    if id ∈ completed then
      let r := allocSnoozeSeq completed ts m
      ((id, t) :: r.1, r.2)
    else
      match t.snoozeUntil with
      | none =>
        let r := allocSnoozeSeq completed ts m
        ((id, t) :: r.1, r.2)
      | some u =>
        match t.snoozeSeq with
        | some sq =>
          let r := allocSnoozeSeq completed ts m
          ((id, t) :: r.1, (id, u, sq) :: r.2.1, r.2.2)
        | none =>
          let r := allocSnoozeSeq completed ts (m + 1)
          ((id, { t with snoozeSeq := some (m + 1) }) :: r.1,
            (id, u, m + 1) :: r.2.1, r.2.2)

/-- Comparator of the snoozed sort: ascending `(until, seq, id)`. -/
def snoozeLe (x y : TaskId × Int × Int) : Prop :=
  x.2.1 < y.2.1 ∨
    (x.2.1 = y.2.1 ∧ (x.2.2 < y.2.2 ∨ (x.2.2 = y.2.2 ∧ x.1 ≤ y.1)))

instance : DecidableRel snoozeLe := fun x y => by
  unfold snoozeLe
  infer_instance

/-- Queue rebuild walk shared by both merge algorithms: keep, in the order
of the given source queue, the first occurrence of every active id that is
not current, not in the `skipA` set (the already-rebuilt woken queue, a set
that is always contained in `seen`), and not yet seen; returns the rebuilt
queue and the extended `seen` set. -/
def queueWalk (cur : Option TaskId) (active skipA : List TaskId) :
    List TaskId → List TaskId → List TaskId × List TaskId
  | seen, [] => ([], seen)
  | seen, id :: rest =>
    if some id = cur ∨ id ∉ active ∨ id ∈ skipA ∨ id ∈ seen then
      queueWalk cur active skipA seen rest
    else
      let r := queueWalk cur active skipA (id :: seen) rest
      (id :: r.1, r.2)

/-- The `createdAt` of an id in a task map; the sources only ever sort ids
taken from the map's own key set, so the default is never used. -/
def createdAtOf (ts : Tasks) (id : TaskId) : Int :=
  ((lookupTask ts id).map (·.createdAt)).getD 0

/-- Comparator of `sortIdsByCreatedAt`: ascending `createdAt`, then id. -/
def createdLe (ts : Tasks) (x y : TaskId) : Prop :=
  createdAtOf ts x < createdAtOf ts y ∨
    (createdAtOf ts x = createdAtOf ts y ∧ x ≤ y)

instance (ts : Tasks) : DecidableRel (createdLe ts) := fun x y => by
  unfold createdLe
  infer_instance

/-- Embedding of `sortIdsByCreatedAt`. -/
def sortIdsByCreatedAt (ts : Tasks) (ids : List TaskId) : List TaskId :=
  ids.insertionSort (createdLe ts)

/-- Shared final refill of both merge algorithms: when no current task
survived, shift the head of the woken queue, else of the ready queue. -/
def refillCurrent (cur : Option TaskId) (w r : List TaskId) :
    Option TaskId × List TaskId × List TaskId :=
  match cur with
  | some c => (some c, w, r)
  | none =>
    match w with
    | h :: t => (some h, t, r)
    | [] =>
      match r with
      | h :: t => (some h, w, t)
      | [] => (none, w, r)

/-- Embedding of `mergeAppState` (the symmetric snapshot merge). -/
def mergeAppState (a b : AppState) : AppState :=
  let newer := if newerIsA a b then a else b
  let deletedIds := mergeDeletedIds a b
  let merged0 := mergeTasks0 a b
  let completedIds := completedIdsOf merged0
  let alloc := allocSnoozeSeq completedIds merged0 (maxSnoozeSeqOf merged0)
  let mergedTasks := alloc.1
  let snoozedIds := (alloc.2.1.insertionSort snoozeLe).map (·.1)
  let maxSnoozeSeq := alloc.2.2
  let activeIds :=
    (keysOf mergedTasks).filter (fun id => id ∉ completedIds ∧ id ∉ snoozedIds)
  let currentTaskId0 :=
    match newer.currentTaskId with
    | some c => if c ∈ activeIds then some c else none
    | none => none
  let woken := queueWalk currentTaskId0 activeIds [] [] newer.wokenQueue
  let ready := queueWalk currentTaskId0 activeIds woken.1 woken.2 newer.readyQueue
  let missingActive :=
    activeIds.filter (fun id => some id ≠ currentTaskId0 ∧ id ∉ ready.2)
  let readyQueue1 := ready.1 ++ sortIdsByCreatedAt mergedTasks missingActive
  let refilled := refillCurrent currentTaskId0 woken.1 readyQueue1
  let nextSnoozeSeqCandidate :=
    max (max a.nextSnoozeSeq b.nextSnoozeSeq) (maxSnoozeSeq + 1)
  let nextSnoozeSeq :=
    if nextSnoozeSeqCandidate ≤ maxSnoozeSeq then maxSnoozeSeq + 1
    else nextSnoozeSeqCandidate
  { rev := max a.rev b.rev
    updatedAt := max a.updatedAt b.updatedAt
    clientId := newer.clientId
    version := max a.version b.version
    currentTaskId := refilled.1
    wokenQueue := refilled.2.1
    readyQueue := refilled.2.2
    snoozedIds := snoozedIds
    completedIds := completedIds
    deletedIds := deletedIds
    tasks := mergedTasks
    nextSnoozeSeq := nextSnoozeSeq }

/-- Second build pass of `mergeRemoteIntoLocalState`: append remote tasks
whose id is neither tombstoned nor already present. -/
def addRemoteTasks (deleted : List TaskId) : Tasks → Tasks → Tasks
  | acc, [] => acc
  | acc, (id, t) :: rest =>
    if id ∈ deleted then addRemoteTasks deleted acc rest
    else if (lookupTask acc id).isSome then addRemoteTasks deleted acc rest
    else addRemoteTasks deleted (acc ++ [(id, t)]) rest

/-- Third build pass of `mergeRemoteIntoLocalState`: fold the monotonic
per-task facts (`doneAt`, `restoredAt`) from the remote records into the
accumulated map. -/
def applyRemoteFacts (deleted : List TaskId) : Tasks → Tasks → Tasks
  | acc, [] => acc
  | acc, (id, remoteTask) :: rest =>
    if id ∈ deleted then applyRemoteFacts deleted acc rest
    else
      match lookupTask acc id with
      | none => applyRemoteFacts deleted acc rest
      | some localTask =>
        let doneAt := maxOptionalNumber localTask.doneAt remoteTask.doneAt
        let restoredAt := maxOptionalNumber localTask.restoredAt remoteTask.restoredAt
        if doneAt = localTask.doneAt ∧ restoredAt = localTask.restoredAt then
          applyRemoteFacts deleted acc rest
        else
          applyRemoteFacts deleted
            (setTask acc id
              { localTask with
                doneAt := doneAt, restoredAt := restoredAt
                updatedAt := max localTask.updatedAt
                  (max (doneAt.getD (-1)) (restoredAt.getD (-1))) }) rest

/-- The merged task map of `mergeRemoteIntoLocalState` before the
snooze-sequence normalization pass. -/
def reconcileTasks (loc remote : AppState) (deleted : List TaskId) : Tasks :=
  let base := loc.tasks.filter (fun p => p.1 ∉ deleted)
  applyRemoteFacts deleted (addRemoteTasks deleted base remote.tasks) remote.tasks

/-- Embedding of `mergeRemoteIntoLocalState` (the asymmetric merge). -/
def mergeRemoteIntoLocalState (loc remote : AppState) : AppState :=
  let deletedIds := uniqueSortedIds (loc.deletedIds ++ remote.deletedIds)
  let merged0 := reconcileTasks loc remote deletedIds
  let completedIds := completedIdsOf merged0
  let alloc := allocSnoozeSeq completedIds merged0 (maxSnoozeSeqOf merged0)
  let mergedTasks := alloc.1
  let snoozedIds := (alloc.2.1.insertionSort snoozeLe).map (·.1)
  let maxSnoozeSeq := alloc.2.2
  let activeIds :=
    (keysOf mergedTasks).filter (fun id => id ∉ completedIds ∧ id ∉ snoozedIds)
  let currentTaskId0 :=
    match loc.currentTaskId with
    | some c => if c ∈ activeIds then some c else none
    | none => none
  let woken := queueWalk currentTaskId0 activeIds [] [] loc.wokenQueue
  let ready := queueWalk currentTaskId0 activeIds woken.1 woken.2 loc.readyQueue
  let missingActive :=
    activeIds.filter (fun id => some id ≠ currentTaskId0 ∧ id ∉ ready.2)
  let readyQueue1 := ready.1 ++ sortIdsByCreatedAt mergedTasks missingActive
  let refilled := refillCurrent currentTaskId0 woken.1 readyQueue1
  let nextSnoozeSeqCandidate :=
    max (max loc.nextSnoozeSeq remote.nextSnoozeSeq) (maxSnoozeSeq + 1)
  let nextSnoozeSeq :=
    if nextSnoozeSeqCandidate ≤ maxSnoozeSeq then maxSnoozeSeq + 1
    else nextSnoozeSeqCandidate
  { rev := loc.rev
    updatedAt := loc.updatedAt
    clientId := loc.clientId
    version := max loc.version remote.version
    currentTaskId := refilled.1
    wokenQueue := refilled.2.1
    readyQueue := refilled.2.2
    snoozedIds := snoozedIds
    completedIds := completedIds
    deletedIds := deletedIds
    tasks := mergedTasks
    nextSnoozeSeq := nextSnoozeSeq }

/-- The singleton or empty list held by `currentTaskId`. -/
def optLane : Option TaskId → List TaskId
  | some id => [id]
  | none => []

/-- The five lanes of a state, concatenated. Lane disjointness and
queue duplicate-freedom are together equivalent to this list having no
duplicates. -/
def lanesL (cur : Option TaskId) (w r sn co : List TaskId) : List TaskId :=
  optLane cur ++ w ++ r ++ sn ++ co

def lanes (s : AppState) : List TaskId :=
  lanesL s.currentTaskId s.wokenQueue s.readyQueue s.snoozedIds s.completedIds

/-- Mutual disjointness and duplicate-freedom of the four list lanes. -/
structure QOk (w r sn co : List TaskId) : Prop where
  nw : w.Nodup
  nr : r.Nodup
  ns : sn.Nodup
  nc : co.Nodup
  dwr : w.Disjoint r
  dws : w.Disjoint sn
  dwc : w.Disjoint co
  drs : r.Disjoint sn
  drc : r.Disjoint co
  dsc : sn.Disjoint co

theorem nodup4_iff (w r sn co : List TaskId) :
    (w ++ r ++ sn ++ co).Nodup ↔ QOk w r sn co := by
  rw [List.append_assoc, List.append_assoc]
  simp only [List.nodup_append, List.disjoint_append_right]
  constructor
  · intro h
    obtain ⟨nw, ⟨nr, ⟨ns, nc, dsc⟩, drs, drc⟩, dwr, dws, dwc⟩ := h
    exact ⟨nw, nr, ns, nc, dwr, dws, dwc, drs, drc, dsc⟩
  · intro h
    obtain ⟨nw, nr, ns, nc, dwr, dws, dwc, drs, drc, dsc⟩ := h
    exact ⟨nw, ⟨nr, ⟨ns, nc, dsc⟩, drs, drc⟩, dwr, dws, dwc⟩

theorem lanesL_none_nodup_iff (w r sn co : List TaskId) :
    (lanesL none w r sn co).Nodup ↔ QOk w r sn co := by
  have : lanesL none w r sn co = w ++ r ++ sn ++ co := by
    simp [lanesL, optLane]
  rw [this, nodup4_iff]

theorem lanesL_some_eq (c : TaskId) (w r sn co : List TaskId) :
    lanesL (some c) w r sn co = c :: (w ++ r ++ sn ++ co) := by
  simp [lanesL, optLane]

theorem lanesL_some_nodup_iff (c : TaskId) (w r sn co : List TaskId) :
    (lanesL (some c) w r sn co).Nodup ↔
      ((c ∉ w ∧ c ∉ r ∧ c ∉ sn ∧ c ∉ co) ∧ QOk w r sn co) := by
  rw [lanesL_some_eq, List.nodup_cons, nodup4_iff]
  simp only [List.mem_append]
  constructor
  · rintro ⟨hm, hn⟩
    push_neg at hm
    exact ⟨⟨hm.1.1.1, hm.1.1.2, hm.1.2, hm.2⟩, hn⟩
  · rintro ⟨⟨h1, h2, h3, h4⟩, hn⟩
    refine ⟨?_, hn⟩
    push_neg
    exact ⟨⟨⟨h1, h2⟩, h3⟩, h4⟩

theorem mem_lanesL (x : TaskId) (cur : Option TaskId) (w r sn co : List TaskId) :
    x ∈ lanesL cur w r sn co ↔
      cur = some x ∨ x ∈ w ∨ x ∈ r ∨ x ∈ sn ∨ x ∈ co := by
  cases cur <;> simp [lanesL, optLane, eq_comm]

/-- The inductive invariant: the five lanes are mutually disjoint and
duplicate-free, every lane id is a key of `tasks`, and every tombstoned id
is absent from `tasks` (plus well-formedness of the map itself). -/
structure Inv (s : AppState) : Prop where
  lanesNodup : (lanes s).Nodup
  lanesKeys : ∀ id ∈ lanes s, (lookupTask s.tasks id).isSome = true
  deletedGone : ∀ id ∈ s.deletedIds, lookupTask s.tasks id = none
  deletedNodup : s.deletedIds.Nodup
  keysNodup : (keysOf s.tasks).Nodup

theorem inv_applyMeta (m : WriteMeta) (t : AppState) (h : Inv t) :
    Inv (applyMeta m t) :=
  ⟨h.lanesNodup, h.lanesKeys, h.deletedGone, h.deletedNodup, h.keysNodup⟩

theorem inv_runOp (m : WriteMeta) (body : AppState → Option AppState)
    (s : AppState) (hs : Inv s) (hb : ∀ t, body s = some t → Inv t) :
    Inv (runOp m body s) := by
  unfold runOp
  cases hbs : body s with
  | none => exact hs
  | some t => exact inv_applyMeta m t (hb t hbs)

theorem disjSub {l₁ l₂ m₁ m₂ : List TaskId} (h : l₁.Disjoint l₂)
    (s₁ : m₁ ⊆ l₁) (s₂ : m₂ ⊆ l₂) : m₁.Disjoint m₂ :=
  fun _ ha hb => h (s₁ ha) (s₂ hb)

theorem mem_filter_ne {l : List TaskId} {x y : TaskId} :
    x ∈ l.filter (fun z => z ≠ y) ↔ x ∈ l ∧ x ≠ y := by
  simp [List.mem_filter]

theorem filter_ne_subset (l : List TaskId) (y : TaskId) :
    l.filter (fun z => z ≠ y) ⊆ l :=
  List.filter_subset' l

theorem not_mem_filter_ne (l : List TaskId) (y : TaskId) :
    y ∉ l.filter (fun z => z ≠ y) := by
  simp [List.mem_filter]

/-- Characterization of `takeNextTaskId` by the three source cases. -/
theorem takeNext_spec (w r : List TaskId) :
    (w = [] ∧ r = [] ∧ takeNextTaskId w r = ⟨none, [], []⟩) ∨
    (∃ h t, w = h :: t ∧ takeNextTaskId w r = ⟨some h, t, r⟩) ∨
    (w = [] ∧ ∃ h t, r = h :: t ∧ takeNextTaskId w r = ⟨some h, [], t⟩) := by
  match w, r with
  | [], [] => exact Or.inl ⟨rfl, rfl, rfl⟩
  | x :: xs, r => exact Or.inr (Or.inl ⟨x, xs, rfl, rfl⟩)
  | [], x :: xs => exact Or.inr (Or.inr ⟨rfl, x, xs, rfl, rfl⟩)

/-- The lane shape produced by a `takeNext` refill: starting from four
mutually consistent lanes with no current task, popping the next current
id keeps the lanes consistent, and introduces no new id. -/
theorem refill_ok (w r sn co : List TaskId) (hq : QOk w r sn co) :
    (lanesL (takeNextTaskId w r).nextId (takeNextTaskId w r).wokenQueue
      (takeNextTaskId w r).readyQueue sn co).Nodup ∧
    ∀ id, id ∈ lanesL (takeNextTaskId w r).nextId (takeNextTaskId w r).wokenQueue
      (takeNextTaskId w r).readyQueue sn co →
        id ∈ lanesL none w r sn co := by
  rcases takeNext_spec w r with ⟨hw, hr, he⟩ | ⟨h, t, hw, he⟩ | ⟨hw, h, t, hr, he⟩
  · subst hw
    subst hr
    rw [he]
    exact ⟨(lanesL_none_nodup_iff _ _ _ _).2 hq, fun id hid => hid⟩
  · subst hw
    rw [he]
    have hq' : QOk t r sn co :=
      { nw := (List.nodup_cons.1 hq.nw).2
        nr := hq.nr, ns := hq.ns, nc := hq.nc
        dwr := fun x hx => hq.dwr (List.mem_cons_of_mem _ hx)
        dws := fun x hx => hq.dws (List.mem_cons_of_mem _ hx)
        dwc := fun x hx => hq.dwc (List.mem_cons_of_mem _ hx)
        drs := hq.drs, drc := hq.drc, dsc := hq.dsc }
    refine ⟨(lanesL_some_nodup_iff _ _ _ _ _).2 ⟨⟨?_, ?_, ?_, ?_⟩, hq'⟩, ?_⟩
    · exact (List.nodup_cons.1 hq.nw).1
    · exact fun hx => hq.dwr (List.mem_cons_self h t) hx
    · exact fun hx => hq.dws (List.mem_cons_self h t) hx
    · exact fun hx => hq.dwc (List.mem_cons_self h t) hx
    · intro id hid
      rw [mem_lanesL] at hid
      rw [mem_lanesL]
      rcases hid with hid | hid | hid | hid | hid
      · cases hid
        simp
      · simp [List.mem_cons_of_mem _ hid]
      · simp [hid]
      · simp [hid]
      · simp [hid]
  · subst hw
    subst hr
    rw [he]
    have hq' : QOk ([] : List TaskId) t sn co :=
      { nw := List.nodup_nil
        nr := (List.nodup_cons.1 hq.nr).2
        ns := hq.ns, nc := hq.nc
        dwr := fun x hx => absurd hx (List.not_mem_nil x)
        dws := fun x hx => absurd hx (List.not_mem_nil x)
        dwc := fun x hx => absurd hx (List.not_mem_nil x)
        drs := fun x hx => hq.drs (List.mem_cons_of_mem _ hx)
        drc := fun x hx => hq.drc (List.mem_cons_of_mem _ hx)
        dsc := hq.dsc }
    refine ⟨(lanesL_some_nodup_iff _ _ _ _ _).2 ⟨⟨?_, ?_, ?_, ?_⟩, hq'⟩, ?_⟩
    · simp
    · exact (List.nodup_cons.1 hq.nr).1
    · exact fun hx => hq.drs (List.mem_cons_self h t) hx
    · exact fun hx => hq.drc (List.mem_cons_self h t) hx
    · intro id hid
      rw [mem_lanesL] at hid
      rw [mem_lanesL]
      rcases hid with hid | hid | hid | hid | hid
      · cases hid
        simp
      · simp at hid
      · simp [List.mem_cons_of_mem _ hid]
      · simp [hid]
      · simp [hid]

theorem isSome_set_of_isSome (ts : Tasks) (id j : TaskId) (t : Task)
    (h : (lookupTask ts j).isSome = true) :
    (lookupTask (setTask ts id t) j).isSome = true :=
  (isSome_lookupTask_set ts id j t).2 (Or.inr h)

theorem deletedGone_set_of_isSome (ts : Tasks) (dels : List TaskId)
    (id : TaskId) (t : Task) (hsome : (lookupTask ts id).isSome = true)
    (h : ∀ d ∈ dels, lookupTask ts d = none) :
    ∀ d ∈ dels, lookupTask (setTask ts id t) d = none := by
  intro d hd
  have hne : d ≠ id := by
    intro he
    subst he
    rw [h d hd] at hsome
    simp at hsome
  rw [lookupTask_set_other _ _ _ _ hne]
  exact h d hd

theorem deletedGone_set_of_not_mem (ts : Tasks) (dels : List TaskId)
    (id : TaskId) (t : Task) (hid : id ∉ dels)
    (h : ∀ d ∈ dels, lookupTask ts d = none) :
    ∀ d ∈ dels, lookupTask (setTask ts id t) d = none := by
  intro d hd
  have hne : d ≠ id := fun he => hid (he ▸ hd)
  rw [lookupTask_set_other _ _ _ _ hne]
  exact h d hd

theorem nodup_append_one (l : List TaskId) (x : TaskId)
    (h : l.Nodup) (hx : x ∉ l) : (l ++ [x]).Nodup := by
  simp [List.nodup_append, h, hx]

theorem disjoint_one_right (l : List TaskId) (x : TaskId) (hx : x ∉ l) :
    l.Disjoint [x] := by
  simp [hx]

theorem invBody_addTask (id : TaskId) (title : String) (now : Int)
    (s t : AppState) (hs : Inv s) (hfresh : lookupTask s.tasks id = none)
    (hdel : id ∉ s.deletedIds) (ht : addTaskBody id title now s = some t) :
    Inv t := by
  have hnotlane : id ∉ lanes s := by
    intro hmem
    have := hs.lanesKeys id hmem
    rw [hfresh] at this
    simp at this
  cases hcur : s.currentTaskId with
  | some cur =>
    have hl := hs.lanesNodup
    rw [lanes, hcur, lanesL_some_nodup_iff] at hl
    obtain ⟨⟨hcw, hcr, hcs, hcc⟩, hq⟩ := hl
    have hcurlane : cur ∈ lanes s := by
      rw [lanes, hcur, mem_lanesL]
      exact Or.inl rfl
    have hne : id ≠ cur := by
      intro he
      exact hnotlane (he ▸ hcurlane)
    simp only [addTaskBody, hcur, Option.some.injEq] at ht
    subst ht
    have hmem_s : ∀ j, j ∈ s.wokenQueue ∨ j ∈ s.readyQueue ∨ j ∈ s.snoozedIds ∨
        j ∈ s.completedIds ∨ j = cur → j ∈ lanes s := by
      intro j hj
      rw [lanes, hcur, mem_lanesL]
      rcases hj with h | h | h | h | h
      · exact Or.inr (Or.inl h)
      · exact Or.inr (Or.inr (Or.inl h))
      · exact Or.inr (Or.inr (Or.inr (Or.inl h)))
      · exact Or.inr (Or.inr (Or.inr (Or.inr h)))
      · exact Or.inl (by rw [h])
    refine ⟨?_, ?_, ?_, hs.deletedNodup, keysOf_nodup_set _ _ _ hs.keysNodup⟩
    · show (lanesL (some id) s.wokenQueue (s.readyQueue ++ [cur]) s.snoozedIds
        s.completedIds).Nodup
      rw [lanesL_some_nodup_iff]
      constructor
      · refine ⟨fun h => hnotlane (hmem_s id (Or.inl h)), ?_,
          fun h => hnotlane (hmem_s id (Or.inr (Or.inr (Or.inl h)))),
          fun h => hnotlane (hmem_s id (Or.inr (Or.inr (Or.inr (Or.inl h)))))⟩
        intro h
        rcases List.mem_append.1 h with h | h
        · exact hnotlane (hmem_s id (Or.inr (Or.inl h)))
        · simp at h
          exact hne h
      · exact
        { nw := hq.nw
          nr := nodup_append_one _ _ hq.nr hcr
          ns := hq.ns
          nc := hq.nc
          dwr := by
            rw [List.disjoint_append_right]
            exact ⟨hq.dwr, disjoint_one_right _ _ hcw⟩
          dws := hq.dws
          dwc := hq.dwc
          drs := by
            rw [List.disjoint_append_left]
            refine ⟨hq.drs, ?_⟩
            intro x hx
            simp at hx
            subst hx
            exact hcs
          drc := by
            rw [List.disjoint_append_left]
            refine ⟨hq.drc, ?_⟩
            intro x hx
            simp at hx
            subst hx
            exact hcc
          dsc := hq.dsc }
    · intro j hj
      rw [lanes] at hj
      simp only at hj
      rw [mem_lanesL] at hj
      rcases hj with hj | hj | hj | hj | hj
      · cases hj
        rw [lookupTask_set_self]
        simp
      · exact isSome_set_of_isSome _ _ _ _ (hs.lanesKeys j (hmem_s j (Or.inl hj)))
      · rcases List.mem_append.1 hj with hj | hj
        · exact isSome_set_of_isSome _ _ _ _
            (hs.lanesKeys j (hmem_s j (Or.inr (Or.inl hj))))
        · simp at hj
          subst hj
          exact isSome_set_of_isSome _ _ _ _ (hs.lanesKeys j hcurlane)
      · exact isSome_set_of_isSome _ _ _ _
          (hs.lanesKeys j (hmem_s j (Or.inr (Or.inr (Or.inl hj)))))
      · exact isSome_set_of_isSome _ _ _ _
          (hs.lanesKeys j (hmem_s j (Or.inr (Or.inr (Or.inr (Or.inl hj))))))
    · exact deletedGone_set_of_not_mem _ _ _ _ hdel hs.deletedGone
  | none =>
    have hl := hs.lanesNodup
    rw [lanes, hcur, lanesL_none_nodup_iff] at hl
    simp only [addTaskBody, hcur, Option.some.injEq] at ht
    subst ht
    have hmem_s : ∀ j, j ∈ s.wokenQueue ∨ j ∈ s.readyQueue ∨ j ∈ s.snoozedIds ∨
        j ∈ s.completedIds → j ∈ lanes s := by
      intro j hj
      rw [lanes, hcur, mem_lanesL]
      rcases hj with h | h | h | h
      · exact Or.inr (Or.inl h)
      · exact Or.inr (Or.inr (Or.inl h))
      · exact Or.inr (Or.inr (Or.inr (Or.inl h)))
      · exact Or.inr (Or.inr (Or.inr (Or.inr h)))
    refine ⟨?_, ?_, ?_, hs.deletedNodup, keysOf_nodup_set _ _ _ hs.keysNodup⟩
    · show (lanesL (some id) s.wokenQueue s.readyQueue s.snoozedIds
        s.completedIds).Nodup
      rw [lanesL_some_nodup_iff]
      exact ⟨⟨fun h => hnotlane (hmem_s id (Or.inl h)),
        fun h => hnotlane (hmem_s id (Or.inr (Or.inl h))),
        fun h => hnotlane (hmem_s id (Or.inr (Or.inr (Or.inl h)))),
        fun h => hnotlane (hmem_s id (Or.inr (Or.inr (Or.inr h))))⟩, hl⟩
    · intro j hj
      rw [lanes] at hj
      simp only at hj
      rw [mem_lanesL] at hj
      rcases hj with hj | hj | hj | hj | hj
      · cases hj
        rw [lookupTask_set_self]
        simp
      · exact isSome_set_of_isSome _ _ _ _ (hs.lanesKeys j (hmem_s j (Or.inl hj)))
      · exact isSome_set_of_isSome _ _ _ _
          (hs.lanesKeys j (hmem_s j (Or.inr (Or.inl hj))))
      · exact isSome_set_of_isSome _ _ _ _
          (hs.lanesKeys j (hmem_s j (Or.inr (Or.inr (Or.inl hj)))))
      · exact isSome_set_of_isSome _ _ _ _
          (hs.lanesKeys j (hmem_s j (Or.inr (Or.inr (Or.inr hj)))))
    · exact deletedGone_set_of_not_mem _ _ _ _ hdel hs.deletedGone

theorem mem_lanes_cur (s : AppState) (c : TaskId)
    (h : s.currentTaskId = some c) : c ∈ lanes s := by
  rw [lanes, mem_lanesL]
  exact Or.inl (by rw [h])

theorem mem_lanes_w (s : AppState) {j : TaskId} (h : j ∈ s.wokenQueue) :
    j ∈ lanes s := by
  rw [lanes, mem_lanesL]
  exact Or.inr (Or.inl h)

theorem mem_lanes_r (s : AppState) {j : TaskId} (h : j ∈ s.readyQueue) :
    j ∈ lanes s := by
  rw [lanes, mem_lanesL]
  exact Or.inr (Or.inr (Or.inl h))

theorem mem_lanes_sn (s : AppState) {j : TaskId} (h : j ∈ s.snoozedIds) :
    j ∈ lanes s := by
  rw [lanes, mem_lanesL]
  exact Or.inr (Or.inr (Or.inr (Or.inl h)))

theorem mem_lanes_co (s : AppState) {j : TaskId} (h : j ∈ s.completedIds) :
    j ∈ lanes s := by
  rw [lanes, mem_lanesL]
  exact Or.inr (Or.inr (Or.inr (Or.inr h)))

theorem lanes_subset_of_parts (t : AppState) (S : List TaskId)
    (hc : ∀ c, t.currentTaskId = some c → c ∈ S)
    (hw : t.wokenQueue ⊆ S) (hr : t.readyQueue ⊆ S)
    (hsn : t.snoozedIds ⊆ S) (hco : t.completedIds ⊆ S) :
    ∀ j ∈ lanes t, j ∈ S := by
  intro j hj
  rw [lanes, mem_lanesL] at hj
  rcases hj with hj | hj | hj | hj | hj
  · exact hc j hj
  · exact hw hj
  · exact hr hj
  · exact hsn hj
  · exact hco hj

theorem inv_decomp_some (s : AppState) (c : TaskId) (hs : Inv s)
    (hc : s.currentTaskId = some c) :
    (c ∉ s.wokenQueue ∧ c ∉ s.readyQueue ∧ c ∉ s.snoozedIds ∧
      c ∉ s.completedIds) ∧
      QOk s.wokenQueue s.readyQueue s.snoozedIds s.completedIds := by
  have hl := hs.lanesNodup
  rw [lanes, hc, lanesL_some_nodup_iff] at hl
  exact hl

theorem inv_decomp_none (s : AppState) (hs : Inv s)
    (hc : s.currentTaskId = none) :
    QOk s.wokenQueue s.readyQueue s.snoozedIds s.completedIds := by
  have hl := hs.lanesNodup
  rw [lanes, hc, lanesL_none_nodup_iff] at hl
  exact hl

theorem QOk.mono {w r sn co w' r' sn' co' : List TaskId} (hq : QOk w r sn co)
    (sw : w' ⊆ w) (sr : r' ⊆ r) (ssn : sn' ⊆ sn) (sco : co' ⊆ co)
    (nw : w'.Nodup) (nr : r'.Nodup) (ns : sn'.Nodup) (nc : co'.Nodup) :
    QOk w' r' sn' co' :=
  ⟨nw, nr, ns, nc, disjSub hq.dwr sw sr, disjSub hq.dws sw ssn,
    disjSub hq.dwc sw sco, disjSub hq.drs sr ssn, disjSub hq.drc sr sco,
    disjSub hq.dsc ssn sco⟩

/-- Assemble `Inv` for a result whose task map is the source's updated at an
existing key and whose tombstones are unchanged. -/
theorem inv_mk_setExisting (s t : AppState) (hs : Inv s) (id : TaskId)
    (task : Task) (hsome : (lookupTask s.tasks id).isSome = true)
    (htasks : t.tasks = setTask s.tasks id task)
    (hdels : t.deletedIds = s.deletedIds)
    (hlanes : (lanes t).Nodup)
    (hsub : ∀ j ∈ lanes t, j ∈ lanes s) : Inv t := by
  refine ⟨hlanes, ?_, ?_, ?_, ?_⟩
  · intro j hj
    rw [htasks]
    exact isSome_set_of_isSome _ _ _ _ (hs.lanesKeys j (hsub j hj))
  · rw [htasks, hdels]
    exact deletedGone_set_of_isSome _ _ _ _ hsome hs.deletedGone
  · rw [hdels]
    exact hs.deletedNodup
  · rw [htasks]
    exact keysOf_nodup_set _ _ _ hs.keysNodup

/-- Assemble `Inv` for a result whose task map and tombstones are both
unchanged. -/
theorem inv_mk_sameTasks (s t : AppState) (hs : Inv s)
    (htasks : t.tasks = s.tasks) (hdels : t.deletedIds = s.deletedIds)
    (hlanes : (lanes t).Nodup)
    (hsub : ∀ j ∈ lanes t, j ∈ lanes s) : Inv t := by
  refine ⟨hlanes, ?_, ?_, ?_, ?_⟩
  · intro j hj
    rw [htasks]
    exact hs.lanesKeys j (hsub j hj)
  · rw [htasks, hdels]
    exact hs.deletedGone
  · rw [hdels]
    exact hs.deletedNodup
  · rw [htasks]
    exact hs.keysNodup

theorem qok_cons_co {w r sn co : List TaskId} (c : TaskId)
    (hq : QOk w r sn co) (hcw : c ∉ w) (hcr : c ∉ r) (hcs : c ∉ sn)
    (hcc : c ∉ co) : QOk w r sn (c :: co) :=
  { nw := hq.nw, nr := hq.nr, ns := hq.ns
    nc := List.nodup_cons.2 ⟨hcc, hq.nc⟩
    dwr := hq.dwr, dws := hq.dws
    dwc := List.disjoint_cons_right.2 ⟨hcw, hq.dwc⟩
    drs := hq.drs
    drc := List.disjoint_cons_right.2 ⟨hcr, hq.drc⟩
    dsc := List.disjoint_cons_right.2 ⟨hcs, hq.dsc⟩ }

theorem invBody_completeTask (now : Int) (s t : AppState) (hs : Inv s)
    (ht : completeTaskBody now s = some t) : Inv t := by
  cases hcur : s.currentTaskId with
  | none => simp [completeTaskBody, hcur] at ht
  | some c =>
    obtain ⟨⟨hcw, hcr, hcs, hcc⟩, hq⟩ := inv_decomp_some s c hs hcur
    have hq' : QOk s.wokenQueue s.readyQueue s.snoozedIds (c :: s.completedIds) :=
      qok_cons_co c hq hcw hcr hcs hcc
    have hrefill := refill_ok s.wokenQueue s.readyQueue s.snoozedIds
      (c :: s.completedIds) hq'
    cases hlu : lookupTask s.tasks c with
    | some t0 =>
      simp only [completeTaskBody, hcur, hlu, Option.some.injEq] at ht
      subst ht
      refine inv_mk_setExisting s _ hs c _ (by rw [hlu]; simp) rfl rfl ?_ ?_
      · exact hrefill.1
      · intro j hj
        have hj2 := hrefill.2 j hj
        rw [mem_lanesL] at hj2
        rcases hj2 with h | h | h | h | h
        · cases h
        · exact mem_lanes_w s h
        · exact mem_lanes_r s h
        · exact mem_lanes_sn s h
        · rcases List.mem_cons.1 h with h | h
          · exact h ▸ mem_lanes_cur s c hcur
          · exact mem_lanes_co s h
    | none =>
      simp only [completeTaskBody, hcur, hlu, Option.some.injEq] at ht
      subst ht
      refine inv_mk_sameTasks s _ hs rfl rfl ?_ ?_
      · exact hrefill.1
      · intro j hj
        have hj2 := hrefill.2 j hj
        rw [mem_lanesL] at hj2
        rcases hj2 with h | h | h | h | h
        · cases h
        · exact mem_lanes_w s h
        · exact mem_lanes_r s h
        · exact mem_lanes_sn s h
        · rcases List.mem_cons.1 h with h | h
          · exact h ▸ mem_lanes_cur s c hcur
          · exact mem_lanes_co s h

theorem invBody_completeTaskById (id : TaskId) (now : Int) (s t : AppState)
    (hs : Inv s) (ht : completeTaskByIdBody id now s = some t) : Inv t := by
  cases hlu : lookupTask s.tasks id with
  | none => simp [completeTaskByIdBody, hlu] at ht
  | some task =>
    by_cases hco : id ∈ s.completedIds
    · simp [completeTaskByIdBody, hlu, hco] at ht
    · by_cases hcur : some id = s.currentTaskId
      · obtain ⟨⟨hcw, hcr, hcs, hcc⟩, hq⟩ := inv_decomp_some s id hs hcur.symm
        simp only [completeTaskByIdBody, hlu, hco, hcur, if_true, if_false,
          ite_true, ite_false, Option.some.injEq] at ht
        subst ht
        have hq' : QOk (s.wokenQueue.filter (fun x => x ≠ id))
            (s.readyQueue.filter (fun x => x ≠ id))
            (s.snoozedIds.filter (fun x => x ≠ id))
            (id :: s.completedIds.filter (fun x => x ≠ id)) := by
          refine qok_cons_co id
            (hq.mono (filter_ne_subset _ _) (filter_ne_subset _ _)
              (filter_ne_subset _ _) (filter_ne_subset _ _)
              (hq.nw.filter _) (hq.nr.filter _) (hq.ns.filter _) (hq.nc.filter _))
            (not_mem_filter_ne _ _) (not_mem_filter_ne _ _)
            (not_mem_filter_ne _ _) (not_mem_filter_ne _ _)
        have hrefill := refill_ok _ _ _ _ hq'
        refine inv_mk_setExisting s _ hs id _ (by rw [hlu]; simp) rfl rfl ?_ ?_
        · exact hrefill.1
        · intro j hj
          have hj2 := hrefill.2 j hj
          rw [mem_lanesL] at hj2
          rcases hj2 with h | h | h | h | h
          · cases h
          · exact mem_lanes_w s (filter_ne_subset _ _ h)
          · exact mem_lanes_r s (filter_ne_subset _ _ h)
          · exact mem_lanes_sn s (filter_ne_subset _ _ h)
          · rcases List.mem_cons.1 h with h | h
            · exact h ▸ mem_lanes_cur s id hcur.symm
            · exact mem_lanes_co s (filter_ne_subset _ _ h)
      · simp only [completeTaskByIdBody, hlu, hco, hcur, if_false, ite_false,
          eq_self_iff_true, Option.some.injEq] at ht
        subst ht
        refine ⟨?nod, ?keys, ?gone, hs.deletedNodup, keysOf_nodup_set _ _ _ hs.keysNodup⟩
        case keys =>
          intro j hj
          have hj' : j ∈ id :: lanes s := by
            refine lanes_subset_of_parts _ _ ?_ ?_ ?_ ?_ ?_ j hj
            · intro c hc
              exact List.mem_cons_of_mem _ (mem_lanes_cur s c hc)
            · intro x hx
              exact List.mem_cons_of_mem _ (mem_lanes_w s (filter_ne_subset _ _ hx))
            · intro x hx
              exact List.mem_cons_of_mem _ (mem_lanes_r s (filter_ne_subset _ _ hx))
            · intro x hx
              exact List.mem_cons_of_mem _ (mem_lanes_sn s (filter_ne_subset _ _ hx))
            · intro x hx
              rcases List.mem_cons.1 hx with h | h
              · exact h ▸ List.mem_cons_self _ _
              · exact List.mem_cons_of_mem _ (mem_lanes_co s (filter_ne_subset _ _ h))
          rcases List.mem_cons.1 hj' with h | h
          · subst h
            rw [lookupTask_set_self]
            simp
          · exact isSome_set_of_isSome _ _ _ _ (hs.lanesKeys j h)
        case gone =>
          exact deletedGone_set_of_isSome _ _ _ _ (by rw [hlu]; simp) hs.deletedGone
        cases hc : s.currentTaskId with
          | some c =>
            obtain ⟨⟨hcw, hcr, hcs, hcc⟩, hq⟩ := inv_decomp_some s c hs hc
            have hne : c ≠ id := by
              intro he
              exact hcur (by rw [hc, he])
            show (lanesL (some c) (s.wokenQueue.filter (fun x => x ≠ id))
              (s.readyQueue.filter (fun x => x ≠ id))
              (s.snoozedIds.filter (fun x => x ≠ id))
              (id :: s.completedIds.filter (fun x => x ≠ id))).Nodup
            rw [lanesL_some_nodup_iff]
            refine ⟨⟨fun h => hcw (filter_ne_subset _ _ h),
              fun h => hcr (filter_ne_subset _ _ h),
              fun h => hcs (filter_ne_subset _ _ h), ?_⟩, ?_⟩
            · intro h
              rcases List.mem_cons.1 h with h | h
              · exact hne h
              · exact hcc (filter_ne_subset _ _ h)
            · refine qok_cons_co id
                (hq.mono (filter_ne_subset _ _) (filter_ne_subset _ _)
                  (filter_ne_subset _ _) (filter_ne_subset _ _)
                  (hq.nw.filter _) (hq.nr.filter _) (hq.ns.filter _)
                  (hq.nc.filter _))
                (not_mem_filter_ne _ _) (not_mem_filter_ne _ _)
                (not_mem_filter_ne _ _) (not_mem_filter_ne _ _)
          | none =>
            have hq := inv_decomp_none s hs hc
            show (lanesL none (s.wokenQueue.filter (fun x => x ≠ id))
              (s.readyQueue.filter (fun x => x ≠ id))
              (s.snoozedIds.filter (fun x => x ≠ id))
              (id :: s.completedIds.filter (fun x => x ≠ id))).Nodup
            rw [lanesL_none_nodup_iff]
            refine qok_cons_co id
              (hq.mono (filter_ne_subset _ _) (filter_ne_subset _ _)
                (filter_ne_subset _ _) (filter_ne_subset _ _)
                (hq.nw.filter _) (hq.nr.filter _) (hq.ns.filter _)
                (hq.nc.filter _))
              (not_mem_filter_ne _ _) (not_mem_filter_ne _ _)
              (not_mem_filter_ne _ _) (not_mem_filter_ne _ _)

/-- Task maps obtained from `base` by repeatedly overwriting keys that
exist in `base`. -/
inductive SetsExisting (base : Tasks) : Tasks → Prop
  | refl : SetsExisting base base
  | step (ts : Tasks) (k : TaskId) (task : Task)
      (hsome : (lookupTask base k).isSome = true)
      (h : SetsExisting base ts) : SetsExisting base (setTask ts k task)

theorem SetsExisting.isSome {base ts' : Tasks} (h : SetsExisting base ts')
    (j : TaskId) (hj : (lookupTask base j).isSome = true) :
    (lookupTask ts' j).isSome = true := by
  induction h with
  | refl => exact hj
  | step ts k task hsome h ih => exact isSome_set_of_isSome _ _ _ _ ih

theorem SetsExisting.gone {base ts' : Tasks} (h : SetsExisting base ts')
    (d : TaskId) (hd : lookupTask base d = none) : lookupTask ts' d = none := by
  induction h with
  | refl => exact hd
  | step ts k task hsome h ih =>
    have hne : d ≠ k := by
      intro he
      rw [← he, hd] at hsome
      simp at hsome
    rw [lookupTask_set_other _ _ _ _ hne]
    exact ih

theorem SetsExisting.keysNodup {base ts' : Tasks} (h : SetsExisting base ts')
    (hn : (keysOf base).Nodup) : (keysOf ts').Nodup := by
  induction h with
  | refl => exact hn
  | step ts k task hsome h ih => exact keysOf_nodup_set _ _ _ ih

/-- General `Inv` assembler for operations that only overwrite existing
keys of the task map and leave the tombstones untouched. -/
theorem inv_mk (s t : AppState) (hs : Inv s)
    (hts : SetsExisting s.tasks t.tasks)
    (hdels : t.deletedIds = s.deletedIds)
    (hlanes : (lanes t).Nodup)
    (hkeys : ∀ j ∈ lanes t, (lookupTask s.tasks j).isSome = true) : Inv t := by
  refine ⟨hlanes, ?_, ?_, ?_, ?_⟩
  · intro j hj
    exact hts.isSome j (hkeys j hj)
  · intro d hd
    rw [hdels] at hd
    exact hts.gone d (hs.deletedGone d hd)
  · rw [hdels]
    exact hs.deletedNodup
  · exact hts.keysNodup hs.keysNodup

theorem isSome_of_lanes (s : AppState) (hs : Inv s) {j : TaskId}
    (h : j ∈ lanes s) : (lookupTask s.tasks j).isSome = true :=
  hs.lanesKeys j h

theorem lanes_forall (t : AppState) (P : TaskId → Prop)
    (hc : ∀ c, t.currentTaskId = some c → P c)
    (hw : ∀ j ∈ t.wokenQueue, P j) (hr : ∀ j ∈ t.readyQueue, P j)
    (hsn : ∀ j ∈ t.snoozedIds, P j) (hco : ∀ j ∈ t.completedIds, P j) :
    ∀ j ∈ lanes t, P j := by
  intro j hj
  rw [lanes, mem_lanesL] at hj
  rcases hj with hj | hj | hj | hj | hj
  · exact hc j hj
  · exact hw j hj
  · exact hr j hj
  · exact hsn j hj
  · exact hco j hj

theorem forall_lanesL_none (W R SN CO : List TaskId) (P : TaskId → Prop)
    (hw : ∀ j ∈ W, P j) (hr : ∀ j ∈ R, P j)
    (hsn : ∀ j ∈ SN, P j) (hco : ∀ j ∈ CO, P j) :
    ∀ j ∈ lanesL none W R SN CO, P j := by
  intro j hj
  rw [mem_lanesL] at hj
  rcases hj with hj | hj | hj | hj | hj
  · cases hj
  · exact hw j hj
  · exact hr j hj
  · exact hsn j hj
  · exact hco j hj

theorem forall_append_one {l : List TaskId} {x : TaskId} {P : TaskId → Prop}
    (hl : ∀ j ∈ l, P j) (hx : P x) : ∀ j ∈ l ++ [x], P j := by
  intro j hj
  rcases List.mem_append.1 hj with h | h
  · exact hl j h
  · simp at h
    exact h ▸ hx

theorem forall_filter_ne {l : List TaskId} {y : TaskId} {P : TaskId → Prop}
    (hl : ∀ j ∈ l, P j) : ∀ j ∈ l.filter (fun x => x ≠ y), P j :=
  fun j hj => hl j (filter_ne_subset _ _ hj)

/-- The three "strip an id from every lane and reinsert it into one of the
queues" shapes share one consistency argument. -/
theorem qok_strip_insert (w r sn co : List TaskId) (id : TaskId)
    (hq : QOk w r sn co) (hco : id ∉ co) :
    QOk (w.filter (fun x => x ≠ id) ++ [id]) (r.filter (fun x => x ≠ id))
      (sn.filter (fun x => x ≠ id)) co ∧
    QOk (w.filter (fun x => x ≠ id)) (r.filter (fun x => x ≠ id) ++ [id])
      (sn.filter (fun x => x ≠ id)) co ∧
    QOk (w.filter (fun x => x ≠ id)) (id :: r.filter (fun x => x ≠ id))
      (sn.filter (fun x => x ≠ id)) co := by
  have hbase : QOk (w.filter (fun x => x ≠ id)) (r.filter (fun x => x ≠ id))
      (sn.filter (fun x => x ≠ id)) co :=
    hq.mono (filter_ne_subset _ _) (filter_ne_subset _ _) (filter_ne_subset _ _)
      (fun _ h => h) (hq.nw.filter _) (hq.nr.filter _) (hq.ns.filter _) hq.nc
  refine ⟨?_, ?_, ?_⟩
  · exact
    { nw := nodup_append_one _ _ hbase.nw (not_mem_filter_ne _ _)
      nr := hbase.nr, ns := hbase.ns, nc := hbase.nc
      dwr := by
        rw [List.disjoint_append_left]
        exact ⟨hbase.dwr, disjSub (disjoint_one_right _ _ (not_mem_filter_ne r id)).symm
          (fun _ h => h) (fun _ h => h)⟩
      dws := by
        rw [List.disjoint_append_left]
        refine ⟨hbase.dws, ?_⟩
        intro x hx
        simp at hx
        subst hx
        exact not_mem_filter_ne _ _
      dwc := by
        rw [List.disjoint_append_left]
        refine ⟨hbase.dwc, ?_⟩
        intro x hx
        simp at hx
        subst hx
        exact hco
      drs := hbase.drs, drc := hbase.drc, dsc := hbase.dsc }
  · exact
    { nw := hbase.nw
      nr := nodup_append_one _ _ hbase.nr (not_mem_filter_ne _ _)
      ns := hbase.ns, nc := hbase.nc
      dwr := by
        rw [List.disjoint_append_right]
        exact ⟨hbase.dwr, disjoint_one_right _ _ (not_mem_filter_ne _ _)⟩
      dws := hbase.dws, dwc := hbase.dwc
      drs := by
        rw [List.disjoint_append_left]
        refine ⟨hbase.drs, ?_⟩
        intro x hx
        simp at hx
        subst hx
        exact not_mem_filter_ne _ _
      drc := by
        rw [List.disjoint_append_left]
        refine ⟨hbase.drc, ?_⟩
        intro x hx
        simp at hx
        subst hx
        exact hco
      dsc := hbase.dsc }
  · exact
    { nw := hbase.nw
      nr := List.nodup_cons.2 ⟨not_mem_filter_ne _ _, hbase.nr⟩
      ns := hbase.ns, nc := hbase.nc
      dwr := by
        rw [List.disjoint_cons_right]
        exact ⟨not_mem_filter_ne _ _, hbase.dwr⟩
      dws := hbase.dws, dwc := hbase.dwc
      drs := by
        intro x hx hxs
        rcases List.mem_cons.1 hx with h | h
        · rw [h] at hxs
          exact not_mem_filter_ne sn _ hxs
        · exact hbase.drs h hxs
      drc := by
        intro x hx hxc
        rcases List.mem_cons.1 hx with h | h
        · rw [h] at hxc
          exact hco hxc
        · exact hbase.drc h hxc
      dsc := hbase.dsc }

theorem invBody_snoozeTask (dm : Option Int) (now : Int) (s t : AppState)
    (hs : Inv s) (ht : snoozeTaskBody dm now s = some t) : Inv t := by
  cases hcur : s.currentTaskId with
  | none => simp [snoozeTaskBody, hcur] at ht
  | some c =>
    obtain ⟨⟨hcw, hcr, hcs, hcc⟩, hq⟩ := inv_decomp_some s c hs hcur
    cases hlu : lookupTask s.tasks c with
    | none =>
      simp only [snoozeTaskBody, hcur, hlu, Option.some.injEq] at ht
      subst ht
      have hrefill := refill_ok s.wokenQueue s.readyQueue s.snoozedIds
        s.completedIds hq
      refine inv_mk s _ hs SetsExisting.refl rfl hrefill.1 ?_
      intro j hj
      have hj2 := hrefill.2 j hj
      refine forall_lanesL_none _ _ _ _ (fun x => (lookupTask s.tasks x).isSome = true) ?_ ?_ ?_ ?_ j hj2
      · exact fun x hx => isSome_of_lanes s hs (mem_lanes_w s hx)
      · exact fun x hx => isSome_of_lanes s hs (mem_lanes_r s hx)
      · exact fun x hx => isSome_of_lanes s hs (mem_lanes_sn s hx)
      · exact fun x hx => isSome_of_lanes s hs (mem_lanes_co s hx)
    | some task =>
      have hcsome : (lookupTask s.tasks c).isSome = true := by
        rw [hlu]; simp
      have hsets : SetsExisting s.tasks
          (setTask s.tasks c { task with snoozeUntil := some (now + (60 * 1000))
                                         snoozeSeq := some s.nextSnoozeSeq }) :=
        SetsExisting.step _ _ _ hcsome SetsExisting.refl
      have hqsn : QOk s.wokenQueue s.readyQueue (s.snoozedIds ++ [c])
          s.completedIds :=
        { nw := hq.nw, nr := hq.nr
          ns := nodup_append_one _ _ hq.ns hcs
          nc := hq.nc
          dwr := hq.dwr
          dws := by
            rw [List.disjoint_append_right]
            exact ⟨hq.dws, disjoint_one_right _ _ hcw⟩
          dwc := hq.dwc
          drs := by
            rw [List.disjoint_append_right]
            exact ⟨hq.drs, disjoint_one_right _ _ hcr⟩
          drc := hq.drc
          dsc := by
            rw [List.disjoint_append_left]
            refine ⟨hq.dsc, ?_⟩
            intro x hx
            simp at hx
            subst hx
            exact hcc }
      have hmemsn : ∀ j ∈ s.snoozedIds ++ [c],
          (lookupTask s.tasks j).isSome = true :=
        forall_append_one
          (fun x hx => isSome_of_lanes s hs (mem_lanes_sn s hx)) hcsome
      rcases dm with _ | d
      · simp only [snoozeTaskBody, hcur, hlu] at ht
        by_cases hrun : s.wokenQueue.length > 0 ∨ s.readyQueue.length > 0
        · simp only [snoozeQuickDefer, hrun, if_true, ite_true,
            Option.some.injEq] at ht
          subst ht
          have hqr : QOk s.wokenQueue (s.readyQueue ++ [c]) s.snoozedIds
              s.completedIds :=
            { nw := hq.nw
              nr := nodup_append_one _ _ hq.nr hcr
              ns := hq.ns, nc := hq.nc
              dwr := by
                rw [List.disjoint_append_right]
                exact ⟨hq.dwr, disjoint_one_right _ _ hcw⟩
              dws := hq.dws, dwc := hq.dwc
              drs := by
                rw [List.disjoint_append_left]
                refine ⟨hq.drs, ?_⟩
                intro x hx
                simp at hx
                subst hx
                exact hcs
              drc := by
                rw [List.disjoint_append_left]
                refine ⟨hq.drc, ?_⟩
                intro x hx
                simp at hx
                subst hx
                exact hcc
              dsc := hq.dsc }
          have hrefill := refill_ok s.wokenQueue (s.readyQueue ++ [c])
            s.snoozedIds s.completedIds hqr
          refine inv_mk s _ hs SetsExisting.refl rfl hrefill.1 ?_
          intro j hj
          have hj2 := hrefill.2 j hj
          refine forall_lanesL_none _ _ _ _ (fun x => (lookupTask s.tasks x).isSome = true) ?_ ?_ ?_ ?_ j hj2
          · exact fun x hx => isSome_of_lanes s hs (mem_lanes_w s hx)
          · exact forall_append_one
              (fun x hx => isSome_of_lanes s hs (mem_lanes_r s hx)) hcsome
          · exact fun x hx => isSome_of_lanes s hs (mem_lanes_sn s hx)
          · exact fun x hx => isSome_of_lanes s hs (mem_lanes_co s hx)
        · simp only [snoozeQuickDefer, hrun, if_false, ite_false, hcs,
            Option.some.injEq] at ht
          subst ht
          refine inv_mk s _ hs hsets rfl ?_ ?_
          · show (lanesL none s.wokenQueue s.readyQueue (s.snoozedIds ++ [c])
              s.completedIds).Nodup
            rw [lanesL_none_nodup_iff]
            exact hqsn
          · refine lanes_forall _ _ ?_ ?_ ?_ ?_ ?_
            · intro x hx
              cases hx
            · exact fun x hx => isSome_of_lanes s hs (mem_lanes_w s hx)
            · exact fun x hx => isSome_of_lanes s hs (mem_lanes_r s hx)
            · exact hmemsn
            · exact fun x hx => isSome_of_lanes s hs (mem_lanes_co s hx)
      · by_cases hd : 0 < d
        · simp only [snoozeTaskBody, hcur, hlu, hd, if_true, ite_true, hcs,
            if_false, ite_false, Option.some.injEq] at ht
          subst ht
          have hrefill := refill_ok s.wokenQueue s.readyQueue
            (s.snoozedIds ++ [c]) s.completedIds hqsn
          refine inv_mk s _ hs
            (SetsExisting.step _ _ _ hcsome SetsExisting.refl) rfl hrefill.1 ?_
          intro j hj
          have hj2 := hrefill.2 j hj
          refine forall_lanesL_none _ _ _ _ (fun x => (lookupTask s.tasks x).isSome = true) ?_ ?_ ?_ ?_ j hj2
          · exact fun x hx => isSome_of_lanes s hs (mem_lanes_w s hx)
          · exact fun x hx => isSome_of_lanes s hs (mem_lanes_r s hx)
          · exact hmemsn
          · exact fun x hx => isSome_of_lanes s hs (mem_lanes_co s hx)
        · simp only [snoozeTaskBody, hcur, hlu, hd, if_false, ite_false] at ht
          by_cases hrun : s.wokenQueue.length > 0 ∨ s.readyQueue.length > 0
          · simp only [snoozeQuickDefer, hrun, if_true, ite_true,
              Option.some.injEq] at ht
            subst ht
            have hqr : QOk s.wokenQueue (s.readyQueue ++ [c]) s.snoozedIds
                s.completedIds :=
              { nw := hq.nw
                nr := nodup_append_one _ _ hq.nr hcr
                ns := hq.ns, nc := hq.nc
                dwr := by
                  rw [List.disjoint_append_right]
                  exact ⟨hq.dwr, disjoint_one_right _ _ hcw⟩
                dws := hq.dws, dwc := hq.dwc
                drs := by
                  rw [List.disjoint_append_left]
                  refine ⟨hq.drs, ?_⟩
                  intro x hx
                  simp at hx
                  subst hx
                  exact hcs
                drc := by
                  rw [List.disjoint_append_left]
                  refine ⟨hq.drc, ?_⟩
                  intro x hx
                  simp at hx
                  subst hx
                  exact hcc
                dsc := hq.dsc }
            have hrefill := refill_ok s.wokenQueue (s.readyQueue ++ [c])
              s.snoozedIds s.completedIds hqr
            refine inv_mk s _ hs SetsExisting.refl rfl hrefill.1 ?_
            intro j hj
            have hj2 := hrefill.2 j hj
            refine forall_lanesL_none _ _ _ _ (fun x => (lookupTask s.tasks x).isSome = true) ?_ ?_ ?_ ?_ j hj2
            · exact fun x hx => isSome_of_lanes s hs (mem_lanes_w s hx)
            · exact forall_append_one
                (fun x hx => isSome_of_lanes s hs (mem_lanes_r s hx)) hcsome
            · exact fun x hx => isSome_of_lanes s hs (mem_lanes_sn s hx)
            · exact fun x hx => isSome_of_lanes s hs (mem_lanes_co s hx)
          · simp only [snoozeQuickDefer, hrun, if_false, ite_false, hcs,
              Option.some.injEq] at ht
            subst ht
            refine inv_mk s _ hs hsets rfl ?_ ?_
            · show (lanesL none s.wokenQueue s.readyQueue (s.snoozedIds ++ [c])
                s.completedIds).Nodup
              rw [lanesL_none_nodup_iff]
              exact hqsn
            · refine lanes_forall _ _ ?_ ?_ ?_ ?_ ?_
              · intro x hx
                cases hx
              · exact fun x hx => isSome_of_lanes s hs (mem_lanes_w s hx)
              · exact fun x hx => isSome_of_lanes s hs (mem_lanes_r s hx)
              · exact hmemsn
              · exact fun x hx => isSome_of_lanes s hs (mem_lanes_co s hx)

theorem sets_wasSnoozed (s : AppState) (id : TaskId) (task : Task)
    (hidsome : (lookupTask s.tasks id).isSome = true) (t' : Task) :
    SetsExisting s.tasks
      (if id ∈ s.snoozedIds then setTask s.tasks id t' else s.tasks) := by
  split
  · exact SetsExisting.step _ _ _ hidsome SetsExisting.refl
  · exact SetsExisting.refl

theorem invBody_moveTaskToWake (id : TaskId) (s t : AppState) (hs : Inv s)
    (ht : moveTaskToWakeBody id s = some t) : Inv t := by
  by_cases hne : some id = s.currentTaskId
  · simp [moveTaskToWakeBody, hne] at ht
  · by_cases hco : id ∈ s.completedIds
    · simp [moveTaskToWakeBody, hne, hco] at ht
    · cases hlu : lookupTask s.tasks id with
      | none => simp [moveTaskToWakeBody, hne, hco, hlu] at ht
      | some task =>
        have hidsome : (lookupTask s.tasks id).isSome = true := by
          rw [hlu]; simp
        cases hcur : s.currentTaskId with
        | some c =>
          obtain ⟨⟨hcw, hcr, hcs, hcc⟩, hq⟩ := inv_decomp_some s c hs hcur
          have hcid : c ≠ id := fun h => hne (by rw [hcur, h])
          have hidc : ¬id = c := fun h => hcid h.symm
          simp only [moveTaskToWakeBody, hne, hco, hlu, hcur, hidc, if_false,
            ite_false, Option.some.injEq] at ht
          subst ht
          refine inv_mk s _ hs (sets_wasSnoozed s id task hidsome _) rfl ?_ ?_
          · show (lanesL (some c)
              (s.wokenQueue.filter (fun x => x ≠ id) ++ [id])
              (s.readyQueue.filter (fun x => x ≠ id))
              (s.snoozedIds.filter (fun x => x ≠ id)) s.completedIds).Nodup
            rw [lanesL_some_nodup_iff]
            refine ⟨⟨?_, fun h => hcr (filter_ne_subset _ _ h),
              fun h => hcs (filter_ne_subset _ _ h), hcc⟩,
              (qok_strip_insert _ _ _ _ _ hq hco).1⟩
            intro h
            rcases List.mem_append.1 h with h | h
            · exact hcw (filter_ne_subset _ _ h)
            · simp at h
              exact hcid h
          · refine lanes_forall _ _ ?_ ?_ ?_ ?_ ?_
            · intro x hx
              cases hx
              exact isSome_of_lanes s hs (mem_lanes_cur s c hcur)
            · exact forall_append_one
                (forall_filter_ne fun x hx =>
                  isSome_of_lanes s hs (mem_lanes_w s hx)) hidsome
            · exact forall_filter_ne fun x hx =>
                isSome_of_lanes s hs (mem_lanes_r s hx)
            · exact forall_filter_ne fun x hx =>
                isSome_of_lanes s hs (mem_lanes_sn s hx)
            · exact fun x hx => isSome_of_lanes s hs (mem_lanes_co s hx)
        | none =>
          have hq := inv_decomp_none s hs hcur
          simp only [moveTaskToWakeBody, hne, hco, hlu, hcur, if_false,
            ite_false, reduceCtorEq, Option.some.injEq] at ht
          subst ht
          have hrefill := refill_ok (s.wokenQueue.filter (fun x => x ≠ id) ++ [id])
            (s.readyQueue.filter (fun x => x ≠ id))
            (s.snoozedIds.filter (fun x => x ≠ id)) s.completedIds
            (qok_strip_insert _ _ _ _ _ hq hco).1
          refine inv_mk s _ hs (sets_wasSnoozed s id task hidsome _) rfl
            hrefill.1 ?_
          intro j hj
          have hj2 := hrefill.2 j hj
          refine forall_lanesL_none _ _ _ _
            (fun x => (lookupTask s.tasks x).isSome = true) ?_ ?_ ?_ ?_ j hj2
          · exact forall_append_one
              (forall_filter_ne fun x hx =>
                isSome_of_lanes s hs (mem_lanes_w s hx)) hidsome
          · exact forall_filter_ne fun x hx =>
              isSome_of_lanes s hs (mem_lanes_r s hx)
          · exact forall_filter_ne fun x hx =>
              isSome_of_lanes s hs (mem_lanes_sn s hx)
          · exact fun x hx => isSome_of_lanes s hs (mem_lanes_co s hx)

theorem invBody_moveTaskToQueue (id : TaskId) (s t : AppState) (hs : Inv s)
    (ht : moveTaskToQueueBody id s = some t) : Inv t := by
  by_cases hne : some id = s.currentTaskId
  · simp [moveTaskToQueueBody, hne] at ht
  · by_cases hco : id ∈ s.completedIds
    · simp [moveTaskToQueueBody, hne, hco] at ht
    · cases hlu : lookupTask s.tasks id with
      | none => simp [moveTaskToQueueBody, hne, hco, hlu] at ht
      | some task =>
        have hidsome : (lookupTask s.tasks id).isSome = true := by
          rw [hlu]; simp
        cases hcur : s.currentTaskId with
        | some c =>
          obtain ⟨⟨hcw, hcr, hcs, hcc⟩, hq⟩ := inv_decomp_some s c hs hcur
          have hcid : c ≠ id := fun h => hne (by rw [hcur, h])
          have hidc : ¬id = c := fun h => hcid h.symm
          simp only [moveTaskToQueueBody, hne, hco, hlu, hcur, hidc, if_false,
            ite_false, Option.some.injEq] at ht
          subst ht
          refine inv_mk s _ hs (sets_wasSnoozed s id task hidsome _) rfl ?_ ?_
          · show (lanesL (some c)
              (s.wokenQueue.filter (fun x => x ≠ id))
              (s.readyQueue.filter (fun x => x ≠ id) ++ [id])
              (s.snoozedIds.filter (fun x => x ≠ id)) s.completedIds).Nodup
            rw [lanesL_some_nodup_iff]
            refine ⟨⟨fun h => hcw (filter_ne_subset _ _ h), ?_,
              fun h => hcs (filter_ne_subset _ _ h), hcc⟩,
              (qok_strip_insert _ _ _ _ _ hq hco).2.1⟩
            intro h
            rcases List.mem_append.1 h with h | h
            · exact hcr (filter_ne_subset _ _ h)
            · simp at h
              exact hcid h
          · refine lanes_forall _ _ ?_ ?_ ?_ ?_ ?_
            · intro x hx
              cases hx
              exact isSome_of_lanes s hs (mem_lanes_cur s c hcur)
            · exact forall_filter_ne fun x hx =>
                isSome_of_lanes s hs (mem_lanes_w s hx)
            · exact forall_append_one
                (forall_filter_ne fun x hx =>
                  isSome_of_lanes s hs (mem_lanes_r s hx)) hidsome
            · exact forall_filter_ne fun x hx =>
                isSome_of_lanes s hs (mem_lanes_sn s hx)
            · exact fun x hx => isSome_of_lanes s hs (mem_lanes_co s hx)
        | none =>
          have hq := inv_decomp_none s hs hcur
          simp only [moveTaskToQueueBody, hne, hco, hlu, hcur, if_false,
            ite_false, reduceCtorEq, Option.some.injEq] at ht
          subst ht
          have hrefill := refill_ok (s.wokenQueue.filter (fun x => x ≠ id))
            (s.readyQueue.filter (fun x => x ≠ id) ++ [id])
            (s.snoozedIds.filter (fun x => x ≠ id)) s.completedIds
            (qok_strip_insert _ _ _ _ _ hq hco).2.1
          refine inv_mk s _ hs (sets_wasSnoozed s id task hidsome _) rfl
            hrefill.1 ?_
          intro j hj
          have hj2 := hrefill.2 j hj
          refine forall_lanesL_none _ _ _ _
            (fun x => (lookupTask s.tasks x).isSome = true) ?_ ?_ ?_ ?_ j hj2
          · exact forall_filter_ne fun x hx =>
              isSome_of_lanes s hs (mem_lanes_w s hx)
          · exact forall_append_one
              (forall_filter_ne fun x hx =>
                isSome_of_lanes s hs (mem_lanes_r s hx)) hidsome
          · exact forall_filter_ne fun x hx =>
              isSome_of_lanes s hs (mem_lanes_sn s hx)
          · exact fun x hx => isSome_of_lanes s hs (mem_lanes_co s hx)

theorem invBody_moveTaskToQueueHead (id : TaskId) (s t : AppState) (hs : Inv s)
    (ht : moveTaskToQueueHeadBody id s = some t) : Inv t := by
  by_cases hne : some id = s.currentTaskId
  · simp [moveTaskToQueueHeadBody, hne] at ht
  · by_cases hco : id ∈ s.completedIds
    · simp [moveTaskToQueueHeadBody, hne, hco] at ht
    · cases hlu : lookupTask s.tasks id with
      | none => simp [moveTaskToQueueHeadBody, hne, hco, hlu] at ht
      | some task =>
        have hidsome : (lookupTask s.tasks id).isSome = true := by
          rw [hlu]; simp
        cases hcur : s.currentTaskId with
        | some c =>
          obtain ⟨⟨hcw, hcr, hcs, hcc⟩, hq⟩ := inv_decomp_some s c hs hcur
          have hcid : c ≠ id := fun h => hne (by rw [hcur, h])
          have hidc : ¬id = c := fun h => hcid h.symm
          simp only [moveTaskToQueueHeadBody, hne, hco, hlu, hcur, hidc, if_false,
            ite_false, Option.some.injEq] at ht
          subst ht
          refine inv_mk s _ hs (sets_wasSnoozed s id task hidsome _) rfl ?_ ?_
          · show (lanesL (some c)
              (s.wokenQueue.filter (fun x => x ≠ id))
              (id :: s.readyQueue.filter (fun x => x ≠ id))
              (s.snoozedIds.filter (fun x => x ≠ id)) s.completedIds).Nodup
            rw [lanesL_some_nodup_iff]
            refine ⟨⟨fun h => hcw (filter_ne_subset _ _ h), ?_,
              fun h => hcs (filter_ne_subset _ _ h), hcc⟩,
              (qok_strip_insert _ _ _ _ _ hq hco).2.2⟩
            intro h
            rcases List.mem_cons.1 h with h | h
            · exact hcid h
            · exact hcr (filter_ne_subset _ _ h)
          · refine lanes_forall _ _ ?_ ?_ ?_ ?_ ?_
            · intro x hx
              cases hx
              exact isSome_of_lanes s hs (mem_lanes_cur s c hcur)
            · exact forall_filter_ne fun x hx =>
                isSome_of_lanes s hs (mem_lanes_w s hx)
            · intro x hx
              rcases List.mem_cons.1 hx with h | h
              · exact h ▸ hidsome
              · exact isSome_of_lanes s hs
                  (mem_lanes_r s (filter_ne_subset _ _ h))
            · exact forall_filter_ne fun x hx =>
                isSome_of_lanes s hs (mem_lanes_sn s hx)
            · exact fun x hx => isSome_of_lanes s hs (mem_lanes_co s hx)
        | none =>
          have hq := inv_decomp_none s hs hcur
          simp only [moveTaskToQueueHeadBody, hne, hco, hlu, hcur, if_false,
            ite_false, reduceCtorEq, Option.some.injEq] at ht
          subst ht
          have hrefill := refill_ok (s.wokenQueue.filter (fun x => x ≠ id))
            (id :: s.readyQueue.filter (fun x => x ≠ id))
            (s.snoozedIds.filter (fun x => x ≠ id)) s.completedIds
            (qok_strip_insert _ _ _ _ _ hq hco).2.2
          refine inv_mk s _ hs (sets_wasSnoozed s id task hidsome _) rfl
            hrefill.1 ?_
          intro j hj
          have hj2 := hrefill.2 j hj
          refine forall_lanesL_none _ _ _ _
            (fun x => (lookupTask s.tasks x).isSome = true) ?_ ?_ ?_ ?_ j hj2
          · exact forall_filter_ne fun x hx =>
              isSome_of_lanes s hs (mem_lanes_w s hx)
          · intro x hx
            rcases List.mem_cons.1 hx with h | h
            · exact h ▸ hidsome
            · exact isSome_of_lanes s hs
                (mem_lanes_r s (filter_ne_subset _ _ h))
          · exact forall_filter_ne fun x hx =>
              isSome_of_lanes s hs (mem_lanes_sn s hx)
          · exact fun x hx => isSome_of_lanes s hs (mem_lanes_co s hx)

theorem invBody_focusTask (id : TaskId) (s t : AppState) (hs : Inv s)
    (ht : focusTaskBody id s = some t) : Inv t := by
  by_cases hne : some id = s.currentTaskId
  · simp [focusTaskBody, hne] at ht
  · by_cases hco : id ∈ s.completedIds
    · simp [focusTaskBody, hne, hco] at ht
    · cases hlu : lookupTask s.tasks id with
      | none => simp [focusTaskBody, hne, hco, hlu] at ht
      | some task =>
        have hidsome : (lookupTask s.tasks id).isSome = true := by
          rw [hlu]; simp
        cases hcur : s.currentTaskId with
        | some c =>
          obtain ⟨⟨hcw, hcr, hcs, hcc⟩, hq⟩ := inv_decomp_some s c hs hcur
          have hcid : c ≠ id := fun h => hne (by rw [hcur, h])
          have hidc : ¬id = c := fun h => hcid h.symm
          have hcsome : (lookupTask s.tasks c).isSome = true :=
            isSome_of_lanes s hs (mem_lanes_cur s c hcur)
          simp only [focusTaskBody, hne, hco, hlu, hcur, hidc, hcsome,
            if_false, ite_false, if_true, ite_true, Option.some.injEq] at ht
          subst ht
          refine inv_mk s _ hs (sets_wasSnoozed s id task hidsome _) rfl ?_ ?_
          · show (lanesL (some id)
              (c :: (s.wokenQueue.filter (fun x => x ≠ id)).filter (fun x => x ≠ c))
              (s.readyQueue.filter (fun x => x ≠ id))
              (s.snoozedIds.filter (fun x => x ≠ id)) s.completedIds).Nodup
            rw [lanesL_some_nodup_iff]
            have hbase : QOk (s.wokenQueue.filter (fun x => x ≠ id))
                (s.readyQueue.filter (fun x => x ≠ id))
                (s.snoozedIds.filter (fun x => x ≠ id)) s.completedIds :=
              hq.mono (filter_ne_subset _ _) (filter_ne_subset _ _)
                (filter_ne_subset _ _) (fun _ h => h) (hq.nw.filter _)
                (hq.nr.filter _) (hq.ns.filter _) hq.nc
            refine ⟨⟨?_, not_mem_filter_ne _ _, not_mem_filter_ne _ _, hco⟩, ?_⟩
            · intro h
              rcases List.mem_cons.1 h with h | h
              · exact hidc h
              · exact not_mem_filter_ne _ _ (filter_ne_subset _ _ h)
            · exact
              { nw := List.nodup_cons.2 ⟨not_mem_filter_ne _ _, hbase.nw.filter _⟩
                nr := hbase.nr, ns := hbase.ns, nc := hbase.nc
                dwr := by
                  intro x hx hxr
                  rcases List.mem_cons.1 hx with h | h
                  · rw [h] at hxr
                    exact hcr (filter_ne_subset _ _ hxr)
                  · exact hbase.dwr (filter_ne_subset _ _ h) hxr
                dws := by
                  intro x hx hxs
                  rcases List.mem_cons.1 hx with h | h
                  · rw [h] at hxs
                    exact hcs (filter_ne_subset _ _ hxs)
                  · exact hbase.dws (filter_ne_subset _ _ h) hxs
                dwc := by
                  intro x hx hxc
                  rcases List.mem_cons.1 hx with h | h
                  · rw [h] at hxc
                    exact hcc hxc
                  · exact hbase.dwc (filter_ne_subset _ _ h) hxc
                drs := hbase.drs, drc := hbase.drc, dsc := hbase.dsc }
          · refine lanes_forall _ _ ?_ ?_ ?_ ?_ ?_
            · intro x hx
              cases hx
              exact hidsome
            · intro x hx
              rcases List.mem_cons.1 hx with h | h
              · exact h ▸ hcsome
              · exact isSome_of_lanes s hs
                  (mem_lanes_w s (filter_ne_subset _ _ (filter_ne_subset _ _ h)))
            · exact forall_filter_ne fun x hx =>
                isSome_of_lanes s hs (mem_lanes_r s hx)
            · exact forall_filter_ne fun x hx =>
                isSome_of_lanes s hs (mem_lanes_sn s hx)
            · exact fun x hx => isSome_of_lanes s hs (mem_lanes_co s hx)
        | none =>
          have hq := inv_decomp_none s hs hcur
          simp only [focusTaskBody, hne, hco, hlu, hcur, if_false, ite_false,
            reduceCtorEq, Option.some.injEq] at ht
          subst ht
          refine inv_mk s _ hs (sets_wasSnoozed s id task hidsome _) rfl ?_ ?_
          · show (lanesL (some id)
              (s.wokenQueue.filter (fun x => x ≠ id))
              (s.readyQueue.filter (fun x => x ≠ id))
              (s.snoozedIds.filter (fun x => x ≠ id)) s.completedIds).Nodup
            rw [lanesL_some_nodup_iff]
            exact ⟨⟨not_mem_filter_ne _ _, not_mem_filter_ne _ _,
              not_mem_filter_ne _ _, hco⟩,
              hq.mono (filter_ne_subset _ _) (filter_ne_subset _ _)
                (filter_ne_subset _ _) (fun _ h => h) (hq.nw.filter _)
                (hq.nr.filter _) (hq.ns.filter _) hq.nc⟩
          · refine lanes_forall _ _ ?_ ?_ ?_ ?_ ?_
            · intro x hx
              cases hx
              exact hidsome
            · exact forall_filter_ne fun x hx =>
                isSome_of_lanes s hs (mem_lanes_w s hx)
            · exact forall_filter_ne fun x hx =>
                isSome_of_lanes s hs (mem_lanes_r s hx)
            · exact forall_filter_ne fun x hx =>
                isSome_of_lanes s hs (mem_lanes_sn s hx)
            · exact fun x hx => isSome_of_lanes s hs (mem_lanes_co s hx)

theorem invBody_focusTaskFromQueue (id : TaskId) (s t : AppState) (hs : Inv s)
    (ht : focusTaskFromQueueBody id s = some t) : Inv t := by
  by_cases hne : some id = s.currentTaskId
  · simp [focusTaskFromQueueBody, hne] at ht
  · by_cases hco : id ∈ s.completedIds
    · simp [focusTaskFromQueueBody, hne, hco] at ht
    · cases hlu : lookupTask s.tasks id with
      | none => simp [focusTaskFromQueueBody, hne, hco, hlu] at ht
      | some task =>
        have hidsome : (lookupTask s.tasks id).isSome = true := by
          rw [hlu]; simp
        cases hcur : s.currentTaskId with
        | some c =>
          obtain ⟨⟨hcw, hcr, hcs, hcc⟩, hq⟩ := inv_decomp_some s c hs hcur
          have hcid : c ≠ id := fun h => hne (by rw [hcur, h])
          have hidc : ¬id = c := fun h => hcid h.symm
          have hcsome : (lookupTask s.tasks c).isSome = true :=
            isSome_of_lanes s hs (mem_lanes_cur s c hcur)
          simp only [focusTaskFromQueueBody, hne, hco, hlu, hcur, hidc, hcsome,
            if_false, ite_false, if_true, ite_true, Option.some.injEq] at ht
          subst ht
          refine inv_mk s _ hs (sets_wasSnoozed s id task hidsome _) rfl ?_ ?_
          · show (lanesL (some id)
              ((s.wokenQueue.filter (fun x => x ≠ id)).filter (fun x => x ≠ c) ++ [c])
              (s.readyQueue.filter (fun x => x ≠ id))
              (s.snoozedIds.filter (fun x => x ≠ id)) s.completedIds).Nodup
            rw [lanesL_some_nodup_iff]
            have hbase : QOk (s.wokenQueue.filter (fun x => x ≠ id))
                (s.readyQueue.filter (fun x => x ≠ id))
                (s.snoozedIds.filter (fun x => x ≠ id)) s.completedIds :=
              hq.mono (filter_ne_subset _ _) (filter_ne_subset _ _)
                (filter_ne_subset _ _) (fun _ h => h) (hq.nw.filter _)
                (hq.nr.filter _) (hq.ns.filter _) hq.nc
            refine ⟨⟨?_, not_mem_filter_ne _ _, not_mem_filter_ne _ _, hco⟩, ?_⟩
            · intro h
              rcases List.mem_append.1 h with h | h
              · exact not_mem_filter_ne _ _ (filter_ne_subset _ _ h)
              · simp at h
                exact hidc h
            · exact
              { nw := nodup_append_one _ _ (hbase.nw.filter _)
                  (not_mem_filter_ne _ _)
                nr := hbase.nr, ns := hbase.ns, nc := hbase.nc
                dwr := by
                  intro x hx hxr
                  rcases List.mem_append.1 hx with h | h
                  · exact hbase.dwr (filter_ne_subset _ _ h) hxr
                  · simp at h
                    rw [h] at hxr
                    exact hcr (filter_ne_subset _ _ hxr)
                dws := by
                  intro x hx hxs
                  rcases List.mem_append.1 hx with h | h
                  · exact hbase.dws (filter_ne_subset _ _ h) hxs
                  · simp at h
                    rw [h] at hxs
                    exact hcs (filter_ne_subset _ _ hxs)
                dwc := by
                  intro x hx hxc
                  rcases List.mem_append.1 hx with h | h
                  · exact hbase.dwc (filter_ne_subset _ _ h) hxc
                  · simp at h
                    rw [h] at hxc
                    exact hcc hxc
                drs := hbase.drs, drc := hbase.drc, dsc := hbase.dsc }
          · refine lanes_forall _ _ ?_ ?_ ?_ ?_ ?_
            · intro x hx
              cases hx
              exact hidsome
            · intro x hx
              rcases List.mem_append.1 hx with h | h
              · exact isSome_of_lanes s hs
                  (mem_lanes_w s (filter_ne_subset _ _ (filter_ne_subset _ _ h)))
              · simp at h
                exact h ▸ hcsome
            · exact forall_filter_ne fun x hx =>
                isSome_of_lanes s hs (mem_lanes_r s hx)
            · exact forall_filter_ne fun x hx =>
                isSome_of_lanes s hs (mem_lanes_sn s hx)
            · exact fun x hx => isSome_of_lanes s hs (mem_lanes_co s hx)
        | none =>
          have hq := inv_decomp_none s hs hcur
          simp only [focusTaskFromQueueBody, hne, hco, hlu, hcur, if_false,
            ite_false, reduceCtorEq, Option.some.injEq] at ht
          subst ht
          refine inv_mk s _ hs (sets_wasSnoozed s id task hidsome _) rfl ?_ ?_
          · show (lanesL (some id)
              (s.wokenQueue.filter (fun x => x ≠ id))
              (s.readyQueue.filter (fun x => x ≠ id))
              (s.snoozedIds.filter (fun x => x ≠ id)) s.completedIds).Nodup
            rw [lanesL_some_nodup_iff]
            exact ⟨⟨not_mem_filter_ne _ _, not_mem_filter_ne _ _,
              not_mem_filter_ne _ _, hco⟩,
              hq.mono (filter_ne_subset _ _) (filter_ne_subset _ _)
                (filter_ne_subset _ _) (fun _ h => h) (hq.nw.filter _)
                (hq.nr.filter _) (hq.ns.filter _) hq.nc⟩
          · refine lanes_forall _ _ ?_ ?_ ?_ ?_ ?_
            · intro x hx
              cases hx
              exact hidsome
            · exact forall_filter_ne fun x hx =>
                isSome_of_lanes s hs (mem_lanes_w s hx)
            · exact forall_filter_ne fun x hx =>
                isSome_of_lanes s hs (mem_lanes_r s hx)
            · exact forall_filter_ne fun x hx =>
                isSome_of_lanes s hs (mem_lanes_sn s hx)
            · exact fun x hx => isSome_of_lanes s hs (mem_lanes_co s hx)

theorem sets_ifSnooze (s : AppState) (cur : TaskId) (t' : Task)
    (hsome : (lookupTask s.tasks cur).isSome = true) (cond : Bool) :
    SetsExisting s.tasks
      (if cond = true then setTask s.tasks cur t' else s.tasks) := by
  split
  · exact SetsExisting.step _ _ _ hsome SetsExisting.refl
  · exact SetsExisting.refl

theorem invBody_moveCurrentToQueueHead (s t : AppState) (hs : Inv s)
    (ht : moveCurrentToQueueHeadBody s = some t) : Inv t := by
  cases hcur : s.currentTaskId with
  | none => simp [moveCurrentToQueueHeadBody, hcur] at ht
  | some c =>
    obtain ⟨⟨hcw, hcr, hcs, hcc⟩, hq⟩ := inv_decomp_some s c hs hcur
    by_cases hco : c ∈ s.completedIds
    · simp [moveCurrentToQueueHeadBody, hcur, hco] at ht
    · have hcsome0 := isSome_of_lanes s hs (mem_lanes_cur s c hcur)
      cases hlu : lookupTask s.tasks c with
      | none =>
        rw [hlu] at hcsome0
        simp at hcsome0
      | some currentTask =>
        simp only [moveCurrentToQueueHeadBody, hcur, hco, hlu, if_false,
          ite_false, Option.some.injEq] at ht
        cases hbw : s.wokenQueue.filter (fun x => x ≠ c) with
        | cons wakeHead restWake =>
          rw [hbw] at ht
          simp only [Option.some.injEq] at ht
          subst ht
          have hwh : wakeHead ∈ s.wokenQueue ∧ wakeHead ≠ c := by
            have : wakeHead ∈ s.wokenQueue.filter (fun x => x ≠ c) := by
              rw [hbw]
              exact List.mem_cons_self _ _
            exact mem_filter_ne.1 this
          have hbwn : (wakeHead :: restWake).Nodup := by
            rw [← hbw]
            exact hq.nw.filter _
          have hrest : ∀ x ∈ restWake, x ∈ s.wokenQueue ∧ x ≠ c := by
            intro x hx
            have : x ∈ s.wokenQueue.filter (fun z => z ≠ c) := by
              rw [hbw]
              exact List.mem_cons_of_mem _ hx
            exact mem_filter_ne.1 this
          refine inv_mk s _ hs
            (sets_ifSnooze s c _ hcsome0 currentTask.snoozeUntil.isSome) rfl ?_ ?_
          · show (lanesL (some wakeHead) restWake
              ((c :: s.readyQueue.filter (fun x => x ≠ c)).filter
                (fun x => x ≠ wakeHead))
              (s.snoozedIds.filter (fun x => x ≠ c)) s.completedIds).Nodup
            rw [lanesL_some_nodup_iff]
            refine ⟨⟨(List.nodup_cons.1 hbwn).1, not_mem_filter_ne _ _,
              fun h => hq.dws hwh.1 (filter_ne_subset _ _ h),
              fun h => hq.dwc hwh.1 h⟩, ?_⟩
            exact
              { nw := (List.nodup_cons.1 hbwn).2
                nr := List.Nodup.filter _ (List.nodup_cons.2
                  ⟨fun h => hcr (filter_ne_subset _ _ h), hq.nr.filter _⟩)
                ns := hq.ns.filter _
                nc := hq.nc
                dwr := by
                  intro x hx hxr
                  have hxw := (hrest x hx).1
                  have hxr' := mem_filter_ne.1 hxr
                  rcases List.mem_cons.1 hxr'.1 with h | h
                  · exact hcw (h ▸ hxw)
                  · exact hq.dwr hxw (filter_ne_subset _ _ h)
                dws := fun x hx hxs =>
                  hq.dws (hrest x hx).1 (filter_ne_subset _ _ hxs)
                dwc := fun x hx hxc => hq.dwc (hrest x hx).1 hxc
                drs := by
                  intro x hx hxs
                  have hx' := mem_filter_ne.1 hx
                  have hxs' := mem_filter_ne.1 hxs
                  rcases List.mem_cons.1 hx'.1 with h | h
                  · exact hxs'.2 (by rw [← h])
                  · exact hq.drs (filter_ne_subset _ _ h) hxs'.1
                drc := by
                  intro x hx hxc
                  have hx' := mem_filter_ne.1 hx
                  rcases List.mem_cons.1 hx'.1 with h | h
                  · exact hcc (h ▸ hxc)
                  · exact hq.drc (filter_ne_subset _ _ h) hxc
                dsc := fun x hx hxc => hq.dsc (filter_ne_subset _ _ hx) hxc }
          · refine lanes_forall _ _ ?_ ?_ ?_ ?_ ?_
            · intro x hx
              cases hx
              exact isSome_of_lanes s hs (mem_lanes_w s hwh.1)
            · exact fun x hx =>
                isSome_of_lanes s hs (mem_lanes_w s (hrest x hx).1)
            · intro x hx
              have hx' := mem_filter_ne.1 hx
              rcases List.mem_cons.1 hx'.1 with h | h
              · exact h ▸ hcsome0
              · exact isSome_of_lanes s hs
                  (mem_lanes_r s (filter_ne_subset _ _ h))
            · exact forall_filter_ne fun x hx =>
                isSome_of_lanes s hs (mem_lanes_sn s hx)
            · exact fun x hx => isSome_of_lanes s hs (mem_lanes_co s hx)
        | nil =>
          rw [hbw] at ht
          cases hbr : s.readyQueue.filter (fun x => x ≠ c) with
          | cons queueHead restReady =>
            rw [hbr] at ht
            simp only [Option.some.injEq] at ht
            subst ht
            have hqh : queueHead ∈ s.readyQueue ∧ queueHead ≠ c := by
              have : queueHead ∈ s.readyQueue.filter (fun x => x ≠ c) := by
                rw [hbr]
                exact List.mem_cons_self _ _
              exact mem_filter_ne.1 this
            have hbrn : (queueHead :: restReady).Nodup := by
              rw [← hbr]
              exact hq.nr.filter _
            have hrest : ∀ x ∈ restReady, x ∈ s.readyQueue ∧ x ≠ c := by
              intro x hx
              have : x ∈ s.readyQueue.filter (fun z => z ≠ c) := by
                rw [hbr]
                exact List.mem_cons_of_mem _ hx
              exact mem_filter_ne.1 this
            refine inv_mk s _ hs
              (sets_ifSnooze s c _ hcsome0 currentTask.snoozeUntil.isSome)
              rfl ?_ ?_
            · show (lanesL (some queueHead) ([] : List TaskId) (c :: restReady)
                (s.snoozedIds.filter (fun x => x ≠ c)) s.completedIds).Nodup
              rw [lanesL_some_nodup_iff]
              refine ⟨⟨by simp, ?_,
                fun h => hq.drs hqh.1 (filter_ne_subset _ _ h),
                fun h => hq.drc hqh.1 h⟩, ?_⟩
              · intro h
                rcases List.mem_cons.1 h with h | h
                · exact hqh.2 h
                · exact (List.nodup_cons.1 hbrn).1 h
              · exact
                { nw := List.nodup_nil
                  nr := List.nodup_cons.2
                    ⟨fun h => hcr (hrest c h).1, (List.nodup_cons.1 hbrn).2⟩
                  ns := hq.ns.filter _
                  nc := hq.nc
                  dwr := fun x hx => absurd hx (List.not_mem_nil x)
                  dws := fun x hx => absurd hx (List.not_mem_nil x)
                  dwc := fun x hx => absurd hx (List.not_mem_nil x)
                  drs := by
                    intro x hx hxs
                    have hxs' := mem_filter_ne.1 hxs
                    rcases List.mem_cons.1 hx with h | h
                    · exact hxs'.2 (by rw [← h])
                    · exact hq.drs (hrest x h).1 hxs'.1
                  drc := by
                    intro x hx hxc
                    rcases List.mem_cons.1 hx with h | h
                    · exact hcc (h ▸ hxc)
                    · exact hq.drc (hrest x h).1 hxc
                  dsc := fun x hx hxc =>
                    hq.dsc (filter_ne_subset _ _ hx) hxc }
            · refine lanes_forall _ _ ?_ ?_ ?_ ?_ ?_
              · intro x hx
                cases hx
                exact isSome_of_lanes s hs (mem_lanes_r s hqh.1)
              · intro x hx
                cases hx
              · intro x hx
                rcases List.mem_cons.1 hx with h | h
                · exact h ▸ hcsome0
                · exact isSome_of_lanes s hs (mem_lanes_r s (hrest x h).1)
              · exact forall_filter_ne fun x hx =>
                  isSome_of_lanes s hs (mem_lanes_sn s hx)
              · exact fun x hx => isSome_of_lanes s hs (mem_lanes_co s hx)
          | nil =>
            rw [hbr] at ht
            simp only [Option.some.injEq] at ht
            subst ht
            refine inv_mk s _ hs
              (sets_ifSnooze s c _ hcsome0 currentTask.snoozeUntil.isSome)
              rfl ?_ ?_
            · show (lanesL none ([] : List TaskId) [c]
                (s.snoozedIds.filter (fun x => x ≠ c)) s.completedIds).Nodup
              rw [lanesL_none_nodup_iff]
              exact
                { nw := List.nodup_nil
                  nr := List.nodup_singleton c
                  ns := hq.ns.filter _
                  nc := hq.nc
                  dwr := fun x hx => absurd hx (List.not_mem_nil x)
                  dws := fun x hx => absurd hx (List.not_mem_nil x)
                  dwc := fun x hx => absurd hx (List.not_mem_nil x)
                  drs := by
                    intro x hx hxs
                    simp at hx
                    rw [hx] at hxs
                    exact not_mem_filter_ne _ _ hxs
                  drc := by
                    intro x hx hxc
                    simp at hx
                    exact hcc (hx ▸ hxc)
                  dsc := fun x hx hxc =>
                    hq.dsc (filter_ne_subset _ _ hx) hxc }
            · refine lanes_forall _ _ ?_ ?_ ?_ ?_ ?_
              · intro x hx
                cases hx
              · intro x hx
                cases hx
              · intro x hx
                simp at hx
                exact hx ▸ hcsome0
              · exact forall_filter_ne fun x hx =>
                  isSome_of_lanes s hs (mem_lanes_sn s hx)
              · exact fun x hx => isSome_of_lanes s hs (mem_lanes_co s hx)

theorem invBody_swapCurrentWithWakeHead (s t : AppState) (hs : Inv s)
    (ht : swapCurrentWithWakeHeadBody s = some t) : Inv t := by
  cases hcur : s.currentTaskId with
  | none => simp [swapCurrentWithWakeHeadBody, hcur] at ht
  | some c =>
    obtain ⟨⟨hcw, hcr, hcs, hcc⟩, hq⟩ := inv_decomp_some s c hs hcur
    by_cases hco : c ∈ s.completedIds
    · simp [swapCurrentWithWakeHeadBody, hcur, hco] at ht
    · have hcsome0 := isSome_of_lanes s hs (mem_lanes_cur s c hcur)
      cases hlu : lookupTask s.tasks c with
      | none =>
        rw [hlu] at hcsome0
        simp at hcsome0
      | some currentTask =>
        simp only [swapCurrentWithWakeHeadBody, hcur, hco, hlu, if_false,
          ite_false, Option.some.injEq] at ht
        have hsets0 : SetsExisting s.tasks
            (if currentTask.snoozeUntil.isSome = true then
              setTask s.tasks c
                { currentTask with snoozeUntil := none, snoozeSeq := none }
            else s.tasks) :=
          sets_ifSnooze s c _ hcsome0 currentTask.snoozeUntil.isSome
        cases hbw : s.wokenQueue.filter (fun x => x ≠ c) with
        | cons wakeHead restWake =>
          rw [hbw] at ht
          simp only [Option.some.injEq] at ht
          subst ht
          have hwh : wakeHead ∈ s.wokenQueue ∧ wakeHead ≠ c := by
            have : wakeHead ∈ s.wokenQueue.filter (fun x => x ≠ c) := by
              rw [hbw]
              exact List.mem_cons_self _ _
            exact mem_filter_ne.1 this
          have hbwn : (wakeHead :: restWake).Nodup := by
            rw [← hbw]
            exact hq.nw.filter _
          have hrest : ∀ x ∈ restWake, x ∈ s.wokenQueue ∧ x ≠ c := by
            intro x hx
            have : x ∈ s.wokenQueue.filter (fun z => z ≠ c) := by
              rw [hbw]
              exact List.mem_cons_of_mem _ hx
            exact mem_filter_ne.1 this
          have hsets : SetsExisting s.tasks
              (match lookupTask s.tasks wakeHead with
                 | some wakeTask =>
                   if wakeTask.snoozeUntil.isSome = true then
                     setTask
                       (if currentTask.snoozeUntil.isSome = true then
                         setTask s.tasks c
                           { currentTask with snoozeUntil := none, snoozeSeq := none }
                        else s.tasks) wakeHead
                       { wakeTask with snoozeUntil := none, snoozeSeq := none }
                   else
                     (if currentTask.snoozeUntil.isSome = true then
                       setTask s.tasks c
                         { currentTask with snoozeUntil := none, snoozeSeq := none }
                      else s.tasks)
                 | none =>
                   (if currentTask.snoozeUntil.isSome = true then
                     setTask s.tasks c
                       { currentTask with snoozeUntil := none, snoozeSeq := none }
                    else s.tasks)) := by
              cases hwl : lookupTask s.tasks wakeHead with
              | some wakeTask =>
                dsimp only
                by_cases hsz : wakeTask.snoozeUntil.isSome = true
                · rw [if_pos hsz]
                  exact SetsExisting.step _ _ _ (by rw [hwl]; simp) hsets0
                · rw [if_neg hsz]
                  exact hsets0
              | none => exact hsets0
          refine ⟨?nod, ?keys, ?gone, hs.deletedNodup, hsets.keysNodup hs.keysNodup⟩
          case nod =>
            show (lanesL (some wakeHead) (c :: restWake)
              ((s.readyQueue.filter (fun x => x ≠ c)).filter
                (fun x => x ≠ wakeHead))
              ((s.snoozedIds.filter (fun x => x ≠ c)).filter
                (fun x => x ≠ wakeHead)) s.completedIds).Nodup
            rw [lanesL_some_nodup_iff]
            refine ⟨⟨?_, not_mem_filter_ne _ _, not_mem_filter_ne _ _,
              fun h => hq.dwc hwh.1 h⟩, ?_⟩
            · intro h
              rcases List.mem_cons.1 h with h | h
              · exact hwh.2 h
              · exact (List.nodup_cons.1 hbwn).1 h
            · exact
              { nw := List.nodup_cons.2
                  ⟨fun h => hcw (hrest c h).1, (List.nodup_cons.1 hbwn).2⟩
                nr := (hq.nr.filter _).filter _
                ns := (hq.ns.filter _).filter _
                nc := hq.nc
                dwr := by
                  intro x hx hxr
                  have hxr' := mem_filter_ne.1 (filter_ne_subset _ _ hxr)
                  rcases List.mem_cons.1 hx with h | h
                  · exact hxr'.2 (by rw [← h])
                  · exact hq.dwr (hrest x h).1 hxr'.1
                dws := by
                  intro x hx hxs
                  have hxs' := mem_filter_ne.1 (filter_ne_subset _ _ hxs)
                  rcases List.mem_cons.1 hx with h | h
                  · exact hxs'.2 (by rw [← h])
                  · exact hq.dws (hrest x h).1 hxs'.1
                dwc := by
                  intro x hx hxc
                  rcases List.mem_cons.1 hx with h | h
                  · exact hcc (h ▸ hxc)
                  · exact hq.dwc (hrest x h).1 hxc
                drs := fun x hx hxs =>
                  hq.drs (filter_ne_subset _ _ (filter_ne_subset _ _ hx))
                    (filter_ne_subset _ _ (filter_ne_subset _ _ hxs))
                drc := fun x hx hxc =>
                  hq.drc (filter_ne_subset _ _ (filter_ne_subset _ _ hx)) hxc
                dsc := fun x hx hxc =>
                  hq.dsc (filter_ne_subset _ _ (filter_ne_subset _ _ hx)) hxc }
          case keys =>
            intro j hj
            refine hsets.isSome j ?_
            revert hj
            refine lanes_forall _
              (fun x => (lookupTask s.tasks x).isSome = true) ?_ ?_ ?_ ?_ ?_ j
            · intro x hx
              cases hx
              exact isSome_of_lanes s hs (mem_lanes_w s hwh.1)
            · intro x hx
              rcases List.mem_cons.1 hx with h | h
              · exact h ▸ hcsome0
              · exact isSome_of_lanes s hs (mem_lanes_w s (hrest x h).1)
            · exact fun x hx => isSome_of_lanes s hs
                (mem_lanes_r s (filter_ne_subset _ _ (filter_ne_subset _ _ hx)))
            · exact fun x hx => isSome_of_lanes s hs
                (mem_lanes_sn s (filter_ne_subset _ _ (filter_ne_subset _ _ hx)))
            · exact fun x hx => isSome_of_lanes s hs (mem_lanes_co s hx)
          case gone =>
            intro d hd
            exact hsets.gone d (hs.deletedGone d hd)
        | nil =>
          rw [hbw] at ht
          cases hbr : s.readyQueue.filter (fun x => x ≠ c) with
          | cons h0 t0 =>
            rw [hbr] at ht
            simp only [Option.some.injEq] at ht
            subst ht
            have hqh : h0 ∈ s.readyQueue ∧ h0 ≠ c := by
              have : h0 ∈ s.readyQueue.filter (fun x => x ≠ c) := by
                rw [hbr]
                exact List.mem_cons_self _ _
              exact mem_filter_ne.1 this
            have hbrn : (h0 :: t0).Nodup := by
              rw [← hbr]
              exact hq.nr.filter _
            have hrest : ∀ x ∈ t0, x ∈ s.readyQueue ∧ x ≠ c := by
              intro x hx
              have : x ∈ s.readyQueue.filter (fun z => z ≠ c) := by
                rw [hbr]
                exact List.mem_cons_of_mem _ hx
              exact mem_filter_ne.1 this
            refine inv_mk s _ hs hsets0 rfl ?_ ?_
            · show (lanesL (some h0) [c] t0
                (s.snoozedIds.filter (fun x => x ≠ c)) s.completedIds).Nodup
              rw [lanesL_some_nodup_iff]
              refine ⟨⟨?_, (List.nodup_cons.1 hbrn).1,
                fun h => hq.drs hqh.1 (filter_ne_subset _ _ h),
                fun h => hq.drc hqh.1 h⟩, ?_⟩
              · intro h
                simp at h
                exact hqh.2 h
              · exact
                { nw := List.nodup_singleton c
                  nr := (List.nodup_cons.1 hbrn).2
                  ns := hq.ns.filter _
                  nc := hq.nc
                  dwr := by
                    intro x hx hxr
                    simp at hx
                    exact (hrest x hxr).2 (by rw [hx])
                  dws := by
                    intro x hx hxs
                    simp at hx
                    rw [hx] at hxs
                    exact not_mem_filter_ne _ _ hxs
                  dwc := by
                    intro x hx hxc
                    simp at hx
                    exact hcc (hx ▸ hxc)
                  drs := fun x hx hxs =>
                    hq.drs (hrest x hx).1 (filter_ne_subset _ _ hxs)
                  drc := fun x hx hxc => hq.drc (hrest x hx).1 hxc
                  dsc := fun x hx hxc =>
                    hq.dsc (filter_ne_subset _ _ hx) hxc }
            · refine lanes_forall _ _ ?_ ?_ ?_ ?_ ?_
              · intro x hx
                cases hx
                exact isSome_of_lanes s hs (mem_lanes_r s hqh.1)
              · intro x hx
                simp at hx
                exact hx ▸ hcsome0
              · exact fun x hx =>
                  isSome_of_lanes s hs (mem_lanes_r s (hrest x hx).1)
              · exact forall_filter_ne fun x hx =>
                  isSome_of_lanes s hs (mem_lanes_sn s hx)
              · exact fun x hx => isSome_of_lanes s hs (mem_lanes_co s hx)
          | nil =>
            rw [hbr] at ht
            simp only [Option.some.injEq] at ht
            subst ht
            refine inv_mk s _ hs hsets0 rfl ?_ ?_
            · show (lanesL none [c] ([] : List TaskId)
                (s.snoozedIds.filter (fun x => x ≠ c)) s.completedIds).Nodup
              rw [lanesL_none_nodup_iff]
              exact
                { nw := List.nodup_singleton c
                  nr := List.nodup_nil
                  ns := hq.ns.filter _
                  nc := hq.nc
                  dwr := by
                    intro x hx hxr
                    cases hxr
                  dws := by
                    intro x hx hxs
                    simp at hx
                    rw [hx] at hxs
                    exact not_mem_filter_ne _ _ hxs
                  dwc := by
                    intro x hx hxc
                    simp at hx
                    exact hcc (hx ▸ hxc)
                  drs := by
                    intro x hx
                    cases hx
                  drc := by
                    intro x hx
                    cases hx
                  dsc := fun x hx hxc =>
                    hq.dsc (filter_ne_subset _ _ hx) hxc }
            · refine lanes_forall _ _ ?_ ?_ ?_ ?_ ?_
              · intro x hx
                cases hx
              · intro x hx
                simp at hx
                exact hx ▸ hcsome0
              · intro x hx
                cases hx
              · exact forall_filter_ne fun x hx =>
                  isSome_of_lanes s hs (mem_lanes_sn s hx)
              · exact fun x hx => isSome_of_lanes s hs (mem_lanes_co s hx)

theorem inv_qok (s : AppState) (hs : Inv s) :
    QOk s.wokenQueue s.readyQueue s.snoozedIds s.completedIds := by
  cases hcur : s.currentTaskId with
  | some c => exact (inv_decomp_some s c hs hcur).2
  | none => exact inv_decomp_none s hs hcur

theorem lanes_nodup_shrink_sn (cur : Option TaskId) (w r sn sn' co : List TaskId)
    (h : (lanesL cur w r sn co).Nodup) (hsub : sn' ⊆ sn) (hn : sn'.Nodup) :
    (lanesL cur w r sn' co).Nodup := by
  cases cur with
  | none =>
    rw [lanesL_none_nodup_iff] at h ⊢
    exact h.mono (fun _ h => h) (fun _ h => h) hsub (fun _ h => h)
      h.nw h.nr hn h.nc
  | some c =>
    rw [lanesL_some_nodup_iff] at h ⊢
    obtain ⟨⟨h1, h2, h3, h4⟩, hq⟩ := h
    exact ⟨⟨h1, h2, fun hh => h3 (hsub hh), h4⟩,
      hq.mono (fun _ h => h) (fun _ h => h) hsub (fun _ h => h)
        hq.nw hq.nr hn hq.nc⟩

theorem invBody_resumeSnoozedTask (id : TaskId) (s t : AppState) (hs : Inv s)
    (ht : resumeSnoozedTaskBody id s = some t) : Inv t := by
  by_cases hsn : id ∈ s.snoozedIds
  · have hidsome : (lookupTask s.tasks id).isSome = true :=
      isSome_of_lanes s hs (mem_lanes_sn s hsn)
    cases hlu : lookupTask s.tasks id with
    | none =>
      rw [hlu] at hidsome
      simp at hidsome
    | some task =>
      by_cases helse : some id = s.currentTaskId ∨ id ∈ s.wokenQueue ∨
          id ∈ s.readyQueue ∨ id ∈ s.completedIds
      · simp only [resumeSnoozedTaskBody, hsn, hlu, helse, not_true_eq_false,
          if_true, ite_true, if_false, ite_false, Option.some.injEq] at ht
        subst ht
        refine inv_mk s _ hs
          (SetsExisting.step _ _ _ hidsome SetsExisting.refl) rfl ?_ ?_
        · show (lanesL s.currentTaskId s.wokenQueue s.readyQueue
            (s.snoozedIds.filter (fun sid => sid ≠ id)) s.completedIds).Nodup
          exact lanes_nodup_shrink_sn _ _ _ _ _ _ hs.lanesNodup
            (filter_ne_subset _ _) ((inv_qok s hs).ns.filter _)
        · refine lanes_forall _ _ ?_ ?_ ?_ ?_ ?_
          · intro x hx
            exact isSome_of_lanes s hs (mem_lanes_cur s x hx)
          · exact fun x hx => isSome_of_lanes s hs (mem_lanes_w s hx)
          · exact fun x hx => isSome_of_lanes s hs (mem_lanes_r s hx)
          · exact forall_filter_ne fun x hx =>
              isSome_of_lanes s hs (mem_lanes_sn s hx)
          · exact fun x hx => isSome_of_lanes s hs (mem_lanes_co s hx)
      · push_neg at helse
        obtain ⟨hnc, hnw, hnr, hnco⟩ := helse
        have helse' : ¬(some id = s.currentTaskId ∨ id ∈ s.wokenQueue ∨
            id ∈ s.readyQueue ∨ id ∈ s.completedIds) := by
          push_neg
          exact ⟨hnc, hnw, hnr, hnco⟩
        cases hcur : s.currentTaskId with
        | some c =>
          obtain ⟨⟨hcw, hcr, hcs, hcc⟩, hq⟩ := inv_decomp_some s c hs hcur
          have hidc : id ≠ c := fun h => hnc (by rw [hcur, h])
          have hcond : ¬(id = c ∨ id ∈ s.wokenQueue ∨ id ∈ s.readyQueue ∨
              id ∈ s.completedIds) := by
            push_neg
            exact ⟨hidc, hnw, hnr, hnco⟩
          simp only [resumeSnoozedTaskBody, hsn, hlu, hcond, hcur,
            not_true_eq_false, if_true, ite_true, if_false, ite_false,
            Option.some.injEq] at ht
          subst ht
          refine inv_mk s _ hs
            (SetsExisting.step _ _ _ hidsome SetsExisting.refl) rfl ?_ ?_
          · show (lanesL (some c) s.wokenQueue (s.readyQueue ++ [id])
              (s.snoozedIds.filter (fun sid => sid ≠ id)) s.completedIds).Nodup
            rw [lanesL_some_nodup_iff]
            refine ⟨⟨hcw, ?_, fun h => hcs (filter_ne_subset _ _ h), hcc⟩, ?_⟩
            · intro h
              rcases List.mem_append.1 h with h | h
              · exact hcr h
              · simp at h
                exact hidc h.symm
            · exact
              { nw := hq.nw
                nr := nodup_append_one _ _ hq.nr hnr
                ns := hq.ns.filter _
                nc := hq.nc
                dwr := by
                  rw [List.disjoint_append_right]
                  exact ⟨hq.dwr, disjoint_one_right _ _ hnw⟩
                dws := fun x hx hxs =>
                  hq.dws hx (filter_ne_subset _ _ hxs)
                dwc := hq.dwc
                drs := by
                  intro x hx hxs
                  have hxs' := mem_filter_ne.1 hxs
                  rcases List.mem_append.1 hx with h | h
                  · exact hq.drs h hxs'.1
                  · simp at h
                    exact hxs'.2 (by rw [h])
                drc := by
                  intro x hx hxc
                  rcases List.mem_append.1 hx with h | h
                  · exact hq.drc h hxc
                  · simp at h
                    exact hnco (h ▸ hxc)
                dsc := fun x hx hxc =>
                  hq.dsc (filter_ne_subset _ _ hx) hxc }
          · refine lanes_forall _ _ ?_ ?_ ?_ ?_ ?_
            · intro x hx
              cases hx
              exact isSome_of_lanes s hs (mem_lanes_cur s c hcur)
            · exact fun x hx => isSome_of_lanes s hs (mem_lanes_w s hx)
            · exact forall_append_one
                (fun x hx => isSome_of_lanes s hs (mem_lanes_r s hx)) hidsome
            · exact forall_filter_ne fun x hx =>
                isSome_of_lanes s hs (mem_lanes_sn s hx)
            · exact fun x hx => isSome_of_lanes s hs (mem_lanes_co s hx)
        | none =>
          have hq := inv_decomp_none s hs hcur
          simp only [resumeSnoozedTaskBody, hsn, hlu, hnw, hnr, hnco, hcur,
            not_true_eq_false, reduceCtorEq, false_or, or_self, if_true,
            ite_true, if_false, ite_false, Option.some.injEq] at ht
          subst ht
          have hq' : QOk s.wokenQueue (s.readyQueue ++ [id])
              (s.snoozedIds.filter (fun sid => sid ≠ id)) s.completedIds :=
            { nw := hq.nw
              nr := nodup_append_one _ _ hq.nr hnr
              ns := hq.ns.filter _
              nc := hq.nc
              dwr := by
                rw [List.disjoint_append_right]
                exact ⟨hq.dwr, disjoint_one_right _ _ hnw⟩
              dws := fun x hx hxs => hq.dws hx (filter_ne_subset _ _ hxs)
              dwc := hq.dwc
              drs := by
                intro x hx hxs
                have hxs' := mem_filter_ne.1 hxs
                rcases List.mem_append.1 hx with h | h
                · exact hq.drs h hxs'.1
                · simp at h
                  exact hxs'.2 (by rw [h])
              drc := by
                intro x hx hxc
                rcases List.mem_append.1 hx with h | h
                · exact hq.drc h hxc
                · simp at h
                  exact hnco (h ▸ hxc)
              dsc := fun x hx hxc =>
                hq.dsc (filter_ne_subset _ _ hx) hxc }
          have hrefill := refill_ok _ _ _ _ hq'
          refine inv_mk s _ hs
            (SetsExisting.step _ _ _ hidsome SetsExisting.refl) rfl
            hrefill.1 ?_
          intro j hj
          have hj2 := hrefill.2 j hj
          refine forall_lanesL_none _ _ _ _
            (fun x => (lookupTask s.tasks x).isSome = true) ?_ ?_ ?_ ?_ j hj2
          · exact fun x hx => isSome_of_lanes s hs (mem_lanes_w s hx)
          · exact forall_append_one
              (fun x hx => isSome_of_lanes s hs (mem_lanes_r s hx)) hidsome
          · exact forall_filter_ne fun x hx =>
              isSome_of_lanes s hs (mem_lanes_sn s hx)
          · exact fun x hx => isSome_of_lanes s hs (mem_lanes_co s hx)
  · simp [resumeSnoozedTaskBody, hsn] at ht

theorem invBody_restoreTask (id : TaskId) (now : Int) (s t : AppState)
    (hs : Inv s) (ht : restoreTaskBody id now s = some t) : Inv t := by
  by_cases hco : id ∈ s.completedIds
  · have hidsome : (lookupTask s.tasks id).isSome = true :=
      isSome_of_lanes s hs (mem_lanes_co s hco)
    have hsets : SetsExisting s.tasks
        (match lookupTask s.tasks id with
         | some task =>
           setTask s.tasks id
             { task with restoredAt := some (nextUpdatedAt task.updatedAt now)
                         updatedAt := nextUpdatedAt task.updatedAt now }
         | none => s.tasks) := by
      cases hlu : lookupTask s.tasks id with
      | some task => exact SetsExisting.step _ _ _ hidsome SetsExisting.refl
      | none => exact SetsExisting.refl
    cases hcur : s.currentTaskId with
    | some c =>
      obtain ⟨⟨hcw, hcr, hcs, hcc⟩, hq⟩ := inv_decomp_some s c hs hcur
      have hidw : id ∉ s.wokenQueue := fun h => hq.dwc h hco
      have hidr : id ∉ s.readyQueue := fun h => hq.drc h hco
      have hidc : id ≠ c := fun h => hcc (h ▸ hco)
      simp only [restoreTaskBody, hco, hcur, not_true_eq_false, if_false,
        ite_false, Option.some.injEq] at ht
      subst ht
      refine inv_mk s _ hs hsets rfl ?_ ?_
      · show (lanesL (some c) s.wokenQueue (s.readyQueue ++ [id])
          s.snoozedIds (s.completedIds.filter (fun cid => cid ≠ id))).Nodup
        rw [lanesL_some_nodup_iff]
        refine ⟨⟨hcw, ?_, hcs, fun h => hcc (filter_ne_subset _ _ h)⟩, ?_⟩
        · intro h
          rcases List.mem_append.1 h with h | h
          · exact hcr h
          · simp at h
            exact hidc h.symm
        · exact
          { nw := hq.nw
            nr := nodup_append_one _ _ hq.nr hidr
            ns := hq.ns
            nc := hq.nc.filter _
            dwr := by
              rw [List.disjoint_append_right]
              exact ⟨hq.dwr, disjoint_one_right _ _ hidw⟩
            dws := hq.dws
            dwc := fun x hx hxc => hq.dwc hx (filter_ne_subset _ _ hxc)
            drs := by
              intro x hx hxs
              rcases List.mem_append.1 hx with h | h
              · exact hq.drs h hxs
              · simp at h
                exact hq.dsc (h ▸ hxs) hco
            drc := by
              intro x hx hxc
              have hxc' := mem_filter_ne.1 hxc
              rcases List.mem_append.1 hx with h | h
              · exact hq.drc h hxc'.1
              · simp at h
                exact hxc'.2 (by rw [h])
            dsc := fun x hx hxc =>
              hq.dsc hx (filter_ne_subset _ _ hxc) }
      · refine lanes_forall _ _ ?_ ?_ ?_ ?_ ?_
        · intro x hx
          cases hx
          exact isSome_of_lanes s hs (mem_lanes_cur s c hcur)
        · exact fun x hx => isSome_of_lanes s hs (mem_lanes_w s hx)
        · exact forall_append_one
            (fun x hx => isSome_of_lanes s hs (mem_lanes_r s hx)) hidsome
        · exact fun x hx => isSome_of_lanes s hs (mem_lanes_sn s hx)
        · exact forall_filter_ne fun x hx =>
            isSome_of_lanes s hs (mem_lanes_co s hx)
    | none =>
      have hq := inv_decomp_none s hs hcur
      have hidw : id ∉ s.wokenQueue := fun h => hq.dwc h hco
      have hidr : id ∉ s.readyQueue := fun h => hq.drc h hco
      simp only [restoreTaskBody, hco, hcur, not_true_eq_false, if_false,
        ite_false, Option.some.injEq] at ht
      subst ht
      have hq' : QOk s.wokenQueue (s.readyQueue ++ [id]) s.snoozedIds
          (s.completedIds.filter (fun cid => cid ≠ id)) :=
        { nw := hq.nw
          nr := nodup_append_one _ _ hq.nr hidr
          ns := hq.ns
          nc := hq.nc.filter _
          dwr := by
            rw [List.disjoint_append_right]
            exact ⟨hq.dwr, disjoint_one_right _ _ hidw⟩
          dws := hq.dws
          dwc := fun x hx hxc => hq.dwc hx (filter_ne_subset _ _ hxc)
          drs := by
            intro x hx hxs
            rcases List.mem_append.1 hx with h | h
            · exact hq.drs h hxs
            · simp at h
              exact hq.dsc (h ▸ hxs) hco
          drc := by
            intro x hx hxc
            have hxc' := mem_filter_ne.1 hxc
            rcases List.mem_append.1 hx with h | h
            · exact hq.drc h hxc'.1
            · simp at h
              exact hxc'.2 (by rw [h])
          dsc := fun x hx hxc =>
            hq.dsc hx (filter_ne_subset _ _ hxc) }
      have hrefill := refill_ok _ _ _ _ hq'
      refine inv_mk s _ hs hsets rfl hrefill.1 ?_
      intro j hj
      have hj2 := hrefill.2 j hj
      refine forall_lanesL_none _ _ _ _
        (fun x => (lookupTask s.tasks x).isSome = true) ?_ ?_ ?_ ?_ j hj2
      · exact fun x hx => isSome_of_lanes s hs (mem_lanes_w s hx)
      · exact forall_append_one
          (fun x hx => isSome_of_lanes s hs (mem_lanes_r s hx)) hidsome
      · exact fun x hx => isSome_of_lanes s hs (mem_lanes_sn s hx)
      · exact forall_filter_ne fun x hx =>
          isSome_of_lanes s hs (mem_lanes_co s hx)
  · simp [restoreTaskBody, hco] at ht

theorem reorderPick_mem (existing : List TaskId) :
    ∀ (l seen : List TaskId), ∀ x ∈ reorderPick existing seen l,
      x ∈ existing ∧ x ∉ seen := by
  intro l
  induction l with
  | nil =>
    intro seen x hx
    simp [reorderPick] at hx
  | cons id rest ih =>
    intro seen x hx
    by_cases he : id ∈ existing
    · by_cases hseen : id ∈ seen
      · rw [reorderPick, if_pos he, if_pos hseen] at hx
        exact ih seen x hx
      · rw [reorderPick, if_pos he, if_neg hseen] at hx
        rcases List.mem_cons.1 hx with h | h
        · exact ⟨h ▸ he, h ▸ hseen⟩
        · have := ih (id :: seen) x h
          exact ⟨this.1, fun hh => this.2 (List.mem_cons_of_mem _ hh)⟩
    · rw [reorderPick, if_neg he] at hx
      exact ih seen x hx

theorem reorderPick_nodup (existing : List TaskId) :
    ∀ (l seen : List TaskId), (reorderPick existing seen l).Nodup := by
  intro l
  induction l with
  | nil =>
    intro seen
    simp [reorderPick]
  | cons id rest ih =>
    intro seen
    by_cases he : id ∈ existing
    · by_cases hseen : id ∈ seen
      · rw [reorderPick, if_pos he, if_pos hseen]
        exact ih seen
      · rw [reorderPick, if_pos he, if_neg hseen]
        refine List.nodup_cons.2 ⟨?_, ih (id :: seen)⟩
        intro hmem
        exact (reorderPick_mem existing rest (id :: seen) id hmem).2
          (List.mem_cons_self _ _)
    · rw [reorderPick, if_neg he]
      exact ih seen

theorem reorderFill_mem :
    ∀ (l seen : List TaskId), ∀ x ∈ reorderFill seen l, x ∈ l ∧ x ∉ seen := by
  intro l
  induction l with
  | nil =>
    intro seen x hx
    simp [reorderFill] at hx
  | cons id rest ih =>
    intro seen x hx
    by_cases hseen : id ∈ seen
    · rw [reorderFill, if_pos hseen] at hx
      have := ih seen x hx
      exact ⟨List.mem_cons_of_mem _ this.1, this.2⟩
    · rw [reorderFill, if_neg hseen] at hx
      rcases List.mem_cons.1 hx with h | h
      · exact ⟨h ▸ List.mem_cons_self _ _, h ▸ hseen⟩
      · have := ih (id :: seen) x h
        exact ⟨List.mem_cons_of_mem _ this.1,
          fun hh => this.2 (List.mem_cons_of_mem _ hh)⟩

theorem reorderFill_nodup :
    ∀ (l seen : List TaskId), (reorderFill seen l).Nodup := by
  intro l
  induction l with
  | nil =>
    intro seen
    simp [reorderFill]
  | cons id rest ih =>
    intro seen
    by_cases hseen : id ∈ seen
    · rw [reorderFill, if_pos hseen]
      exact ih seen
    · rw [reorderFill, if_neg hseen]
      refine List.nodup_cons.2 ⟨?_, ih (id :: seen)⟩
      intro hmem
      exact (reorderFill_mem rest (id :: seen) id hmem).2
        (List.mem_cons_self _ _)

theorem reorderNormalized_nodup (existing newOrder : List TaskId) :
    (reorderNormalized existing newOrder).Nodup := by
  rw [reorderNormalized, List.nodup_append]
  refine ⟨reorderPick_nodup existing newOrder [],
    reorderFill_nodup existing _, ?_⟩
  intro x hx hx2
  exact (reorderFill_mem existing _ x hx2).2 hx

theorem reorderNormalized_subset (existing newOrder : List TaskId) :
    ∀ x ∈ reorderNormalized existing newOrder, x ∈ existing := by
  intro x hx
  rcases List.mem_append.1 hx with h | h
  · exact (reorderPick_mem existing newOrder [] x h).1
  · exact (reorderFill_mem existing _ x h).1

theorem lanes_nodup_replace_w (cur : Option TaskId) (w w' r sn co : List TaskId)
    (h : (lanesL cur w r sn co).Nodup) (hsub : w' ⊆ w) (hn : w'.Nodup) :
    (lanesL cur w' r sn co).Nodup := by
  cases cur with
  | none =>
    rw [lanesL_none_nodup_iff] at h ⊢
    exact h.mono hsub (fun _ h => h) (fun _ h => h) (fun _ h => h)
      hn h.nr h.ns h.nc
  | some c =>
    rw [lanesL_some_nodup_iff] at h ⊢
    obtain ⟨⟨h1, h2, h3, h4⟩, hq⟩ := h
    exact ⟨⟨fun hh => h1 (hsub hh), h2, h3, h4⟩,
      hq.mono hsub (fun _ h => h) (fun _ h => h) (fun _ h => h)
        hn hq.nr hq.ns hq.nc⟩

theorem lanes_nodup_replace_r (cur : Option TaskId) (w r r' sn co : List TaskId)
    (h : (lanesL cur w r sn co).Nodup) (hsub : r' ⊆ r) (hn : r'.Nodup) :
    (lanesL cur w r' sn co).Nodup := by
  cases cur with
  | none =>
    rw [lanesL_none_nodup_iff] at h ⊢
    exact h.mono (fun _ h => h) hsub (fun _ h => h) (fun _ h => h)
      h.nw hn h.ns h.nc
  | some c =>
    rw [lanesL_some_nodup_iff] at h ⊢
    obtain ⟨⟨h1, h2, h3, h4⟩, hq⟩ := h
    exact ⟨⟨h1, fun hh => h2 (hsub hh), h3, h4⟩,
      hq.mono (fun _ h => h) hsub (fun _ h => h) (fun _ h => h)
        hq.nw hn hq.ns hq.nc⟩

theorem invBody_reorderWokenQueue (newOrder : List TaskId) (s t : AppState)
    (hs : Inv s) (ht : reorderWokenQueueBody newOrder s = some t) : Inv t := by
  by_cases hlen : s.wokenQueue.length = 0
  · simp [reorderWokenQueueBody, hlen] at ht
  · by_cases hsame : reorderNormalized s.wokenQueue newOrder = s.wokenQueue
    · simp [reorderWokenQueueBody, hlen, hsame] at ht
    · simp only [reorderWokenQueueBody, hlen, hsame, if_false, ite_false,
        Option.some.injEq] at ht
      subst ht
      refine inv_mk s _ hs SetsExisting.refl rfl ?_ ?_
      · show (lanesL s.currentTaskId (reorderNormalized s.wokenQueue newOrder)
          s.readyQueue s.snoozedIds s.completedIds).Nodup
        exact lanes_nodup_replace_w _ _ _ _ _ _ hs.lanesNodup
          (fun _ h => reorderNormalized_subset _ _ _ h)
          (reorderNormalized_nodup _ _)
      · refine lanes_forall _ _ ?_ ?_ ?_ ?_ ?_
        · intro x hx
          exact isSome_of_lanes s hs (mem_lanes_cur s x hx)
        · exact fun x hx => isSome_of_lanes s hs
            (mem_lanes_w s (reorderNormalized_subset _ _ x hx))
        · exact fun x hx => isSome_of_lanes s hs (mem_lanes_r s hx)
        · exact fun x hx => isSome_of_lanes s hs (mem_lanes_sn s hx)
        · exact fun x hx => isSome_of_lanes s hs (mem_lanes_co s hx)

theorem invBody_reorderReadyQueue (newOrder : List TaskId) (s t : AppState)
    (hs : Inv s) (ht : reorderReadyQueueBody newOrder s = some t) : Inv t := by
  by_cases hlen : s.readyQueue.length = 0
  · simp [reorderReadyQueueBody, hlen] at ht
  · by_cases hsame : reorderNormalized s.readyQueue newOrder = s.readyQueue
    · simp [reorderReadyQueueBody, hlen, hsame] at ht
    · simp only [reorderReadyQueueBody, hlen, hsame, if_false, ite_false,
        Option.some.injEq] at ht
      subst ht
      refine inv_mk s _ hs SetsExisting.refl rfl ?_ ?_
      · show (lanesL s.currentTaskId s.wokenQueue
          (reorderNormalized s.readyQueue newOrder)
          s.snoozedIds s.completedIds).Nodup
        exact lanes_nodup_replace_r _ _ _ _ _ _ hs.lanesNodup
          (fun _ h => reorderNormalized_subset _ _ _ h)
          (reorderNormalized_nodup _ _)
      · refine lanes_forall _ _ ?_ ?_ ?_ ?_ ?_
        · intro x hx
          exact isSome_of_lanes s hs (mem_lanes_cur s x hx)
        · exact fun x hx => isSome_of_lanes s hs (mem_lanes_w s hx)
        · exact fun x hx => isSome_of_lanes s hs
            (mem_lanes_r s (reorderNormalized_subset _ _ x hx))
        · exact fun x hx => isSome_of_lanes s hs (mem_lanes_sn s hx)
        · exact fun x hx => isSome_of_lanes s hs (mem_lanes_co s hx)

theorem keysOf_erase (ts : Tasks) (id : TaskId) :
    keysOf (eraseTask ts id) = (keysOf ts).filter (fun k => k ≠ id) := by
  induction ts with
  | nil => simp [eraseTask, keysOf]
  | cons p ts ih =>
    obtain ⟨k, v⟩ := p
    by_cases h : k = id
    · simpa [eraseTask, keysOf, h] using ih
    · simpa [eraseTask, keysOf, h] using ih

theorem mem_sorted_ite_deleted (dels : List TaskId) (c d : TaskId) :
    d ∈ (if c ∈ dels then dels else dels ++ [c]).insertionSort (· ≤ ·) ↔
      d ∈ dels ∨ d = c := by
  rw [(List.perm_insertionSort _ _).mem_iff]
  by_cases h : c ∈ dels
  · simp only [if_pos h]
    constructor
    · exact Or.inl
    · rintro (hd | hd)
      · exact hd
      · exact hd ▸ h
  · simp [if_neg h]

theorem nodup_sorted_ite_deleted (dels : List TaskId) (c : TaskId)
    (hn : dels.Nodup) :
    ((if c ∈ dels then dels else dels ++ [c]).insertionSort (· ≤ ·)).Nodup := by
  rw [(List.perm_insertionSort _ _).nodup_iff]
  by_cases h : c ∈ dels
  · simpa [h] using hn
  · rw [if_neg h]
    exact nodup_append_one _ _ hn h

theorem invBody_deleteTask (s t : AppState) (hs : Inv s)
    (ht : deleteTaskBody s = some t) : Inv t := by
  cases hcur : s.currentTaskId with
  | none => simp [deleteTaskBody, hcur] at ht
  | some c =>
    obtain ⟨⟨hcw, hcr, hcs, hcc⟩, hq⟩ := inv_decomp_some s c hs hcur
    have hcsome := isSome_of_lanes s hs (mem_lanes_cur s c hcur)
    simp only [deleteTaskBody, hcur, Option.some.injEq] at ht
    subst ht
    have hq' : QOk (s.wokenQueue.filter (fun x => x ≠ c))
        (s.readyQueue.filter (fun x => x ≠ c))
        (s.snoozedIds.filter (fun x => x ≠ c))
        (s.completedIds.filter (fun x => x ≠ c)) :=
      hq.mono (filter_ne_subset _ _) (filter_ne_subset _ _)
        (filter_ne_subset _ _) (filter_ne_subset _ _)
        (hq.nw.filter _) (hq.nr.filter _) (hq.ns.filter _) (hq.nc.filter _)
    have hrefill := refill_ok _ _ _ _ hq'
    have hmem : ∀ j ∈ lanesL none (s.wokenQueue.filter (fun x => x ≠ c))
        (s.readyQueue.filter (fun x => x ≠ c))
        (s.snoozedIds.filter (fun x => x ≠ c))
        (s.completedIds.filter (fun x => x ≠ c)),
        j ∈ lanes s ∧ j ≠ c := by
      refine forall_lanesL_none _ _ _ _ _ ?_ ?_ ?_ ?_
      · intro x hx
        have h := mem_filter_ne.1 hx
        exact ⟨mem_lanes_w s h.1, h.2⟩
      · intro x hx
        have h := mem_filter_ne.1 hx
        exact ⟨mem_lanes_r s h.1, h.2⟩
      · intro x hx
        have h := mem_filter_ne.1 hx
        exact ⟨mem_lanes_sn s h.1, h.2⟩
      · intro x hx
        have h := mem_filter_ne.1 hx
        exact ⟨mem_lanes_co s h.1, h.2⟩
    refine ⟨hrefill.1, ?_, ?_, ?_, ?_⟩
    · intro j hj
      have hj2 := hmem j (hrefill.2 j hj)
      rw [lookupTask_erase_other _ _ _ hj2.2]
      exact isSome_of_lanes s hs hj2.1
    · intro d hd
      rw [mem_sorted_ite_deleted] at hd
      rcases hd with hd | hd
      · have hne : d ≠ c := by
          intro he
          have hnone := hs.deletedGone d hd
          rw [he] at hnone
          rw [hnone] at hcsome
          simp at hcsome
        rw [lookupTask_erase_other _ _ _ hne]
        exact hs.deletedGone d hd
      · rw [hd]
        exact lookupTask_erase_self _ _
    · exact nodup_sorted_ite_deleted _ _ hs.deletedNodup
    · rw [keysOf_erase]
      exact hs.keysNodup.filter _

theorem chf_lookup_ref (referenced : List TaskId) :
    ∀ (l : List TaskId) (ts : Tasks) (dels : List TaskId) (j : TaskId),
      j ∈ referenced →
      lookupTask (clearHistoryFold referenced ts dels l).1 j = lookupTask ts j := by
  intro l
  induction l with
  | nil =>
    intro ts dels j hj
    simp [clearHistoryFold]
  | cons id rest ih =>
    intro ts dels j hj
    by_cases hid : id ∈ referenced
    · rw [clearHistoryFold, if_pos hid]
      exact ih ts dels j hj
    · rw [clearHistoryFold, if_neg hid]
      rw [ih _ _ j hj]
      exact lookupTask_erase_other _ _ _ (fun he => hid (he ▸ hj))

theorem chf_none (referenced : List TaskId) :
    ∀ (l : List TaskId) (ts : Tasks) (dels : List TaskId) (d : TaskId),
      lookupTask ts d = none →
      lookupTask (clearHistoryFold referenced ts dels l).1 d = none := by
  intro l
  induction l with
  | nil =>
    intro ts dels d hd
    simpa [clearHistoryFold] using hd
  | cons id rest ih =>
    intro ts dels d hd
    by_cases hid : id ∈ referenced
    · rw [clearHistoryFold, if_pos hid]
      exact ih ts dels d hd
    · rw [clearHistoryFold, if_neg hid]
      refine ih _ _ d ?_
      by_cases he : d = id
      · rw [he]
        exact lookupTask_erase_self _ _
      · rw [lookupTask_erase_other _ _ _ he]
        exact hd

theorem chf_erased (referenced : List TaskId) :
    ∀ (l : List TaskId) (ts : Tasks) (dels : List TaskId) (d : TaskId),
      d ∈ l → d ∉ referenced →
      lookupTask (clearHistoryFold referenced ts dels l).1 d = none := by
  intro l
  induction l with
  | nil =>
    intro ts dels d hd
    simp at hd
  | cons id rest ih =>
    intro ts dels d hd href
    rcases List.mem_cons.1 hd with he | hmem
    · rw [clearHistoryFold, if_neg (he ▸ href)]
      refine chf_none referenced rest _ _ d ?_
      rw [he]
      exact lookupTask_erase_self _ _
    · by_cases hid : id ∈ referenced
      · rw [clearHistoryFold, if_pos hid]
        exact ih ts dels d hmem href
      · rw [clearHistoryFold, if_neg hid]
        exact ih _ _ d hmem href

theorem chf_mem_dels (referenced : List TaskId) :
    ∀ (l : List TaskId) (ts : Tasks) (dels : List TaskId) (d : TaskId),
      d ∈ (clearHistoryFold referenced ts dels l).2 ↔
        d ∈ dels ∨ (d ∈ l ∧ d ∉ referenced) := by
  intro l
  induction l with
  | nil =>
    intro ts dels d
    simp [clearHistoryFold]
  | cons id rest ih =>
    intro ts dels d
    by_cases hid : id ∈ referenced
    · rw [clearHistoryFold, if_pos hid, ih]
      constructor
      · rintro (h | ⟨h1, h2⟩)
        · exact Or.inl h
        · exact Or.inr ⟨List.mem_cons_of_mem _ h1, h2⟩
      · rintro (h | ⟨h1, h2⟩)
        · exact Or.inl h
        · rcases List.mem_cons.1 h1 with he | hm
          · exact absurd (he ▸ hid) h2
          · exact Or.inr ⟨hm, h2⟩
    · rw [clearHistoryFold, if_neg hid, ih]
      have hd' : d ∈ (if id ∈ dels then dels else dels ++ [id]) ↔
          d ∈ dels ∨ d = id := by
        by_cases h : id ∈ dels
        · simp only [if_pos h]
          constructor
          · exact Or.inl
          · rintro (hh | hh)
            · exact hh
            · exact hh ▸ h
        · simp [if_neg h]
      rw [hd']
      constructor
      · rintro ((h | h) | ⟨h1, h2⟩)
        · exact Or.inl h
        · exact Or.inr ⟨h ▸ List.mem_cons_self _ _, h ▸ hid⟩
        · exact Or.inr ⟨List.mem_cons_of_mem _ h1, h2⟩
      · rintro (h | ⟨h1, h2⟩)
        · exact Or.inl (Or.inl h)
        · rcases List.mem_cons.1 h1 with he | hm
          · exact Or.inl (Or.inr he)
          · exact Or.inr ⟨hm, h2⟩

theorem chf_dels_nodup (referenced : List TaskId) :
    ∀ (l : List TaskId) (ts : Tasks) (dels : List TaskId),
      dels.Nodup → (clearHistoryFold referenced ts dels l).2.Nodup := by
  intro l
  induction l with
  | nil =>
    intro ts dels h
    simpa [clearHistoryFold] using h
  | cons id rest ih =>
    intro ts dels h
    by_cases hid : id ∈ referenced
    · rw [clearHistoryFold, if_pos hid]
      exact ih ts dels h
    · rw [clearHistoryFold, if_neg hid]
      refine ih _ _ ?_
      by_cases hd : id ∈ dels
      · simpa [hd] using h
      · rw [if_neg hd]
        exact nodup_append_one _ _ h hd

theorem chf_keys_nodup (referenced : List TaskId) :
    ∀ (l : List TaskId) (ts : Tasks) (dels : List TaskId),
      (keysOf ts).Nodup → (keysOf (clearHistoryFold referenced ts dels l).1).Nodup := by
  intro l
  induction l with
  | nil =>
    intro ts dels h
    simpa [clearHistoryFold] using h
  | cons id rest ih =>
    intro ts dels h
    by_cases hid : id ∈ referenced
    · rw [clearHistoryFold, if_pos hid]
      exact ih ts dels h
    · rw [clearHistoryFold, if_neg hid]
      refine ih _ _ ?_
      rw [keysOf_erase]
      exact h.filter _

theorem invBody_clearHistory (s t : AppState) (hs : Inv s)
    (ht : clearHistoryBody s = some t) : Inv t := by
  by_cases hce : s.completedIds = []
  · simp [clearHistoryBody, hce] at ht
  · simp only [clearHistoryBody, hce, if_false, ite_false,
      Option.some.injEq] at ht
    subst ht
    have hrefmem : ∀ j, j ∈ ((match s.currentTaskId with
        | some cur => [cur]
        | none => []) ++ s.wokenQueue ++ s.readyQueue ++ s.snoozedIds) ↔
        (s.currentTaskId = some j ∨ j ∈ s.wokenQueue ∨ j ∈ s.readyQueue ∨
          j ∈ s.snoozedIds) := by
      intro j
      cases hcur : s.currentTaskId <;> simp [eq_comm]
    refine ⟨?_, ?_, ?_, ?_, ?_⟩
    · show (lanesL s.currentTaskId s.wokenQueue s.readyQueue s.snoozedIds
        ([] : List TaskId)).Nodup
      cases hcur : s.currentTaskId with
      | some c =>
        obtain ⟨⟨h1, h2, h3, h4⟩, hq⟩ := inv_decomp_some s c hs hcur
        rw [lanesL_some_nodup_iff]
        exact ⟨⟨h1, h2, h3, by simp⟩,
          hq.mono (fun _ h => h) (fun _ h => h) (fun _ h => h)
            (fun _ h => by simp at h) hq.nw hq.nr hq.ns List.nodup_nil⟩
      | none =>
        have hq := inv_decomp_none s hs hcur
        rw [lanesL_none_nodup_iff]
        exact hq.mono (fun _ h => h) (fun _ h => h) (fun _ h => h)
          (fun _ h => by simp at h) hq.nw hq.nr hq.ns List.nodup_nil
    · refine lanes_forall _ _ ?_ ?_ ?_ ?_ ?_
      · intro x hx
        rw [chf_lookup_ref _ _ _ _ x ((hrefmem x).2 (Or.inl hx))]
        exact isSome_of_lanes s hs (mem_lanes_cur s x hx)
      · intro x hx
        rw [chf_lookup_ref _ _ _ _ x ((hrefmem x).2 (Or.inr (Or.inl hx)))]
        exact isSome_of_lanes s hs (mem_lanes_w s hx)
      · intro x hx
        rw [chf_lookup_ref _ _ _ _ x ((hrefmem x).2 (Or.inr (Or.inr (Or.inl hx))))]
        exact isSome_of_lanes s hs (mem_lanes_r s hx)
      · intro x hx
        rw [chf_lookup_ref _ _ _ _ x ((hrefmem x).2 (Or.inr (Or.inr (Or.inr hx))))]
        exact isSome_of_lanes s hs (mem_lanes_sn s hx)
      · intro x hx
        cases hx
    · intro d hd
      rw [(List.perm_insertionSort _ _).mem_iff, chf_mem_dels] at hd
      rcases hd with hd | ⟨hd1, hd2⟩
      · exact chf_none _ _ _ _ d (hs.deletedGone d hd)
      · exact chf_erased _ _ _ _ d hd1 (fun h => hd2 h)
    · rw [(List.perm_insertionSort _ _).nodup_iff]
      exact chf_dels_nodup _ _ _ _ hs.deletedNodup
    · exact chf_keys_nodup _ _ _ _ hs.keysNodup

theorem buildEnqueued_mem :
    ∀ (l existing : List TaskId), ∀ x ∈ buildEnqueued existing l,
      x ∈ l ∧ x ∉ existing := by
  intro l
  induction l with
  | nil =>
    intro existing x hx
    simp [buildEnqueued] at hx
  | cons id rest ih =>
    intro existing x hx
    by_cases hid : id ∈ existing
    · rw [buildEnqueued, if_pos hid] at hx
      have := ih existing x hx
      exact ⟨List.mem_cons_of_mem _ this.1, this.2⟩
    · rw [buildEnqueued, if_neg hid] at hx
      rcases List.mem_cons.1 hx with h | h
      · exact ⟨h ▸ List.mem_cons_self _ _, h ▸ hid⟩
      · have := ih (id :: existing) x h
        exact ⟨List.mem_cons_of_mem _ this.1,
          fun hh => this.2 (List.mem_cons_of_mem _ hh)⟩

theorem buildEnqueued_nodup :
    ∀ (l existing : List TaskId), (buildEnqueued existing l).Nodup := by
  intro l
  induction l with
  | nil =>
    intro existing
    simp [buildEnqueued]
  | cons id rest ih =>
    intro existing
    by_cases hid : id ∈ existing
    · rw [buildEnqueued, if_pos hid]
      exact ih existing
    · rw [buildEnqueued, if_neg hid]
      refine List.nodup_cons.2 ⟨?_, ih (id :: existing)⟩
      intro hmem
      exact (buildEnqueued_mem rest (id :: existing) id hmem).2
        (List.mem_cons_self _ _)

theorem dueSplit_due_mem (ts : Tasks) (now : Int) :
    ∀ (l : List TaskId) (i : Nat), ∀ e ∈ (dueSplit ts now l i).1,
      e.1 ∈ l ∧ dueAt ts now e.1 = true := by
  intro l
  induction l with
  | nil =>
    intro i e he
    simp [dueSplit] at he
  | cons id rest ih =>
    intro i e he
    rw [dueSplit] at he
    cases hlu : lookupTask ts id with
    | some task =>
      cases hsu : task.snoozeUntil with
      | some u =>
        by_cases hle : u ≤ now
        · simp only [hlu, hsu, hle, if_true, ite_true] at he
          rcases List.mem_cons.1 he with h | h
          · refine ⟨h ▸ List.mem_cons_self _ _, ?_⟩
            rw [h]
            simp [dueAt, hlu, hsu, hle]
          · have := ih (i + 1) e h
            exact ⟨List.mem_cons_of_mem _ this.1, this.2⟩
        · simp only [hlu, hsu, hle, if_false, ite_false] at he
          have := ih (i + 1) e he
          exact ⟨List.mem_cons_of_mem _ this.1, this.2⟩
      | none =>
        simp only [hlu, hsu] at he
        have := ih (i + 1) e he
        exact ⟨List.mem_cons_of_mem _ this.1, this.2⟩
    | none =>
      simp only [hlu] at he
      have := ih (i + 1) e he
      exact ⟨List.mem_cons_of_mem _ this.1, this.2⟩

theorem dueSplit_remain_sublist (ts : Tasks) (now : Int) :
    ∀ (l : List TaskId) (i : Nat), (dueSplit ts now l i).2.Sublist l := by
  intro l
  induction l with
  | nil =>
    intro i
    simp [dueSplit]
  | cons id rest ih =>
    intro i
    rw [dueSplit]
    cases hlu : lookupTask ts id with
    | some task =>
      cases hsu : task.snoozeUntil with
      | some u =>
        by_cases hle : u ≤ now
        · simp only [hlu, hsu, hle, if_true, ite_true]
          exact (ih (i + 1)).cons _
        · simp only [hlu, hsu, hle, if_false, ite_false]
          exact (ih (i + 1)).cons₂ _
      | none =>
        simp only [hlu, hsu]
        exact (ih (i + 1)).cons₂ _
    | none =>
      simp only [hlu]
      exact (ih (i + 1)).cons₂ _

theorem dueSplit_remain_not_due (ts : Tasks) (now : Int) :
    ∀ (l : List TaskId) (i : Nat), ∀ x ∈ (dueSplit ts now l i).2,
      dueAt ts now x = false := by
  intro l
  induction l with
  | nil =>
    intro i x hx
    simp [dueSplit] at hx
  | cons id rest ih =>
    intro i x hx
    rw [dueSplit] at hx
    cases hlu : lookupTask ts id with
    | some task =>
      cases hsu : task.snoozeUntil with
      | some u =>
        by_cases hle : u ≤ now
        · simp only [hlu, hsu, hle, if_true, ite_true] at hx
          exact ih (i + 1) x hx
        · simp only [hlu, hsu, hle, if_false, ite_false] at hx
          rcases List.mem_cons.1 hx with h | h
          · rw [h]
            simp [dueAt, hlu, hsu, hle]
          · exact ih (i + 1) x h
      | none =>
        simp only [hlu, hsu] at hx
        rcases List.mem_cons.1 hx with h | h
        · rw [h]
          simp [dueAt, hlu, hsu]
        · exact ih (i + 1) x h
    | none =>
      simp only [hlu] at hx
      rcases List.mem_cons.1 hx with h | h
      · rw [h]
        simp [dueAt, hlu]
      · exact ih (i + 1) x h

theorem dueAt_isSome (ts : Tasks) (now : Int) (id : TaskId)
    (h : dueAt ts now id = true) : (lookupTask ts id).isSome = true := by
  unfold dueAt at h
  cases hlu : lookupTask ts id with
  | some task => simp
  | none =>
    rw [hlu] at h
    simp at h

theorem mem_tickDueIds (now : Int) (s : AppState) (x : TaskId)
    (h : x ∈ tickDueIds now s) :
    x ∈ s.snoozedIds ∧ dueAt s.tasks now x = true := by
  rw [tickDueIds] at h
  rcases List.mem_map.1 h with ⟨e, he, hex⟩
  rw [(List.perm_insertionSort dueLe _).mem_iff] at he
  have := dueSplit_due_mem s.tasks now s.snoozedIds 0 e he
  exact ⟨hex ▸ this.1, hex ▸ this.2⟩

theorem mem_tickExisting (s : AppState) (x : TaskId) :
    x ∈ tickExisting s ↔
      s.currentTaskId = some x ∨ x ∈ s.wokenQueue ∨ x ∈ s.readyQueue ∨
        x ∈ s.completedIds := by
  rw [tickExisting]
  cases hcur : s.currentTaskId <;> simp [eq_comm]

theorem sets_clearDueSnooze (base : Tasks) :
    ∀ (l : List TaskId) (acc : Tasks), SetsExisting base acc →
      SetsExisting base (clearDueSnooze base acc l) := by
  intro l
  induction l with
  | nil =>
    intro acc h
    simpa [clearDueSnooze] using h
  | cons id rest ih =>
    intro acc h
    rw [clearDueSnooze]
    cases hlu : lookupTask base id with
    | some task =>
      exact ih _ (SetsExisting.step _ _ _ (by rw [hlu]; simp) h)
    | none => exact ih _ h

theorem invBody_tick (now : Int) (s t : AppState) (hs : Inv s)
    (ht : (tickBody now s).2 = some t) : Inv t := by
  by_cases hse : s.snoozedIds = []
  · simp [tickBody, hse] at ht
  · by_cases hany : s.snoozedIds.any (fun id => dueAt s.tasks now id) = true
    · by_cases hsplit : (dueSplit s.tasks now s.snoozedIds 0).1 = []
      · simp [tickBody, hse, hany, hsplit] at ht
      · have henq_mem : ∀ x ∈ tickEnqueuedIds now s,
            x ∈ tickDueIds now s ∧ x ∉ tickExisting s :=
          fun x hx => buildEnqueued_mem _ _ x hx
        have hdue_isSome : ∀ x ∈ tickDueIds now s,
            (lookupTask s.tasks x).isSome = true :=
          fun x hx => dueAt_isSome _ _ _ (mem_tickDueIds now s x hx).2
        have hremain_sub : (dueSplit s.tasks now s.snoozedIds 0).2 ⊆
            s.snoozedIds :=
          (dueSplit_remain_sublist s.tasks now s.snoozedIds 0).subset
        have hremain_nodup : (dueSplit s.tasks now s.snoozedIds 0).2.Nodup :=
          (inv_qok s hs).ns.sublist (dueSplit_remain_sublist s.tasks now s.snoozedIds 0)
        have hWeq : (if (tickEnqueuedIds now s).length > 0 then
            s.wokenQueue ++ tickEnqueuedIds now s else s.wokenQueue) =
            s.wokenQueue ++ tickEnqueuedIds now s := by
          split
          · rfl
          · rename_i hlen
            have : tickEnqueuedIds now s = [] := by
              cases hh : tickEnqueuedIds now s with
              | nil => rfl
              | cons a l =>
                rw [hh] at hlen
                simp at hlen
            rw [this]
            simp
        have hsets : SetsExisting s.tasks
            (clearDueSnooze s.tasks s.tasks (tickDueIds now s)) :=
          sets_clearDueSnooze s.tasks _ s.tasks SetsExisting.refl
        have hq := inv_qok s hs
        have hq' : QOk (s.wokenQueue ++ tickEnqueuedIds now s) s.readyQueue
            (dueSplit s.tasks now s.snoozedIds 0).2 s.completedIds :=
          { nw := by
              rw [List.nodup_append]
              refine ⟨hq.nw, buildEnqueued_nodup _ _, ?_⟩
              intro x hx hx2
              exact (henq_mem x hx2).2 ((mem_tickExisting s x).2
                (Or.inr (Or.inl hx)))
            nr := hq.nr
            ns := hremain_nodup
            nc := hq.nc
            dwr := by
              rw [List.disjoint_append_left]
              refine ⟨hq.dwr, ?_⟩
              intro x hx hx2
              exact (henq_mem x hx).2 ((mem_tickExisting s x).2
                (Or.inr (Or.inr (Or.inl hx2))))
            dws := by
              rw [List.disjoint_append_left]
              refine ⟨fun x hx hx2 => hq.dws hx (hremain_sub hx2), ?_⟩
              intro x hx hx2
              have hdue := (mem_tickDueIds now s x (henq_mem x hx).1).2
              have hnot := dueSplit_remain_not_due s.tasks now s.snoozedIds 0 x hx2
              rw [hdue] at hnot
              cases hnot
            dwc := by
              rw [List.disjoint_append_left]
              refine ⟨hq.dwc, ?_⟩
              intro x hx hx2
              exact (henq_mem x hx).2 ((mem_tickExisting s x).2
                (Or.inr (Or.inr (Or.inr hx2))))
            drs := fun x hx hx2 => hq.drs hx (hremain_sub hx2)
            drc := hq.drc
            dsc := fun x hx hx2 => hq.dsc (hremain_sub hx) hx2 }
        cases hcur : s.currentTaskId with
        | some c =>
          obtain ⟨⟨hcw, hcr, hcs, hcc⟩, _⟩ := inv_decomp_some s c hs hcur
          simp only [tickBody, hse, hany, hsplit, hcur, not_true_eq_false,
            if_false, ite_false, if_true, ite_true, Bool.not_true,
            Option.some.injEq] at ht
          rw [hWeq] at ht
          subst ht
          refine inv_mk s _ hs hsets rfl ?_ ?_
          · show (lanesL (some c) (s.wokenQueue ++ tickEnqueuedIds now s)
              s.readyQueue (dueSplit s.tasks now s.snoozedIds 0).2
              s.completedIds).Nodup
            rw [lanesL_some_nodup_iff]
            refine ⟨⟨?_, hcr, fun h => hcs (hremain_sub h), hcc⟩, hq'⟩
            intro h
            rcases List.mem_append.1 h with h | h
            · exact hcw h
            · exact (henq_mem c h).2 ((mem_tickExisting s c).2 (Or.inl hcur))
          · refine lanes_forall _ _ ?_ ?_ ?_ ?_ ?_
            · intro x hx
              cases hx
              exact isSome_of_lanes s hs (mem_lanes_cur s c hcur)
            · intro x hx
              rcases List.mem_append.1 hx with h | h
              · exact isSome_of_lanes s hs (mem_lanes_w s h)
              · exact hdue_isSome x (henq_mem x h).1
            · exact fun x hx => isSome_of_lanes s hs (mem_lanes_r s hx)
            · exact fun x hx =>
                isSome_of_lanes s hs (mem_lanes_sn s (hremain_sub hx))
            · exact fun x hx => isSome_of_lanes s hs (mem_lanes_co s hx)
        | none =>
          simp only [tickBody, hse, hany, hsplit, hcur, not_true_eq_false,
            if_false, ite_false, if_true, ite_true, Bool.not_true,
            Option.some.injEq] at ht
          rw [hWeq] at ht
          subst ht
          have hrefill := refill_ok _ _ _ _ hq'
          refine inv_mk s _ hs hsets rfl hrefill.1 ?_
          intro j hj
          have hj2 := hrefill.2 j hj
          refine forall_lanesL_none _ _ _ _
            (fun x => (lookupTask s.tasks x).isSome = true) ?_ ?_ ?_ ?_ j hj2
          · intro x hx
            rcases List.mem_append.1 hx with h | h
            · exact isSome_of_lanes s hs (mem_lanes_w s h)
            · exact hdue_isSome x (henq_mem x h).1
          · exact fun x hx => isSome_of_lanes s hs (mem_lanes_r s hx)
          · exact fun x hx =>
              isSome_of_lanes s hs (mem_lanes_sn s (hremain_sub hx))
          · exact fun x hx => isSome_of_lanes s hs (mem_lanes_co s hx)
    · simp [tickBody, hse, hany] at ht

theorem uniqueFirstAux_mem :
    ∀ (l seen : List TaskId), ∀ x ∈ uniqueFirstAux seen l, x ∈ l ∧ x ∉ seen := by
  intro l
  induction l with
  | nil =>
    intro seen x hx
    simp [uniqueFirstAux] at hx
  | cons id rest ih =>
    intro seen x hx
    by_cases hid : id ∈ seen
    · rw [uniqueFirstAux, if_pos hid] at hx
      have := ih seen x hx
      exact ⟨List.mem_cons_of_mem _ this.1, this.2⟩
    · rw [uniqueFirstAux, if_neg hid] at hx
      rcases List.mem_cons.1 hx with h | h
      · exact ⟨h ▸ List.mem_cons_self _ _, h ▸ hid⟩
      · have := ih (id :: seen) x h
        exact ⟨List.mem_cons_of_mem _ this.1,
          fun hh => this.2 (List.mem_cons_of_mem _ hh)⟩

theorem uniqueFirstAux_nodup :
    ∀ (l seen : List TaskId), (uniqueFirstAux seen l).Nodup := by
  intro l
  induction l with
  | nil =>
    intro seen
    simp [uniqueFirstAux]
  | cons id rest ih =>
    intro seen
    by_cases hid : id ∈ seen
    · rw [uniqueFirstAux, if_pos hid]
      exact ih seen
    · rw [uniqueFirstAux, if_neg hid]
      refine List.nodup_cons.2 ⟨?_, ih (id :: seen)⟩
      intro hmem
      exact (uniqueFirstAux_mem rest (id :: seen) id hmem).2
        (List.mem_cons_self _ _)

theorem uniqueFirst_nodup (l : List TaskId) : (uniqueFirst l).Nodup :=
  uniqueFirstAux_nodup l []

theorem uniqueFirst_mem (l : List TaskId) (x : TaskId) :
    x ∈ uniqueFirst l → x ∈ l :=
  fun h => (uniqueFirstAux_mem l [] x h).1

theorem uniqueFirst_mem_of (l : List TaskId) :
    ∀ x ∈ l, x ∈ uniqueFirst l := by
  rw [uniqueFirst]
  suffices h : ∀ (l seen : List TaskId), ∀ x ∈ l, x ∈ seen ∨ x ∈ uniqueFirstAux seen l by
    intro x hx
    rcases h l [] x hx with hh | hh
    · simp at hh
    · exact hh
  intro l
  induction l with
  | nil =>
    intro seen x hx
    simp at hx
  | cons id rest ih =>
    intro seen x hx
    by_cases hid : id ∈ seen
    · rw [uniqueFirstAux, if_pos hid]
      rcases List.mem_cons.1 hx with h | h
      · exact Or.inl (h ▸ hid)
      · exact ih seen x h
    · rw [uniqueFirstAux, if_neg hid]
      rcases List.mem_cons.1 hx with h | h
      · exact Or.inr (h ▸ List.mem_cons_self _ _)
      · rcases ih (id :: seen) x h with hh | hh
        · rcases List.mem_cons.1 hh with h2 | h2
          · exact Or.inr (h2 ▸ List.mem_cons_self _ _)
          · exact Or.inl h2
        · exact Or.inr (List.mem_cons_of_mem _ hh)

theorem uniqueSortedIds_nodup (l : List TaskId) : (uniqueSortedIds l).Nodup := by
  rw [uniqueSortedIds, (List.perm_insertionSort _ _).nodup_iff]
  exact uniqueFirst_nodup l

theorem mem_uniqueSortedIds (l : List TaskId) (x : TaskId) :
    x ∈ uniqueSortedIds l ↔ x ∈ l := by
  rw [uniqueSortedIds, (List.perm_insertionSort _ _).mem_iff]
  exact ⟨uniqueFirst_mem l x, uniqueFirst_mem_of l x⟩

theorem lookup_none_of_keys_ne (ts : Tasks) (id : TaskId)
    (h : ∀ p ∈ ts, p.1 ≠ id) : lookupTask ts id = none := by
  induction ts with
  | nil => rfl
  | cons p rest ih =>
    rw [lookupTask]
    rw [if_neg (h p (List.mem_cons_self _ _))]
    exact ih fun q hq => h q (List.mem_cons_of_mem _ hq)

theorem lookup_none_of_not_mem_keys (ts : Tasks) (id : TaskId)
    (h : id ∉ keysOf ts) : lookupTask ts id = none := by
  refine lookup_none_of_keys_ne ts id ?_
  intro p hp he
  exact h (he ▸ List.mem_map_of_mem Prod.fst hp)

theorem keysOf_mergeTasks0_sublist (a b : AppState) :
    (keysOf (mergeTasks0 a b)).Sublist
      (uniqueFirst (keysOf a.tasks ++ keysOf b.tasks)) := by
  rw [mergeTasks0, keysOf]
  generalize uniqueFirst (keysOf a.tasks ++ keysOf b.tasks) = l
  induction l with
  | nil => simp
  | cons id rest ih =>
    rw [List.filterMap_cons]
    cases h : (if id ∈ mergeDeletedIds a b then none
        else (mergeTaskAt a b id).map (fun t => (id, t))) with
    | none => exact ih.cons _
    | some p =>
      have hp : p.1 = id := by
        by_cases hd : id ∈ mergeDeletedIds a b
        · rw [if_pos hd] at h
          cases h
        · rw [if_neg hd] at h
          cases hm : mergeTaskAt a b id with
          | none =>
            rw [hm] at h
            cases h
          | some tk =>
            rw [hm] at h
            simp at h
            rw [← h]
      rw [List.map_cons, hp]
      exact ih.cons₂ _

theorem keysOf_mergeTasks0_nodup (a b : AppState) :
    (keysOf (mergeTasks0 a b)).Nodup :=
  (uniqueFirst_nodup _).sublist (keysOf_mergeTasks0_sublist a b)

theorem lookup_mergeTasks0_deleted (a b : AppState) (id : TaskId)
    (h : id ∈ mergeDeletedIds a b) :
    lookupTask (mergeTasks0 a b) id = none := by
  refine lookup_none_of_keys_ne _ id ?_
  intro p hp he
  rw [mergeTasks0] at hp
  rcases List.mem_filterMap.1 hp with ⟨x, _, hfx⟩
  by_cases hd : x ∈ mergeDeletedIds a b
  · rw [if_pos hd] at hfx
    cases hfx
  · rw [if_neg hd] at hfx
    cases hm : mergeTaskAt a b x with
    | none =>
      rw [hm] at hfx
      cases hfx
    | some tk =>
      rw [hm] at hfx
      simp at hfx
      have hpx : p.1 = x := by
        rw [← hfx]
      have hxid : x = id := hpx.symm.trans he
      exact hd (hxid.symm ▸ h)

theorem allocSnoozeSeq_keys (completed : List TaskId) :
    ∀ (ts : Tasks) (m : Int),
      keysOf (allocSnoozeSeq completed ts m).1 = keysOf ts := by
  intro ts
  induction ts with
  | nil =>
    intro m
    simp [allocSnoozeSeq, keysOf]
  | cons p rest ih =>
    intro m
    obtain ⟨id, tk⟩ := p
    rw [allocSnoozeSeq]
    by_cases hc : id ∈ completed
    · rw [if_pos hc]
      simp only [keysOf, List.map_cons]
      rw [← keysOf, ← keysOf, ih m]
    · rw [if_neg hc]
      cases hsu : tk.snoozeUntil with
      | none =>
        simp only [keysOf, List.map_cons]
        rw [← keysOf, ← keysOf, ih m]
      | some u =>
        cases hsq : tk.snoozeSeq with
        | some sq =>
          simp only [keysOf, List.map_cons]
          rw [← keysOf, ← keysOf, ih m]
        | none =>
          simp only [keysOf, List.map_cons]
          rw [← keysOf, ← keysOf, ih (m + 1)]

theorem allocSnoozeSeq_entries_sublist (completed : List TaskId) :
    ∀ (ts : Tasks) (m : Int),
      ((allocSnoozeSeq completed ts m).2.1.map (·.1)).Sublist (keysOf ts) := by
  intro ts
  induction ts with
  | nil =>
    intro m
    simp [allocSnoozeSeq]
  | cons p rest ih =>
    intro m
    obtain ⟨id, tk⟩ := p
    rw [allocSnoozeSeq]
    by_cases hc : id ∈ completed
    · rw [if_pos hc]
      exact (ih m).cons _
    · rw [if_neg hc]
      cases hsu : tk.snoozeUntil with
      | none => exact (ih m).cons _
      | some u =>
        cases hsq : tk.snoozeSeq with
        | some sq => exact (ih m).cons₂ _
        | none => exact (ih (m + 1)).cons₂ _

theorem allocSnoozeSeq_entries_not_completed (completed : List TaskId) :
    ∀ (ts : Tasks) (m : Int), ∀ e ∈ (allocSnoozeSeq completed ts m).2.1,
      e.1 ∉ completed := by
  intro ts
  induction ts with
  | nil =>
    intro m e he
    simp [allocSnoozeSeq] at he
  | cons p rest ih =>
    intro m e he
    obtain ⟨id, tk⟩ := p
    rw [allocSnoozeSeq] at he
    by_cases hc : id ∈ completed
    · rw [if_pos hc] at he
      exact ih m e he
    · rw [if_neg hc] at he
      cases hsu : tk.snoozeUntil with
      | none =>
        rw [hsu] at he
        exact ih m e he
      | some u =>
        rw [hsu] at he
        cases hsq : tk.snoozeSeq with
        | some sq =>
          rw [hsq] at he
          rcases List.mem_cons.1 he with h | h
          · rw [h]
            exact hc
          · exact ih m e h
        | none =>
          rw [hsq] at he
          rcases List.mem_cons.1 he with h | h
          · rw [h]
            exact hc
          · exact ih (m + 1) e h

theorem completedEntries_keys_sublist (ts : Tasks) :
    ((completedEntriesOf ts).map (·.1)).Sublist (keysOf ts) := by
  rw [completedEntriesOf, keysOf]
  induction ts with
  | nil => simp
  | cons p rest ih =>
    rw [List.filterMap_cons]
    cases h : (if isCompleted p.2 then p.2.doneAt.map (fun d => (p.1, d))
        else none) with
    | none => exact ih.cons _
    | some e =>
      have he : e.1 = p.1 := by
        by_cases hc : isCompleted p.2
        · rw [if_pos hc] at h
          cases hd : p.2.doneAt with
          | none =>
            rw [hd] at h
            cases h
          | some d =>
            rw [hd] at h
            simp at h
            rw [← h]
        · rw [if_neg hc] at h
          cases h
      rw [List.map_cons, he]
      exact ih.cons₂ _

theorem completedIdsOf_keys (ts : Tasks) :
    ∀ x ∈ completedIdsOf ts, x ∈ keysOf ts := by
  intro x hx
  rw [completedIdsOf] at hx
  rcases List.mem_map.1 hx with ⟨e, he, hex⟩
  rw [(List.perm_insertionSort completedLe _).mem_iff] at he
  have := (completedEntries_keys_sublist ts).subset (List.mem_map_of_mem _ he)
  exact hex ▸ this

theorem completedIdsOf_nodup (ts : Tasks) (h : (keysOf ts).Nodup) :
    (completedIdsOf ts).Nodup := by
  rw [completedIdsOf]
  have hperm : List.Perm
      (((completedEntriesOf ts).insertionSort completedLe).map
        (fun e : TaskId × Int => e.1))
      ((completedEntriesOf ts).map (fun e : TaskId × Int => e.1)) :=
    (List.perm_insertionSort completedLe _).map _
  rw [hperm.nodup_iff]
  exact h.sublist (completedEntries_keys_sublist ts)

theorem queueWalk_spec (cur : Option TaskId) (active skipA : List TaskId) :
    ∀ (src seen : List TaskId),
      (queueWalk cur active skipA seen src).1.Nodup ∧
      (∀ x ∈ (queueWalk cur active skipA seen src).1,
        x ∈ active ∧ some x ≠ cur ∧ x ∉ skipA ∧ x ∉ seen ∧ x ∈ src) ∧
      (∀ x, x ∈ (queueWalk cur active skipA seen src).2 ↔
        x ∈ (queueWalk cur active skipA seen src).1 ∨ x ∈ seen) := by
  intro src
  induction src with
  | nil =>
    intro seen
    refine ⟨by simp [queueWalk], ?_, ?_⟩
    · intro x hx
      simp [queueWalk] at hx
    · intro x
      simp [queueWalk]
  | cons id rest ih =>
    intro seen
    by_cases hskip : some id = cur ∨ id ∉ active ∨ id ∈ skipA ∨ id ∈ seen
    · rw [queueWalk, if_pos hskip]
      obtain ⟨hn, hm, hs⟩ := ih seen
      refine ⟨hn, ?_, hs⟩
      intro x hx
      have := hm x hx
      exact ⟨this.1, this.2.1, this.2.2.1, this.2.2.2.1,
        List.mem_cons_of_mem _ this.2.2.2.2⟩
    · rw [queueWalk, if_neg hskip]
      push_neg at hskip
      obtain ⟨hc, ha, hsk, hse⟩ := hskip
      obtain ⟨hn, hm, hs⟩ := ih (id :: seen)
      refine ⟨?_, ?_, ?_⟩
      · refine List.nodup_cons.2 ⟨?_, hn⟩
        intro hmem
        exact (hm id hmem).2.2.2.1 (List.mem_cons_self _ _)
      · intro x hx
        rcases List.mem_cons.1 hx with h | h
        · exact ⟨h ▸ ha, h ▸ hc, h ▸ hsk, h ▸ hse, h ▸ List.mem_cons_self _ _⟩
        · have := hm x h
          exact ⟨this.1, this.2.1, this.2.2.1,
            fun hh => this.2.2.2.1 (List.mem_cons_of_mem _ hh),
            List.mem_cons_of_mem _ this.2.2.2.2⟩
      · intro x
        rw [hs x]
        constructor
        · rintro (h | h)
          · exact Or.inl (List.mem_cons_of_mem _ h)
          · rcases List.mem_cons.1 h with h2 | h2
            · exact Or.inl (h2 ▸ List.mem_cons_self _ _)
            · exact Or.inr h2
        · rintro (h | h)
          · rcases List.mem_cons.1 h with h2 | h2
            · exact Or.inr (h2 ▸ List.mem_cons_self _ _)
            · exact Or.inl h2
          · exact Or.inr (List.mem_cons_of_mem _ h)

theorem refillCurrent_eq_takeNext (w r : List TaskId) :
    refillCurrent none w r = ((takeNextTaskId w r).nextId,
      (takeNextTaskId w r).wokenQueue, (takeNextTaskId w r).readyQueue) := by
  match w, r with
  | [], [] => rfl
  | x :: xs, r => rfl
  | [], x :: xs => rfl

theorem forall_lanesL_gen (cur : Option TaskId) (W R SN CO : List TaskId)
    (P : TaskId → Prop)
    (hc : ∀ c, cur = some c → P c)
    (hw : ∀ j ∈ W, P j) (hr : ∀ j ∈ R, P j)
    (hsn : ∀ j ∈ SN, P j) (hco : ∀ j ∈ CO, P j) :
    ∀ j ∈ lanesL cur W R SN CO, P j := by
  intro j hj
  rw [mem_lanesL] at hj
  rcases hj with hj | hj | hj | hj | hj
  · exact hc j hj
  · exact hw j hj
  · exact hr j hj
  · exact hsn j hj
  · exact hco j hj

theorem mem_filter_notmem2 (l A B : List TaskId) (x : TaskId) :
    x ∈ l.filter (fun id => id ∉ A ∧ id ∉ B) ↔
      x ∈ l ∧ x ∉ A ∧ x ∉ B := by
  simp [List.mem_filter]

theorem mem_filter_curseen (l seen : List TaskId) (cur : Option TaskId)
    (x : TaskId) :
    x ∈ l.filter (fun id => some id ≠ cur ∧ id ∉ seen) ↔
      x ∈ l ∧ some x ≠ cur ∧ x ∉ seen := by
  simp [List.mem_filter]

theorem mem_sortIdsByCreatedAt (ts : Tasks) (ids : List TaskId) (x : TaskId) :
    x ∈ sortIdsByCreatedAt ts ids ↔ x ∈ ids := by
  rw [sortIdsByCreatedAt, (List.perm_insertionSort _ _).mem_iff]

theorem nodup_sortIdsByCreatedAt (ts : Tasks) (ids : List TaskId)
    (h : ids.Nodup) : (sortIdsByCreatedAt ts ids).Nodup := by
  rw [sortIdsByCreatedAt, (List.perm_insertionSort _ _).nodup_iff]
  exact h

/-- Lane well-formedness of the shared tail of both merge algorithms
(completed recomputation, snooze-sequence allocation, queue rebuild and
refill), stated over the intermediate values by their defining equations. -/
theorem pipeline_inv_parts
    (merged0 : Tasks) (cur0src : Option TaskId) (wsrc rsrc : List TaskId)
    (hkeysN : (keysOf merged0).Nodup)
    (completedIds : List TaskId) (hco : completedIds = completedIdsOf merged0)
    (alloc : Tasks × List (TaskId × Int × Int) × Int)
    (hal : alloc = allocSnoozeSeq completedIds merged0 (maxSnoozeSeqOf merged0))
    (snoozedIds : List TaskId)
    (hsn : snoozedIds = (alloc.2.1.insertionSort snoozeLe).map (·.1))
    (activeIds : List TaskId)
    (hac : activeIds = (keysOf alloc.1).filter
      (fun id => id ∉ completedIds ∧ id ∉ snoozedIds))
    (cur0 : Option TaskId)
    (hcur : cur0 = (match cur0src with
      | some c => if c ∈ activeIds then some c else none
      | none => none))
    (woken ready : List TaskId × List TaskId)
    (hw : woken = queueWalk cur0 activeIds [] [] wsrc)
    (hr : ready = queueWalk cur0 activeIds woken.1 woken.2 rsrc)
    (missingActive : List TaskId)
    (hma : missingActive = activeIds.filter
      (fun id => some id ≠ cur0 ∧ id ∉ ready.2))
    (readyQueue1 : List TaskId)
    (hrq : readyQueue1 = ready.1 ++ sortIdsByCreatedAt alloc.1 missingActive)
    (refilled : Option TaskId × List TaskId × List TaskId)
    (hrf : refilled = refillCurrent cur0 woken.1 readyQueue1) :
    (lanesL refilled.1 refilled.2.1 refilled.2.2 snoozedIds completedIds).Nodup ∧
    ∀ j ∈ lanesL refilled.1 refilled.2.1 refilled.2.2 snoozedIds completedIds,
      (lookupTask alloc.1 j).isSome = true := by
  have hkeysAlloc : keysOf alloc.1 = keysOf merged0 := by
    rw [hal]
    exact allocSnoozeSeq_keys _ _ _
  have hCoNodup : completedIds.Nodup := by
    rw [hco]
    exact completedIdsOf_nodup merged0 hkeysN
  have hCoKeys : ∀ x ∈ completedIds, x ∈ keysOf merged0 := by
    rw [hco]
    exact completedIdsOf_keys merged0
  have hSnKeysSub : (alloc.2.1.map (·.1)).Sublist (keysOf merged0) := by
    rw [hal]
    exact allocSnoozeSeq_entries_sublist _ _ _
  have hSnPerm : List.Perm
      ((alloc.2.1.insertionSort snoozeLe).map (fun e : TaskId × Int × Int => e.1))
      (alloc.2.1.map (fun e : TaskId × Int × Int => e.1)) :=
    (List.perm_insertionSort snoozeLe _).map _
  have hSnNodup : snoozedIds.Nodup := by
    rw [hsn]
    rw [hSnPerm.nodup_iff]
    exact hkeysN.sublist hSnKeysSub
  have hSnMem : ∀ x ∈ snoozedIds, x ∈ keysOf merged0 ∧ x ∉ completedIds := by
    rw [hsn]
    intro x hx
    rcases List.mem_map.1 hx with ⟨e, he, hex⟩
    rw [(List.perm_insertionSort snoozeLe _).mem_iff] at he
    constructor
    · exact hex ▸ hSnKeysSub.subset (List.mem_map_of_mem _ he)
    · have := allocSnoozeSeq_entries_not_completed completedIds merged0
        (maxSnoozeSeqOf merged0) e (hal ▸ he)
      exact hex ▸ this
  have hAcMem : ∀ x, x ∈ activeIds ↔
      x ∈ keysOf merged0 ∧ x ∉ completedIds ∧ x ∉ snoozedIds := by
    intro x
    rw [hac, mem_filter_notmem2, hkeysAlloc]
  have hAcNodup : activeIds.Nodup := by
    rw [hac]
    refine List.Nodup.filter _ ?_
    rw [hkeysAlloc]
    exact hkeysN
  have hCur0 : ∀ c, cur0 = some c → c ∈ activeIds := by
    intro c hc
    rw [hcur] at hc
    cases cur0src with
    | none => cases hc
    | some c0 =>
      dsimp only at hc
      by_cases hmem : c0 ∈ activeIds
      · rw [if_pos hmem] at hc
        cases hc
        exact hmem
      · rw [if_neg hmem] at hc
        cases hc
  obtain ⟨hwN, hwM, hwS⟩ := hw.symm ▸ queueWalk_spec cur0 activeIds [] wsrc []
  obtain ⟨hrN, hrM, hrS⟩ :=
    hr.symm ▸ queueWalk_spec cur0 activeIds woken.1 rsrc woken.2
  have hwSeen : ∀ x, x ∈ woken.2 ↔ x ∈ woken.1 := by
    intro x
    rw [hwS x]
    simp
  have hMiss : ∀ x ∈ missingActive,
      x ∈ activeIds ∧ some x ≠ cur0 ∧ x ∉ ready.1 ∧ x ∉ woken.1 := by
    intro x hx
    rw [hma, mem_filter_curseen] at hx
    obtain ⟨h1, h2, h3⟩ := hx
    have hnr1 : x ∉ ready.1 := fun hh => h3 ((hrS x).2 (Or.inl hh))
    have hnw1 : x ∉ woken.1 :=
      fun hh => h3 ((hrS x).2 (Or.inr ((hwSeen x).2 hh)))
    exact ⟨h1, h2, hnr1, hnw1⟩
  have hMissNodup : missingActive.Nodup := by
    rw [hma]
    exact hAcNodup.filter _
  have hRq1Mem : ∀ x ∈ readyQueue1,
      x ∈ activeIds ∧ some x ≠ cur0 ∧ x ∉ woken.1 := by
    intro x hx
    rw [hrq] at hx
    rcases List.mem_append.1 hx with h | h
    · have := hrM x h
      exact ⟨this.1, this.2.1, fun hh => this.2.2.1 hh⟩
    · rw [mem_sortIdsByCreatedAt] at h
      have := hMiss x h
      exact ⟨this.1, this.2.1, this.2.2.2⟩
  have hRq1Nodup : readyQueue1.Nodup := by
    rw [hrq, List.nodup_append]
    refine ⟨hrN, nodup_sortIdsByCreatedAt _ _ hMissNodup, ?_⟩
    intro x hx hx2
    rw [mem_sortIdsByCreatedAt] at hx2
    exact (hMiss x hx2).2.2.1 hx
  have hActNoCo : ∀ x ∈ activeIds, x ∉ completedIds :=
    fun x hx => ((hAcMem x).1 hx).2.1
  have hActNoSn : ∀ x ∈ activeIds, x ∉ snoozedIds :=
    fun x hx => ((hAcMem x).1 hx).2.2
  have hq0 : QOk woken.1 readyQueue1 snoozedIds completedIds :=
    { nw := hwN
      nr := hRq1Nodup
      ns := hSnNodup
      nc := hCoNodup
      dwr := fun x hx hx2 => (hRq1Mem x hx2).2.2 hx
      dws := fun x hx hx2 => hActNoSn x (hwM x hx).1 hx2
      dwc := fun x hx hx2 => hActNoCo x (hwM x hx).1 hx2
      drs := fun x hx hx2 => hActNoSn x (hRq1Mem x hx).1 hx2
      drc := fun x hx hx2 => hActNoCo x (hRq1Mem x hx).1 hx2
      dsc := fun x hx hx2 => (hSnMem x hx).2 hx2 }
  have hpre : (lanesL cur0 woken.1 readyQueue1 snoozedIds completedIds).Nodup := by
    cases hc0 : cur0 with
    | none => exact (lanesL_none_nodup_iff _ _ _ _).2 hq0
    | some c =>
      rw [lanesL_some_nodup_iff]
      have hcact := hCur0 c hc0
      refine ⟨⟨?_, ?_, hActNoSn c hcact, hActNoCo c hcact⟩, hq0⟩
      · intro hh
        exact (hwM c hh).2.1 hc0.symm
      · intro hh
        exact (hRq1Mem c hh).2.1 hc0.symm
  have hpremem : ∀ j ∈ lanesL cur0 woken.1 readyQueue1 snoozedIds completedIds,
      (lookupTask alloc.1 j).isSome = true := by
    have hkeys : ∀ x, x ∈ keysOf merged0 →
        (lookupTask alloc.1 x).isSome = true := by
      intro x hx
      rw [← mem_keysOf_iff, hkeysAlloc]
      exact hx
    refine forall_lanesL_gen _ _ _ _ _ _ ?_ ?_ ?_ ?_ ?_
    · intro c hc
      exact hkeys c ((hAcMem c).1 (hCur0 c hc)).1
    · exact fun x hx => hkeys x ((hAcMem x).1 (hwM x hx).1).1
    · exact fun x hx => hkeys x ((hAcMem x).1 (hRq1Mem x hx).1).1
    · exact fun x hx => hkeys x (hSnMem x hx).1
    · exact fun x hx => hkeys x (hCoKeys x hx)
  cases hc0 : cur0 with
  | some c =>
    have hrfeq : refilled = (some c, woken.1, readyQueue1) := by
      rw [hrf, hc0]
      rfl
    rw [hrfeq]
    rw [hc0] at hpre hpremem
    exact ⟨hpre, hpremem⟩
  | none =>
    have hrfeq : refilled = ((takeNextTaskId woken.1 readyQueue1).nextId,
        (takeNextTaskId woken.1 readyQueue1).wokenQueue,
        (takeNextTaskId woken.1 readyQueue1).readyQueue) := by
      rw [hrf, hc0]
      exact refillCurrent_eq_takeNext _ _
    rw [hrfeq]
    have hrefill := refill_ok woken.1 readyQueue1 snoozedIds completedIds hq0
    refine ⟨hrefill.1, ?_⟩
    intro j hj
    have hj2 := hrefill.2 j hj
    rw [hc0] at hpremem
    exact hpremem j hj2

theorem lookupTask_append (l1 l2 : Tasks) (id : TaskId) :
    lookupTask (l1 ++ l2) id =
      (match lookupTask l1 id with
       | some v => some v
       | none => lookupTask l2 id) := by
  induction l1 with
  | nil => simp [lookupTask]
  | cons p rest ih =>
    obtain ⟨k, v⟩ := p
    by_cases h : k = id
    · simp [lookupTask, h]
    · simp only [List.cons_append, lookupTask, if_neg h]
      exact ih

theorem keysOf_append (l1 l2 : Tasks) :
    keysOf (l1 ++ l2) = keysOf l1 ++ keysOf l2 := by
  simp [keysOf]

theorem addRemoteTasks_keys_nodup (deleted : List TaskId) :
    ∀ (l acc : Tasks), (keysOf acc).Nodup →
      (keysOf (addRemoteTasks deleted acc l)).Nodup := by
  intro l
  induction l with
  | nil =>
    intro acc h
    simpa [addRemoteTasks] using h
  | cons p rest ih =>
    intro acc h
    obtain ⟨id, t⟩ := p
    rw [addRemoteTasks]
    by_cases hd : id ∈ deleted
    · rw [if_pos hd]
      exact ih acc h
    · rw [if_neg hd]
      by_cases hsome : (lookupTask acc id).isSome = true
      · rw [if_pos hsome]
        exact ih acc h
      · rw [if_neg hsome]
        refine ih _ ?_
        rw [keysOf_append]
        refine nodup_append_one _ _ h ?_
        rw [mem_keysOf_iff]
        exact hsome

theorem addRemoteTasks_none (deleted : List TaskId) :
    ∀ (l acc : Tasks) (id : TaskId), id ∈ deleted →
      lookupTask acc id = none →
      lookupTask (addRemoteTasks deleted acc l) id = none := by
  intro l
  induction l with
  | nil =>
    intro acc id _ h
    simpa [addRemoteTasks] using h
  | cons p rest ih =>
    intro acc id hid h
    obtain ⟨k, t⟩ := p
    rw [addRemoteTasks]
    by_cases hd : k ∈ deleted
    · rw [if_pos hd]
      exact ih acc id hid h
    · rw [if_neg hd]
      by_cases hsome : (lookupTask acc k).isSome = true
      · rw [if_pos hsome]
        exact ih acc id hid h
      · rw [if_neg hsome]
        refine ih _ id hid ?_
        rw [lookupTask_append, h]
        have hne : k ≠ id := fun he => hd (he ▸ hid)
        simp [lookupTask, hne]

theorem applyRemoteFacts_keys (deleted : List TaskId) :
    ∀ (l acc : Tasks), keysOf (applyRemoteFacts deleted acc l) = keysOf acc := by
  intro l
  induction l with
  | nil =>
    intro acc
    simp [applyRemoteFacts]
  | cons p rest ih =>
    intro acc
    obtain ⟨id, rt⟩ := p
    rw [applyRemoteFacts]
    by_cases hd : id ∈ deleted
    · rw [if_pos hd]
      exact ih acc
    · rw [if_neg hd]
      cases hlu : lookupTask acc id with
      | none => exact ih acc
      | some lt =>
        dsimp only
        by_cases hsame : maxOptionalNumber lt.doneAt rt.doneAt = lt.doneAt ∧
            maxOptionalNumber lt.restoredAt rt.restoredAt = lt.restoredAt
        · rw [if_pos hsame]
          exact ih acc
        · rw [if_neg hsame]
          rw [ih _]
          rw [keysOf_set]
          rw [hlu]
          simp

theorem applyRemoteFacts_none (deleted : List TaskId) :
    ∀ (l acc : Tasks) (id : TaskId), lookupTask acc id = none →
      lookupTask (applyRemoteFacts deleted acc l) id = none := by
  intro l
  induction l with
  | nil =>
    intro acc id h
    simpa [applyRemoteFacts] using h
  | cons p rest ih =>
    intro acc id h
    obtain ⟨k, rt⟩ := p
    rw [applyRemoteFacts]
    by_cases hd : k ∈ deleted
    · rw [if_pos hd]
      exact ih acc id h
    · rw [if_neg hd]
      cases hlu : lookupTask acc k with
      | none => exact ih acc id h
      | some lt =>
        dsimp only
        by_cases hsame : maxOptionalNumber lt.doneAt rt.doneAt = lt.doneAt ∧
            maxOptionalNumber lt.restoredAt rt.restoredAt = lt.restoredAt
        · rw [if_pos hsame]
          exact ih acc id h
        · rw [if_neg hsame]
          refine ih _ id ?_
          have hne : id ≠ k := by
            intro he
            rw [he, hlu] at h
            cases h
          rw [lookupTask_set_other _ _ _ _ hne]
          exact h

theorem keysOf_filter_sublist (ts : Tasks) (p : TaskId × Task → Bool) :
    (keysOf (ts.filter p)).Sublist (keysOf ts) :=
  (List.filter_sublist ts).map Prod.fst

theorem reconcileTasks_keys_nodup (loc remote : AppState)
    (deleted : List TaskId) (h : (keysOf loc.tasks).Nodup) :
    (keysOf (reconcileTasks loc remote deleted)).Nodup := by
  rw [reconcileTasks, applyRemoteFacts_keys]
  refine addRemoteTasks_keys_nodup deleted remote.tasks _ ?_
  exact h.sublist (keysOf_filter_sublist _ _)

theorem reconcileTasks_deleted_none (loc remote : AppState)
    (deleted : List TaskId) (id : TaskId) (hid : id ∈ deleted) :
    lookupTask (reconcileTasks loc remote deleted) id = none := by
  rw [reconcileTasks]
  refine applyRemoteFacts_none deleted remote.tasks _ id ?_
  refine addRemoteTasks_none deleted remote.tasks _ id hid ?_
  refine lookup_none_of_keys_ne _ id ?_
  intro p hp he
  have := List.of_mem_filter hp
  simp at this
  exact this (he ▸ hid)

/-- The symmetric merge unconditionally establishes the lane invariant. -/
theorem inv_mergeAppState (a b : AppState) : Inv (mergeAppState a b) := by
  have hparts := pipeline_inv_parts (mergeTasks0 a b)
    (if newerIsA a b then a else b).currentTaskId
    (if newerIsA a b then a else b).wokenQueue
    (if newerIsA a b then a else b).readyQueue
    (keysOf_mergeTasks0_nodup a b)
    _ rfl _ rfl _ rfl _ rfl _ rfl _ _ rfl rfl _ rfl _ rfl _ rfl
  refine ⟨hparts.1, hparts.2, ?_, ?_, ?_⟩
  · intro id hid
    have hid' : id ∈ mergeDeletedIds a b := hid
    have h0 : lookupTask (mergeTasks0 a b) id = none :=
      lookup_mergeTasks0_deleted a b id hid'
    have hnk : id ∉ keysOf (mergeTasks0 a b) := by
      rw [mem_keysOf_iff, h0]
      simp
    show lookupTask (allocSnoozeSeq (completedIdsOf (mergeTasks0 a b))
      (mergeTasks0 a b) (maxSnoozeSeqOf (mergeTasks0 a b))).1 id = none
    refine lookup_none_of_not_mem_keys _ _ ?_
    rw [allocSnoozeSeq_keys]
    exact hnk
  · show (mergeDeletedIds a b).Nodup
    exact uniqueSortedIds_nodup _
  · show (keysOf (allocSnoozeSeq (completedIdsOf (mergeTasks0 a b))
      (mergeTasks0 a b) (maxSnoozeSeqOf (mergeTasks0 a b))).1).Nodup
    rw [allocSnoozeSeq_keys]
    exact keysOf_mergeTasks0_nodup a b

/-- The asymmetric merge establishes the lane invariant whenever the local
input's task map is well-formed. -/
theorem inv_mergeRemoteIntoLocalState (loc remote : AppState)
    (hloc : (keysOf loc.tasks).Nodup) :
    Inv (mergeRemoteIntoLocalState loc remote) := by
  have hkeysN := reconcileTasks_keys_nodup loc remote
    (uniqueSortedIds (loc.deletedIds ++ remote.deletedIds)) hloc
  have hparts := pipeline_inv_parts
    (reconcileTasks loc remote (uniqueSortedIds (loc.deletedIds ++ remote.deletedIds)))
    loc.currentTaskId loc.wokenQueue loc.readyQueue hkeysN
    _ rfl _ rfl _ rfl _ rfl _ rfl _ _ rfl rfl _ rfl _ rfl _ rfl
  refine ⟨hparts.1, hparts.2, ?_, ?_, ?_⟩
  · intro id hid
    have hid' : id ∈ uniqueSortedIds (loc.deletedIds ++ remote.deletedIds) := hid
    have h0 := reconcileTasks_deleted_none loc remote _ id hid'
    have hnk : id ∉ keysOf (reconcileTasks loc remote
        (uniqueSortedIds (loc.deletedIds ++ remote.deletedIds))) := by
      rw [mem_keysOf_iff, h0]
      simp
    show lookupTask (allocSnoozeSeq
      (completedIdsOf (reconcileTasks loc remote
        (uniqueSortedIds (loc.deletedIds ++ remote.deletedIds))))
      (reconcileTasks loc remote
        (uniqueSortedIds (loc.deletedIds ++ remote.deletedIds)))
      (maxSnoozeSeqOf (reconcileTasks loc remote
        (uniqueSortedIds (loc.deletedIds ++ remote.deletedIds))))).1 id = none
    refine lookup_none_of_not_mem_keys _ _ ?_
    rw [allocSnoozeSeq_keys]
    exact hnk
  · show (uniqueSortedIds (loc.deletedIds ++ remote.deletedIds)).Nodup
    exact uniqueSortedIds_nodup _
  · show (keysOf (allocSnoozeSeq
      (completedIdsOf (reconcileTasks loc remote
        (uniqueSortedIds (loc.deletedIds ++ remote.deletedIds))))
      (reconcileTasks loc remote
        (uniqueSortedIds (loc.deletedIds ++ remote.deletedIds)))
      (maxSnoozeSeqOf (reconcileTasks loc remote
        (uniqueSortedIds (loc.deletedIds ++ remote.deletedIds))))).1).Nodup
    rw [allocSnoozeSeq_keys]
    exact hkeysN

/-! ## Reachable states -/

/-- The initial empty app state (`initialAppState`). Its `updatedAt` is the
load-time `Date.now()` and its `clientId` the per-client id, so both are
parameters. -/
def initialAppState (now : Int) (cid : String) : AppState :=
  { rev := 0, updatedAt := now, clientId := cid, version := 2
    currentTaskId := none, wokenQueue := [], readyQueue := []
    snoozedIds := [], completedIds := [], deletedIds := []
    tasks := [], nextSnoozeSeq := 1 }

/-- States reachable from the initial empty state by the Queue Engine
operations listed in the store and by the two merge entry points. Each
store action runs its updater body through the `set` wrapper (`runOp` with
an arbitrary `WriteMeta`, since `getNextWriteMeta` can produce any values
depending on the clock). `addTask` uses a freshly generated
`crypto.randomUUID()`, modelled by the hypotheses that the id is neither a
key of `tasks` nor tombstoned. -/
inductive Reachable : AppState → Prop where
  | init (now : Int) (cid : String) : Reachable (initialAppState now cid)
  | addTask (m : WriteMeta) (id : TaskId) (title : String) (now : Int)
      (s : AppState) (hs : Reachable s)
      (hfresh : lookupTask s.tasks id = none) (hdel : id ∉ s.deletedIds) :
      Reachable (runOp m (addTaskBody id title now) s)
  | completeTask (m : WriteMeta) (now : Int) (s : AppState)
      (hs : Reachable s) : Reachable (runOp m (completeTaskBody now) s)
  | completeTaskById (m : WriteMeta) (id : TaskId) (now : Int) (s : AppState)
      (hs : Reachable s) : Reachable (runOp m (completeTaskByIdBody id now) s)
  | snoozeTask (m : WriteMeta) (dm : Option Int) (now : Int) (s : AppState)
      (hs : Reachable s) : Reachable (runOp m (snoozeTaskBody dm now) s)
  | tick (m : WriteMeta) (now : Int) (s : AppState) (hs : Reachable s) :
      Reachable (tickRun m now s).2
  | moveTaskToWake (m : WriteMeta) (id : TaskId) (s : AppState)
      (hs : Reachable s) : Reachable (runOp m (moveTaskToWakeBody id) s)
  | moveTaskToQueue (m : WriteMeta) (id : TaskId) (s : AppState)
      (hs : Reachable s) : Reachable (runOp m (moveTaskToQueueBody id) s)
  | moveTaskToQueueHead (m : WriteMeta) (id : TaskId) (s : AppState)
      (hs : Reachable s) : Reachable (runOp m (moveTaskToQueueHeadBody id) s)
  | focusTask (m : WriteMeta) (id : TaskId) (s : AppState)
      (hs : Reachable s) : Reachable (runOp m (focusTaskBody id) s)
  | focusTaskFromQueue (m : WriteMeta) (id : TaskId) (s : AppState)
      (hs : Reachable s) : Reachable (runOp m (focusTaskFromQueueBody id) s)
  | moveCurrentToQueueHead (m : WriteMeta) (s : AppState)
      (hs : Reachable s) : Reachable (runOp m moveCurrentToQueueHeadBody s)
  | swapCurrentWithWakeHead (m : WriteMeta) (s : AppState)
      (hs : Reachable s) : Reachable (runOp m swapCurrentWithWakeHeadBody s)
  | resumeSnoozedTask (m : WriteMeta) (id : TaskId) (s : AppState)
      (hs : Reachable s) : Reachable (runOp m (resumeSnoozedTaskBody id) s)
  | reorderWokenQueue (m : WriteMeta) (newOrder : List TaskId) (s : AppState)
      (hs : Reachable s) :
      Reachable (runOp m (reorderWokenQueueBody newOrder) s)
  | reorderReadyQueue (m : WriteMeta) (newOrder : List TaskId) (s : AppState)
      (hs : Reachable s) :
      Reachable (runOp m (reorderReadyQueueBody newOrder) s)
  | deleteTask (m : WriteMeta) (s : AppState) (hs : Reachable s) :
      Reachable (runOp m deleteTaskBody s)
  | restoreTask (m : WriteMeta) (id : TaskId) (now : Int) (s : AppState)
      (hs : Reachable s) : Reachable (runOp m (restoreTaskBody id now) s)
  | updateTaskTitle (m : WriteMeta) (id : TaskId) (title : String) (now : Int)
      (s : AppState) (hs : Reachable s) :
      Reachable (runOp m (updateTaskTitleBody id title now) s)
  | clearHistory (m : WriteMeta) (s : AppState) (hs : Reachable s) :
      Reachable (runOp m clearHistoryBody s)
  | merge (a b : AppState) (ha : Reachable a) (hb : Reachable b) :
      Reachable (mergeAppState a b)
  | reconcile (loc remote : AppState) (hl : Reachable loc)
      (hr : Reachable remote) :
      Reachable (mergeRemoteIntoLocalState loc remote)

theorem inv_initial (now : Int) (cid : String) :
    Inv (initialAppState now cid) := by
  refine ⟨?_, ?_, ?_, ?_, ?_⟩ <;>
    simp [initialAppState, lanes, lanesL, optLane, keysOf, lookupTask]

theorem inv_tickRun (m : WriteMeta) (now : Int) (s : AppState) (hs : Inv s) :
    Inv (tickRun m now s).2 := by
  unfold tickRun
  cases htb : tickBody now s with
  | mk n o =>
    cases o with
    | none => exact hs
    | some t =>
      refine inv_applyMeta m t (invBody_tick now s t hs ?_)
      rw [htb]

theorem invBody_updateTaskTitle (id : TaskId) (title : String) (now : Int)
    (s t : AppState) (hs : Inv s)
    (ht : updateTaskTitleBody id title now s = some t) : Inv t := by
  unfold updateTaskTitleBody at ht
  cases hlu : lookupTask s.tasks id with
  | none => simp [hlu] at ht
  | some task =>
    rw [hlu] at ht
    dsimp only at ht
    rw [Option.some.injEq] at ht
    subst ht
    refine inv_mk_setExisting s _ hs id _ ?_ rfl rfl ?_ ?_
    · rw [hlu]; rfl
    · exact hs.lanesNodup
    · intro j hj; exact hj

/-- Every reachable state satisfies the lane/tombstone invariant. -/
theorem inv_of_reachable (s : AppState) (h : Reachable s) : Inv s := by
  induction h with
  | init now cid => exact inv_initial now cid
  | addTask m id title now s hs hfresh hdel ih =>
    exact inv_runOp m _ s ih
      (fun t ht => invBody_addTask id title now s t ih hfresh hdel ht)
  | completeTask m now s hs ih =>
    exact inv_runOp m _ s ih (fun t ht => invBody_completeTask now s t ih ht)
  | completeTaskById m id now s hs ih =>
    exact inv_runOp m _ s ih
      (fun t ht => invBody_completeTaskById id now s t ih ht)
  | snoozeTask m dm now s hs ih =>
    exact inv_runOp m _ s ih (fun t ht => invBody_snoozeTask dm now s t ih ht)
  | tick m now s hs ih => exact inv_tickRun m now s ih
  | moveTaskToWake m id s hs ih =>
    exact inv_runOp m _ s ih (fun t ht => invBody_moveTaskToWake id s t ih ht)
  | moveTaskToQueue m id s hs ih =>
    exact inv_runOp m _ s ih (fun t ht => invBody_moveTaskToQueue id s t ih ht)
  | moveTaskToQueueHead m id s hs ih =>
    exact inv_runOp m _ s ih
      (fun t ht => invBody_moveTaskToQueueHead id s t ih ht)
  | focusTask m id s hs ih =>
    exact inv_runOp m _ s ih (fun t ht => invBody_focusTask id s t ih ht)
  | focusTaskFromQueue m id s hs ih =>
    exact inv_runOp m _ s ih
      (fun t ht => invBody_focusTaskFromQueue id s t ih ht)
  | moveCurrentToQueueHead m s hs ih =>
    exact inv_runOp m _ s ih
      (fun t ht => invBody_moveCurrentToQueueHead s t ih ht)
  | swapCurrentWithWakeHead m s hs ih =>
    exact inv_runOp m _ s ih
      (fun t ht => invBody_swapCurrentWithWakeHead s t ih ht)
  | resumeSnoozedTask m id s hs ih =>
    exact inv_runOp m _ s ih
      (fun t ht => invBody_resumeSnoozedTask id s t ih ht)
  | reorderWokenQueue m newOrder s hs ih =>
    exact inv_runOp m _ s ih
      (fun t ht => invBody_reorderWokenQueue newOrder s t ih ht)
  | reorderReadyQueue m newOrder s hs ih =>
    exact inv_runOp m _ s ih
      (fun t ht => invBody_reorderReadyQueue newOrder s t ih ht)
  | deleteTask m s hs ih =>
    exact inv_runOp m _ s ih (fun t ht => invBody_deleteTask s t ih ht)
  | restoreTask m id now s hs ih =>
    exact inv_runOp m _ s ih (fun t ht => invBody_restoreTask id now s t ih ht)
  | updateTaskTitle m id title now s hs ih =>
    exact inv_runOp m _ s ih
      (fun t ht => invBody_updateTaskTitle id title now s t ih ht)
  | clearHistory m s hs ih =>
    exact inv_runOp m _ s ih (fun t ht => invBody_clearHistory s t ih ht)
  | merge a b ha hb iha ihb => exact inv_mergeAppState a b
  | reconcile loc remote hl hr ihl ihr =>
    exact inv_mergeRemoteIntoLocalState loc remote ihl.keysNodup

/-! ## Claim C1 -/

/-- A small concrete reachable state: the initial state after one
`addTask` call. -/
def c1WitnessState : AppState :=
  runOp ⟨1, 10, "c"⟩ (addTaskBody "A" "Task A" 5) (initialAppState 0 "c")

/-- C1: for every state reachable from the initial empty state by any
sequence of Queue Engine operations and merges, the five lanes
`currentTaskId`, `wokenQueue`, `readyQueue`, `snoozedIds`, `completedIds`
are pairwise disjoint and each queue is free of duplicates, every id
occurring in any lane is a key of `tasks`, and every id in `deletedIds` is
absent from `tasks`. -/
theorem c1_reachable_lane_invariant (s : AppState) (h : Reachable s) :
    s.wokenQueue.Nodup ∧ s.readyQueue.Nodup ∧ s.snoozedIds.Nodup ∧
      s.completedIds.Nodup ∧
    (∀ c, s.currentTaskId = some c →
      c ∉ s.wokenQueue ∧ c ∉ s.readyQueue ∧ c ∉ s.snoozedIds ∧
        c ∉ s.completedIds) ∧
    s.wokenQueue.Disjoint s.readyQueue ∧
    s.wokenQueue.Disjoint s.snoozedIds ∧
    s.wokenQueue.Disjoint s.completedIds ∧
    s.readyQueue.Disjoint s.snoozedIds ∧
    s.readyQueue.Disjoint s.completedIds ∧
    s.snoozedIds.Disjoint s.completedIds ∧
    (∀ id ∈ lanes s, (lookupTask s.tasks id).isSome = true) ∧
    (∀ id ∈ s.deletedIds, lookupTask s.tasks id = none) := by
  have hi := inv_of_reachable s h
  have hq := inv_qok s hi
  refine ⟨hq.nw, hq.nr, hq.ns, hq.nc, ?_, hq.dwr, hq.dws, hq.dwc, hq.drs,
    hq.drc, hq.dsc, hi.lanesKeys, hi.deletedGone⟩
  intro c hc
  exact (inv_decomp_some s c hi hc).1

/-- Witness for C1 at the concrete reachable state `c1WitnessState`. -/
theorem c1_reachable_lane_invariant_witness :
    c1WitnessState.wokenQueue.Nodup ∧ c1WitnessState.readyQueue.Nodup ∧
      c1WitnessState.snoozedIds.Nodup ∧ c1WitnessState.completedIds.Nodup ∧
    (∀ c, c1WitnessState.currentTaskId = some c →
      c ∉ c1WitnessState.wokenQueue ∧ c ∉ c1WitnessState.readyQueue ∧
        c ∉ c1WitnessState.snoozedIds ∧ c ∉ c1WitnessState.completedIds) ∧
    c1WitnessState.wokenQueue.Disjoint c1WitnessState.readyQueue ∧
    c1WitnessState.wokenQueue.Disjoint c1WitnessState.snoozedIds ∧
    c1WitnessState.wokenQueue.Disjoint c1WitnessState.completedIds ∧
    c1WitnessState.readyQueue.Disjoint c1WitnessState.snoozedIds ∧
    c1WitnessState.readyQueue.Disjoint c1WitnessState.completedIds ∧
    c1WitnessState.snoozedIds.Disjoint c1WitnessState.completedIds ∧
    (∀ id ∈ lanes c1WitnessState,
      (lookupTask c1WitnessState.tasks id).isSome = true) ∧
    (∀ id ∈ c1WitnessState.deletedIds,
      lookupTask c1WitnessState.tasks id = none) :=
  c1_reachable_lane_invariant c1WitnessState
    (Reachable.addTask ⟨1, 10, "c"⟩ "A" "Task A" 5 (initialAppState 0 "c")
      (Reachable.init 0 "c") rfl (by simp [initialAppState]))

/-! ## Claim C7 -/

/-- C7: when no snoozed task is due (no id in `snoozedIds` has a numeric
`snoozeUntil` at or before `now`, including the case of an empty
`snoozedIds`), `tick()` returns a woken count of 0 together with the
identical state: no field of `AppState`, including `rev` and `updatedAt`,
changes. -/
theorem c7_tick_noop_when_nothing_due (m : WriteMeta) (now : Int)
    (s : AppState) (hnodue : ∀ id ∈ s.snoozedIds, dueAt s.tasks now id = false) :
    tickRun m now s = (0, s) := by
  by_cases hse : s.snoozedIds = []
  · rw [tickRun]
    rw [show tickBody now s = (0, none) from by rw [tickBody, if_pos hse]]
  · have hany : s.snoozedIds.any (fun id => dueAt s.tasks now id) = false := by
      rw [List.any_eq_false]
      intro id hid
      rw [hnodue id hid]
      exact Bool.false_ne_true
    rw [tickRun]
    rw [show tickBody now s = (0, none) from by
      rw [tickBody, if_neg hse, if_pos (by rw [hany]; exact Bool.false_ne_true)]]

/-- Witness for C7: a state with one not-yet-due snoozed task is returned
unchanged with a count of 0. -/
theorem c7_tick_noop_when_nothing_due_witness :
    (∀ id ∈ ({ rev := 3, updatedAt := 40, clientId := "c", version := 2
               currentTaskId := none, wokenQueue := [], readyQueue := []
               snoozedIds := ["A"], completedIds := [], deletedIds := []
               tasks := [("A",
                 { id := "A", title := "a", createdAt := 0, updatedAt := 0
                   doneAt := none, restoredAt := none, attachments := []
                   subtasks := [], notesMd := "", ui := ⟨false, false, false, false⟩
                   snoozeUntil := some 100, snoozeSeq := some 1 })]
               nextSnoozeSeq := 2 } : AppState).snoozedIds,
        dueAt ({ rev := 3, updatedAt := 40, clientId := "c", version := 2
                 currentTaskId := none, wokenQueue := [], readyQueue := []
                 snoozedIds := ["A"], completedIds := [], deletedIds := []
                 tasks := [("A",
                   { id := "A", title := "a", createdAt := 0, updatedAt := 0
                     doneAt := none, restoredAt := none, attachments := []
                     subtasks := [], notesMd := "", ui := ⟨false, false, false, false⟩
                     snoozeUntil := some 100, snoozeSeq := some 1 })]
                 nextSnoozeSeq := 2 } : AppState).tasks 40 id = false) ∧
    tickRun ⟨9, 99, "w"⟩ 40
      { rev := 3, updatedAt := 40, clientId := "c", version := 2
        currentTaskId := none, wokenQueue := [], readyQueue := []
        snoozedIds := ["A"], completedIds := [], deletedIds := []
        tasks := [("A",
          { id := "A", title := "a", createdAt := 0, updatedAt := 0
            doneAt := none, restoredAt := none, attachments := []
            subtasks := [], notesMd := "", ui := ⟨false, false, false, false⟩
            snoozeUntil := some 100, snoozeSeq := some 1 })]
        nextSnoozeSeq := 2 } =
      (0, { rev := 3, updatedAt := 40, clientId := "c", version := 2
            currentTaskId := none, wokenQueue := [], readyQueue := []
            snoozedIds := ["A"], completedIds := [], deletedIds := []
            tasks := [("A",
              { id := "A", title := "a", createdAt := 0, updatedAt := 0
                doneAt := none, restoredAt := none, attachments := []
                subtasks := [], notesMd := "", ui := ⟨false, false, false, false⟩
                snoozeUntil := some 100, snoozeSeq := some 1 })]
            nextSnoozeSeq := 2 }) :=
  ⟨by decide, c7_tick_noop_when_nothing_due ⟨9, 99, "w"⟩ 40 _ (by decide)⟩

/-! ## Claim C8 -/

theorem maxKnownRev_le_foldl (obs : List Int) (c : ClockState) :
    c.maxKnownRev ≤ (obs.foldl noteExternalRevision c).maxKnownRev := by
  induction obs generalizing c with
  | nil => exact le_refl _
  | cons r rs ih =>
    refine le_trans ?_ (ih (noteExternalRevision c r))
    exact le_max_left _ _

theorem mem_le_foldl_maxKnownRev (obs : List Int) :
    ∀ (c : ClockState), ∀ r ∈ obs,
      r ≤ (obs.foldl noteExternalRevision c).maxKnownRev := by
  induction obs with
  | nil => intro c r hr; cases hr
  | cons a as ih =>
    intro c r hr
    rcases List.mem_cons.mp hr with h | h
    · subst h
      refine le_trans ?_ (maxKnownRev_le_foldl as (noteExternalRevision c r))
      exact le_max_right _ _
    · exact ih (noteExternalRevision c a) r h

/-- C8: with the process clock built by reporting any sequence of external
revisions to `noteExternalRevision` starting from 0, `getNextWriteMeta`
returns `updatedAt'` equal to `now()` when `now() > currentUpdatedAt` and
to `currentUpdatedAt + 1` otherwise — strictly above `currentUpdatedAt`
either way — and `rev' = max(currentRev, maxKnownRev) + 1`, strictly above
`currentRev` and above every previously reported revision. -/
theorem c8_next_write_meta_monotone (cid : String)
    (currentRev currentUpdatedAt nowMs : Int) (obs : List Int) :
    ((getNextWriteMeta (obs.foldl noteExternalRevision ⟨0⟩) cid
        currentRev currentUpdatedAt nowMs).1.updatedAt =
      if currentUpdatedAt < nowMs then nowMs else currentUpdatedAt + 1) ∧
    currentUpdatedAt <
      (getNextWriteMeta (obs.foldl noteExternalRevision ⟨0⟩) cid
        currentRev currentUpdatedAt nowMs).1.updatedAt ∧
    (getNextWriteMeta (obs.foldl noteExternalRevision ⟨0⟩) cid
        currentRev currentUpdatedAt nowMs).1.rev =
      max currentRev (obs.foldl noteExternalRevision ⟨0⟩).maxKnownRev + 1 ∧
    currentRev <
      (getNextWriteMeta (obs.foldl noteExternalRevision ⟨0⟩) cid
        currentRev currentUpdatedAt nowMs).1.rev ∧
    ∀ r ∈ obs,
      r < (getNextWriteMeta (obs.foldl noteExternalRevision ⟨0⟩) cid
        currentRev currentUpdatedAt nowMs).1.rev := by
  refine ⟨?_, ?_, rfl, ?_, ?_⟩
  · show nextUpdatedAt currentUpdatedAt nowMs =
      if currentUpdatedAt < nowMs then nowMs else currentUpdatedAt + 1
    rw [nextUpdatedAt]
    by_cases h : nowMs ≤ currentUpdatedAt
    · rw [if_pos h, if_neg (not_lt.mpr h)]
    · rw [if_neg h, if_pos (lt_of_not_le h)]
  · show currentUpdatedAt < nextUpdatedAt currentUpdatedAt nowMs
    rw [nextUpdatedAt]
    by_cases h : nowMs ≤ currentUpdatedAt
    · rw [if_pos h]; omega
    · rw [if_neg h]; omega
  · show currentRev <
      max currentRev (obs.foldl noteExternalRevision ⟨0⟩).maxKnownRev + 1
    have := le_max_left currentRev
      (obs.foldl noteExternalRevision ⟨0⟩).maxKnownRev
    omega
  · intro r hr
    have h1 := mem_le_foldl_maxKnownRev obs ⟨0⟩ r hr
    have h2 := le_max_right currentRev
      (obs.foldl noteExternalRevision ⟨0⟩).maxKnownRev
    show r <
      max currentRev (obs.foldl noteExternalRevision ⟨0⟩).maxKnownRev + 1
    omega

/-- Witness for C8 at a stalled clock (`nowMs = 7 ≤ currentUpdatedAt = 10`)
with observed external revisions 5 and 2. -/
theorem c8_next_write_meta_monotone_witness :
    ((getNextWriteMeta ([5, 2].foldl noteExternalRevision ⟨0⟩) "c"
        3 10 7).1.updatedAt = if (10 : Int) < 7 then 7 else 10 + 1) ∧
    (10 : Int) <
      (getNextWriteMeta ([5, 2].foldl noteExternalRevision ⟨0⟩) "c"
        3 10 7).1.updatedAt ∧
    (getNextWriteMeta ([5, 2].foldl noteExternalRevision ⟨0⟩) "c"
        3 10 7).1.rev =
      max 3 (([5, 2] : List Int).foldl noteExternalRevision ⟨0⟩).maxKnownRev + 1 ∧
    (3 : Int) <
      (getNextWriteMeta ([5, 2].foldl noteExternalRevision ⟨0⟩) "c"
        3 10 7).1.rev ∧
    ∀ r ∈ ([5, 2] : List Int),
      r < (getNextWriteMeta ([5, 2].foldl noteExternalRevision ⟨0⟩) "c"
        3 10 7).1.rev :=
  c8_next_write_meta_monotone "c" 3 10 7 [5, 2]

/-! ## Claim C9 -/

/-- C9: on any reachable state, each id-taking Queue Engine operation given
a nonexistent or already-tombstoned task id leaves the state untouched:
its updater body returns the identical state reference (modelled as
`none`), so the `set` wrapper stamps nothing and the store is unchanged. -/
theorem c9_missing_or_tombstoned_id_noop (s : AppState) (hs : Reachable s)
    (id : TaskId) (title : String) (now : Int)
    (hid : lookupTask s.tasks id = none ∨ id ∈ s.deletedIds) :
    completeTaskByIdBody id now s = none ∧
    moveTaskToWakeBody id s = none ∧
    moveTaskToQueueBody id s = none ∧
    moveTaskToQueueHeadBody id s = none ∧
    focusTaskBody id s = none ∧
    focusTaskFromQueueBody id s = none ∧
    resumeSnoozedTaskBody id s = none ∧
    restoreTaskBody id now s = none ∧
    updateTaskTitleBody id title now s = none ∧
    ∀ m : WriteMeta,
      runOp m (completeTaskByIdBody id now) s = s ∧
      runOp m (moveTaskToWakeBody id) s = s ∧
      runOp m (moveTaskToQueueBody id) s = s ∧
      runOp m (moveTaskToQueueHeadBody id) s = s ∧
      runOp m (focusTaskBody id) s = s ∧
      runOp m (focusTaskFromQueueBody id) s = s ∧
      runOp m (resumeSnoozedTaskBody id) s = s ∧
      runOp m (restoreTaskBody id now) s = s ∧
      runOp m (updateTaskTitleBody id title now) s = s := by
  have hi := inv_of_reachable s hs
  have hlu : lookupTask s.tasks id = none := by
    rcases hid with h | h
    · exact h
    · exact hi.deletedGone id h
  have hnc : id ∉ s.completedIds := by
    intro hmem
    have hisome := isSome_of_lanes s hi (mem_lanes_co s hmem)
    rw [hlu] at hisome
    exact Bool.false_ne_true hisome
  have hns : id ∉ s.snoozedIds := by
    intro hmem
    have hisome := isSome_of_lanes s hi (mem_lanes_sn s hmem)
    rw [hlu] at hisome
    exact Bool.false_ne_true hisome
  have h1 : completeTaskByIdBody id now s = none := by
    simp [completeTaskByIdBody, hlu]
  have h2 : moveTaskToWakeBody id s = none := by
    simp [moveTaskToWakeBody, hlu]
  have h3 : moveTaskToQueueBody id s = none := by
    simp [moveTaskToQueueBody, hlu]
  have h4 : moveTaskToQueueHeadBody id s = none := by
    simp [moveTaskToQueueHeadBody, hlu]
  have h5 : focusTaskBody id s = none := by
    simp [focusTaskBody, hlu]
  have h6 : focusTaskFromQueueBody id s = none := by
    simp [focusTaskFromQueueBody, hlu]
  have h7 : resumeSnoozedTaskBody id s = none := by
    simp [resumeSnoozedTaskBody, hns]
  have h8 : restoreTaskBody id now s = none := by
    simp [restoreTaskBody, hnc]
  have h9 : updateTaskTitleBody id title now s = none := by
    simp [updateTaskTitleBody, hlu]
  refine ⟨h1, h2, h3, h4, h5, h6, h7, h8, h9, ?_⟩
  intro m
  exact ⟨by simp [runOp, h1], by simp [runOp, h2], by simp [runOp, h3],
    by simp [runOp, h4], by simp [runOp, h5], by simp [runOp, h6],
    by simp [runOp, h7], by simp [runOp, h8], by simp [runOp, h9]⟩

/-- Witness for C9: the id "Z" does not exist in the reachable initial
state, and every listed operation is a no-op on it. -/
theorem c9_missing_or_tombstoned_id_noop_witness :
    (lookupTask (initialAppState 0 "c").tasks "Z" = none ∨
      "Z" ∈ (initialAppState 0 "c").deletedIds) ∧
    (completeTaskByIdBody "Z" 0 (initialAppState 0 "c") = none ∧
     moveTaskToWakeBody "Z" (initialAppState 0 "c") = none ∧
     moveTaskToQueueBody "Z" (initialAppState 0 "c") = none ∧
     moveTaskToQueueHeadBody "Z" (initialAppState 0 "c") = none ∧
     focusTaskBody "Z" (initialAppState 0 "c") = none ∧
     focusTaskFromQueueBody "Z" (initialAppState 0 "c") = none ∧
     resumeSnoozedTaskBody "Z" (initialAppState 0 "c") = none ∧
     restoreTaskBody "Z" 0 (initialAppState 0 "c") = none ∧
     updateTaskTitleBody "Z" "t" 0 (initialAppState 0 "c") = none ∧
     ∀ m : WriteMeta,
       runOp m (completeTaskByIdBody "Z" 0) (initialAppState 0 "c") =
         initialAppState 0 "c" ∧
       runOp m (moveTaskToWakeBody "Z") (initialAppState 0 "c") =
         initialAppState 0 "c" ∧
       runOp m (moveTaskToQueueBody "Z") (initialAppState 0 "c") =
         initialAppState 0 "c" ∧
       runOp m (moveTaskToQueueHeadBody "Z") (initialAppState 0 "c") =
         initialAppState 0 "c" ∧
       runOp m (focusTaskBody "Z") (initialAppState 0 "c") =
         initialAppState 0 "c" ∧
       runOp m (focusTaskFromQueueBody "Z") (initialAppState 0 "c") =
         initialAppState 0 "c" ∧
       runOp m (resumeSnoozedTaskBody "Z") (initialAppState 0 "c") =
         initialAppState 0 "c" ∧
       runOp m (restoreTaskBody "Z" 0) (initialAppState 0 "c") =
         initialAppState 0 "c" ∧
       runOp m (updateTaskTitleBody "Z" "t" 0) (initialAppState 0 "c") =
         initialAppState 0 "c") :=
  ⟨Or.inl rfl,
    c9_missing_or_tombstoned_id_noop (initialAppState 0 "c")
      (Reachable.init 0 "c") "Z" "t" 0 (Or.inl rfl)⟩

/-! ## Claim C10 -/

theorem lookup_clearDueSnooze_not_mem (orig : Tasks) :
    ∀ (l : List TaskId) (acc : Tasks) (id : TaskId), id ∉ l →
      lookupTask (clearDueSnooze orig acc l) id = lookupTask acc id := by
  intro l
  induction l with
  | nil => intro acc id _; rfl
  | cons a rest ih =>
    intro acc id hid
    have hida : id ≠ a := fun h => hid (h ▸ List.mem_cons_self a rest)
    have hidr : id ∉ rest := fun h => hid (List.mem_cons_of_mem a h)
    rw [clearDueSnooze]
    cases hlu : lookupTask orig a with
    | none => exact ih acc id hidr
    | some t =>
      rw [ih _ id hidr]
      exact lookupTask_set_other acc a id _ hida

theorem lookup_clearDueSnooze_mem (orig : Tasks) :
    ∀ (l : List TaskId) (acc : Tasks) (id : TaskId) (t : Task),
      lookupTask orig id = some t → id ∈ l →
      lookupTask (clearDueSnooze orig acc l) id =
        some { t with snoozeUntil := none, snoozeSeq := none } := by
  intro l
  induction l with
  | nil => intro acc id t _ hid; cases hid
  | cons a rest ih =>
    intro acc id t hlu hid
    by_cases hida : id = a
    · subst hida
      rw [clearDueSnooze, hlu]
      by_cases hidr : id ∈ rest
      · exact ih _ id t hlu hidr
      · rw [lookup_clearDueSnooze_not_mem orig rest _ id hidr]
        exact lookupTask_set_self acc id _
    · have hidr : id ∈ rest := by
        rcases List.mem_cons.mp hid with h | h
        · exact absurd h hida
        · exact h
      rw [clearDueSnooze]
      cases hlu2 : lookupTask orig a with
      | none => exact ih acc id t hlu hidr
      | some u => exact ih _ id t hlu hidr

/-- C10: `tick()` never appends a due snoozed id to `wokenQueue` when that
id is already `currentTaskId` or a member of `wokenQueue`, `readyQueue` or
`completedIds`: such an id is not among the enqueued ids, is removed from
`snoozedIds`, only has its `snoozeUntil`/`snoozeSeq` cleared, and the
returned woken count is the number of enqueued ids, which excludes it. -/
theorem c10_tick_skips_already_placed_ids (now : Int) (s t : AppState)
    (id : TaskId) (task : Task)
    (hsome : (tickBody now s).2 = some t)
    (hdue : id ∈ tickDueIds now s)
    (hlu : lookupTask s.tasks id = some task)
    (hplaced : s.currentTaskId = some id ∨ id ∈ s.wokenQueue ∨
      id ∈ s.readyQueue ∨ id ∈ s.completedIds) :
    id ∉ tickEnqueuedIds now s ∧
    t.snoozedIds = (dueSplit s.tasks now s.snoozedIds 0).2 ∧
    id ∉ t.snoozedIds ∧
    lookupTask t.tasks id =
      some { task with snoozeUntil := none, snoozeSeq := none } ∧
    (tickBody now s).1 = Int.ofNat (tickEnqueuedIds now s).length := by
  have hex : id ∈ tickExisting s := (mem_tickExisting s id).mpr hplaced
  have hnenq : id ∉ tickEnqueuedIds now s := by
    intro hmem
    exact (buildEnqueued_mem (tickDueIds now s) (tickExisting s) id hmem).2 hex
  have hdueat : dueAt s.tasks now id = true := (mem_tickDueIds now s id hdue).2
  have hsnz : t.snoozedIds = (dueSplit s.tasks now s.snoozedIds 0).2 ∧
      t.tasks = clearDueSnooze s.tasks s.tasks (tickDueIds now s) ∧
      (tickBody now s).1 = Int.ofNat (tickEnqueuedIds now s).length := by
    by_cases hse : s.snoozedIds = []
    · simp [tickBody, hse] at hsome
    · by_cases hany : s.snoozedIds.any (fun i => dueAt s.tasks now i) = true
      · by_cases hsp : (dueSplit s.tasks now s.snoozedIds 0).1 = []
        · simp [tickBody, hse, hany, hsp] at hsome
        · cases hcur : s.currentTaskId with
          | some cur =>
            simp only [tickBody, hse, hany, hsp, hcur, not_true_eq_false,
              if_false, ite_false, if_true, ite_true, Bool.not_true,
              Option.some.injEq, reduceCtorEq] at hsome
            subst hsome
            refine ⟨rfl, rfl, ?_⟩
            simp only [tickBody, hse, hany, hsp, hcur, not_true_eq_false,
              if_false, ite_false, if_true, ite_true, Bool.not_true,
              reduceCtorEq]
          | none =>
            simp only [tickBody, hse, hany, hsp, hcur, not_true_eq_false,
              if_false, ite_false, if_true, ite_true, Bool.not_true,
              Option.some.injEq, reduceCtorEq] at hsome
            subst hsome
            refine ⟨rfl, rfl, ?_⟩
            simp only [tickBody, hse, hany, hsp, hcur, not_true_eq_false,
              if_false, ite_false, if_true, ite_true, Bool.not_true,
              reduceCtorEq]
      · rw [Bool.not_eq_true] at hany
        simp [tickBody, hse, hany] at hsome
  refine ⟨hnenq, hsnz.1, ?_, ?_, hsnz.2.2⟩
  · rw [hsnz.1]
    intro hmem
    have := dueSplit_remain_not_due s.tasks now s.snoozedIds 0 id hmem
    rw [hdueat] at this
    exact Bool.noConfusion this
  · rw [hsnz.2.1]
    exact lookup_clearDueSnooze_mem s.tasks (tickDueIds now s) s.tasks id task
      hlu hdue

/-- Witness for C10: a state whose only snoozed id is due but already in
`completedIds` — `tick` fires, clears its snooze fields and removes it
from `snoozedIds`, yet enqueues nothing and reports a count of 0. -/
theorem c10_tick_skips_already_placed_ids_witness :
    ((tickBody 10
        { rev := 0, updatedAt := 0, clientId := "c", version := 2
          currentTaskId := none, wokenQueue := [], readyQueue := []
          snoozedIds := ["A"], completedIds := ["A"], deletedIds := []
          tasks := [("A",
            { id := "A", title := "a", createdAt := 0, updatedAt := 0
              doneAt := none, restoredAt := none, attachments := []
              subtasks := [], notesMd := ""
              ui := ⟨false, false, false, false⟩
              snoozeUntil := some 5, snoozeSeq := some 1 })]
          nextSnoozeSeq := 2 }).2 =
      some { rev := 0, updatedAt := 0, clientId := "c", version := 2
             currentTaskId := none, wokenQueue := [], readyQueue := []
             snoozedIds := [], completedIds := ["A"], deletedIds := []
             tasks := [("A",
               { id := "A", title := "a", createdAt := 0, updatedAt := 0
                 doneAt := none, restoredAt := none, attachments := []
                 subtasks := [], notesMd := ""
                 ui := ⟨false, false, false, false⟩
                 snoozeUntil := none, snoozeSeq := none })]
             nextSnoozeSeq := 2 }) ∧
    "A" ∉ tickEnqueuedIds 10
        { rev := 0, updatedAt := 0, clientId := "c", version := 2
          currentTaskId := none, wokenQueue := [], readyQueue := []
          snoozedIds := ["A"], completedIds := ["A"], deletedIds := []
          tasks := [("A",
            { id := "A", title := "a", createdAt := 0, updatedAt := 0
              doneAt := none, restoredAt := none, attachments := []
              subtasks := [], notesMd := ""
              ui := ⟨false, false, false, false⟩
              snoozeUntil := some 5, snoozeSeq := some 1 })]
          nextSnoozeSeq := 2 } ∧
    (tickBody 10
        { rev := 0, updatedAt := 0, clientId := "c", version := 2
          currentTaskId := none, wokenQueue := [], readyQueue := []
          snoozedIds := ["A"], completedIds := ["A"], deletedIds := []
          tasks := [("A",
            { id := "A", title := "a", createdAt := 0, updatedAt := 0
              doneAt := none, restoredAt := none, attachments := []
              subtasks := [], notesMd := ""
              ui := ⟨false, false, false, false⟩
              snoozeUntil := some 5, snoozeSeq := some 1 })]
          nextSnoozeSeq := 2 }).1 = 0 := by
  have h := c10_tick_skips_already_placed_ids 10
    { rev := 0, updatedAt := 0, clientId := "c", version := 2
      currentTaskId := none, wokenQueue := [], readyQueue := []
      snoozedIds := ["A"], completedIds := ["A"], deletedIds := []
      tasks := [("A",
        { id := "A", title := "a", createdAt := 0, updatedAt := 0
          doneAt := none, restoredAt := none, attachments := []
          subtasks := [], notesMd := ""
          ui := ⟨false, false, false, false⟩
          snoozeUntil := some 5, snoozeSeq := some 1 })]
      nextSnoozeSeq := 2 }
    { rev := 0, updatedAt := 0, clientId := "c", version := 2
      currentTaskId := none, wokenQueue := [], readyQueue := []
      snoozedIds := [], completedIds := ["A"], deletedIds := []
      tasks := [("A",
        { id := "A", title := "a", createdAt := 0, updatedAt := 0
          doneAt := none, restoredAt := none, attachments := []
          subtasks := [], notesMd := ""
          ui := ⟨false, false, false, false⟩
          snoozeUntil := none, snoozeSeq := none })]
      nextSnoozeSeq := 2 }
    "A"
    { id := "A", title := "a", createdAt := 0, updatedAt := 0
      doneAt := none, restoredAt := none, attachments := []
      subtasks := [], notesMd := ""
      ui := ⟨false, false, false, false⟩
      snoozeUntil := some 5, snoozeSeq := some 1 }
    (by decide) (by decide) (by decide)
    (Or.inr (Or.inr (Or.inr (by decide))))
  exact ⟨by decide, h.1, h.2.2.2.2.trans (by decide)⟩

/-! ## Claim C5 -/

/-- Task "A" of the C5 scenario: the current task still carries snooze
fields. -/
def c5A : Task :=
  { id := "A", title := "a", createdAt := 0, updatedAt := 0
    doneAt := none, restoredAt := none, attachments := [], subtasks := []
    notesMd := "", ui := ⟨false, false, false, false⟩
    snoozeUntil := some 5, snoozeSeq := some 1 }

/-- Task "B" of the C5 scenario: a plain queued task. -/
def c5B : Task :=
  { id := "B", title := "b", createdAt := 1, updatedAt := 1
    doneAt := none, restoredAt := none, attachments := [], subtasks := []
    notesMd := "", ui := ⟨false, false, false, false⟩
    snoozeUntil := none, snoozeSeq := none }

/-- The C5 scenario state: "A" is current (with stale snooze fields),
"B" waits in the ready queue. -/
def c5S : AppState :=
  { rev := 0, updatedAt := 0, clientId := "c", version := 2
    currentTaskId := some "A", wokenQueue := [], readyQueue := ["B"]
    snoozedIds := [], completedIds := [], deletedIds := []
    tasks := [("A", c5A), ("B", c5B)], nextSnoozeSeq := 2 }

/-- C5 counterexample: `completeTask` stamps `doneAt` but does NOT clear
the completed task's `snoozeUntil`/`snoozeSeq` — on a current task still
carrying `snoozeUntil = 5`, `snoozeSeq = 1`, both fields survive
completion (only `completeTaskById` clears them). -/
theorem c5_complete_task_keeps_snooze_fields_counterexample :
    (completeTaskBody 10 c5S).bind (fun t => lookupTask t.tasks "A") =
      some { c5A with doneAt := some 10, updatedAt := 10 } ∧
    ({ c5A with doneAt := some 10, updatedAt := 10 } : Task).snoozeUntil =
      some 5 ∧
    ({ c5A with doneAt := some 10, updatedAt := 10 } : Task).snoozeSeq =
      some 1 := by
  exact ⟨by decide, by decide, by decide⟩

/-- C5 amended: `completeTask` stamps `doneAt`/`updatedAt`, clears
`restoredAt` but keeps `snoozeUntil`/`snoozeSeq`, prepends the current id
to `completedIds` and refills via `takeNext`; `completeTaskById` is the
variant that additionally clears the snooze fields and strips the id from
every lane (refilling via `takeNext` only when the id was current). -/
theorem c5_complete_ops_amended (s : AppState) (now : Int) (cur id : TaskId)
    (task task2 : Task)
    (hcur : s.currentTaskId = some cur)
    (hlu : lookupTask s.tasks cur = some task)
    (hlu2 : lookupTask s.tasks id = some task2)
    (hnc : id ∉ s.completedIds) :
    (∃ t, completeTaskBody now s = some t ∧
      lookupTask t.tasks cur = some
        { task with doneAt := some (nextUpdatedAt task.updatedAt now)
                    restoredAt := none
                    updatedAt := nextUpdatedAt task.updatedAt now } ∧
      t.completedIds = cur :: s.completedIds ∧
      t.currentTaskId = (takeNextTaskId s.wokenQueue s.readyQueue).nextId ∧
      t.wokenQueue = (takeNextTaskId s.wokenQueue s.readyQueue).wokenQueue ∧
      t.readyQueue = (takeNextTaskId s.wokenQueue s.readyQueue).readyQueue ∧
      t.snoozedIds = s.snoozedIds) ∧
    (∃ t, completeTaskByIdBody id now s = some t ∧
      lookupTask t.tasks id = some
        { task2 with doneAt := some (nextUpdatedAt task2.updatedAt now)
                     updatedAt := nextUpdatedAt task2.updatedAt now
                     restoredAt := none, snoozeUntil := none
                     snoozeSeq := none } ∧
      t.snoozedIds = s.snoozedIds.filter (fun x => x ≠ id) ∧
      t.completedIds = id :: s.completedIds.filter (fun x => x ≠ id) ∧
      (some id = s.currentTaskId →
        t.currentTaskId =
          (takeNextTaskId (s.wokenQueue.filter (fun x => x ≠ id))
            (s.readyQueue.filter (fun x => x ≠ id))).nextId ∧
        t.wokenQueue =
          (takeNextTaskId (s.wokenQueue.filter (fun x => x ≠ id))
            (s.readyQueue.filter (fun x => x ≠ id))).wokenQueue ∧
        t.readyQueue =
          (takeNextTaskId (s.wokenQueue.filter (fun x => x ≠ id))
            (s.readyQueue.filter (fun x => x ≠ id))).readyQueue) ∧
      (¬some id = s.currentTaskId →
        t.currentTaskId = s.currentTaskId ∧
        t.wokenQueue = s.wokenQueue.filter (fun x => x ≠ id) ∧
        t.readyQueue = s.readyQueue.filter (fun x => x ≠ id))) := by
  constructor
  · have heq : completeTaskBody now s = some
        { s with
          tasks := (setTask s.tasks cur
            { task with doneAt := some (nextUpdatedAt task.updatedAt now)
                        restoredAt := none
                        updatedAt := nextUpdatedAt task.updatedAt now })
          currentTaskId := (takeNextTaskId s.wokenQueue s.readyQueue).nextId
          wokenQueue := (takeNextTaskId s.wokenQueue s.readyQueue).wokenQueue
          readyQueue := (takeNextTaskId s.wokenQueue s.readyQueue).readyQueue
          completedIds := cur :: s.completedIds } := by
      simp [completeTaskBody, hcur, hlu]
    exact ⟨_, heq, lookupTask_set_self s.tasks cur _, rfl, rfl, rfl, rfl, rfl⟩
  · by_cases hcond : some id = s.currentTaskId
    · have heq : completeTaskByIdBody id now s = some
          { s with
            tasks := (setTask s.tasks id
              { task2 with doneAt := some (nextUpdatedAt task2.updatedAt now)
                           updatedAt := nextUpdatedAt task2.updatedAt now
                           restoredAt := none, snoozeUntil := none
                           snoozeSeq := none })
            currentTaskId :=
              (takeNextTaskId (s.wokenQueue.filter (fun x => x ≠ id))
                (s.readyQueue.filter (fun x => x ≠ id))).nextId
            wokenQueue :=
              (takeNextTaskId (s.wokenQueue.filter (fun x => x ≠ id))
                (s.readyQueue.filter (fun x => x ≠ id))).wokenQueue
            readyQueue :=
              (takeNextTaskId (s.wokenQueue.filter (fun x => x ≠ id))
                (s.readyQueue.filter (fun x => x ≠ id))).readyQueue
            snoozedIds := s.snoozedIds.filter (fun x => x ≠ id)
            completedIds := id :: s.completedIds.filter (fun x => x ≠ id) } := by
        simp only [completeTaskByIdBody, hlu2]
        rw [if_neg hnc, if_pos hcond]
      refine ⟨_, heq, lookupTask_set_self s.tasks id _, rfl, rfl,
        fun _ => ⟨rfl, rfl, rfl⟩, fun h => absurd hcond h⟩
    · have heq : completeTaskByIdBody id now s = some
          { s with
            tasks := (setTask s.tasks id
              { task2 with doneAt := some (nextUpdatedAt task2.updatedAt now)
                           updatedAt := nextUpdatedAt task2.updatedAt now
                           restoredAt := none, snoozeUntil := none
                           snoozeSeq := none })
            wokenQueue := s.wokenQueue.filter (fun x => x ≠ id)
            readyQueue := s.readyQueue.filter (fun x => x ≠ id)
            snoozedIds := s.snoozedIds.filter (fun x => x ≠ id)
            completedIds := id :: s.completedIds.filter (fun x => x ≠ id) } := by
        simp only [completeTaskByIdBody, hlu2]
        rw [if_neg hnc, if_neg hcond]
      refine ⟨_, heq, lookupTask_set_self s.tasks id _, rfl, rfl,
        fun h => absurd h hcond, fun _ => ⟨rfl, rfl, rfl⟩⟩

/-- Witness for C5 at the concrete scenario state: completing current "A"
and separately completing "B" by id. -/
theorem c5_complete_ops_amended_witness :
    (c5S.currentTaskId = some "A" ∧
     lookupTask c5S.tasks "A" = some c5A ∧
     lookupTask c5S.tasks "B" = some c5B ∧
     "B" ∉ c5S.completedIds) ∧
    ((∃ t, completeTaskBody 10 c5S = some t ∧
      lookupTask t.tasks "A" = some
        { c5A with doneAt := some (nextUpdatedAt c5A.updatedAt 10)
                   restoredAt := none
                   updatedAt := nextUpdatedAt c5A.updatedAt 10 } ∧
      t.completedIds = "A" :: c5S.completedIds ∧
      t.currentTaskId = (takeNextTaskId c5S.wokenQueue c5S.readyQueue).nextId ∧
      t.wokenQueue = (takeNextTaskId c5S.wokenQueue c5S.readyQueue).wokenQueue ∧
      t.readyQueue = (takeNextTaskId c5S.wokenQueue c5S.readyQueue).readyQueue ∧
      t.snoozedIds = c5S.snoozedIds) ∧
    (∃ t, completeTaskByIdBody "B" 10 c5S = some t ∧
      lookupTask t.tasks "B" = some
        { c5B with doneAt := some (nextUpdatedAt c5B.updatedAt 10)
                   updatedAt := nextUpdatedAt c5B.updatedAt 10
                   restoredAt := none, snoozeUntil := none
                   snoozeSeq := none } ∧
      t.snoozedIds = c5S.snoozedIds.filter (fun x => x ≠ "B") ∧
      t.completedIds = "B" :: c5S.completedIds.filter (fun x => x ≠ "B") ∧
      (some "B" = c5S.currentTaskId →
        t.currentTaskId =
          (takeNextTaskId (c5S.wokenQueue.filter (fun x => x ≠ "B"))
            (c5S.readyQueue.filter (fun x => x ≠ "B"))).nextId ∧
        t.wokenQueue =
          (takeNextTaskId (c5S.wokenQueue.filter (fun x => x ≠ "B"))
            (c5S.readyQueue.filter (fun x => x ≠ "B"))).wokenQueue ∧
        t.readyQueue =
          (takeNextTaskId (c5S.wokenQueue.filter (fun x => x ≠ "B"))
            (c5S.readyQueue.filter (fun x => x ≠ "B"))).readyQueue) ∧
      (¬some "B" = c5S.currentTaskId →
        t.currentTaskId = c5S.currentTaskId ∧
        t.wokenQueue = c5S.wokenQueue.filter (fun x => x ≠ "B") ∧
        t.readyQueue = c5S.readyQueue.filter (fun x => x ≠ "B")))) :=
  ⟨⟨by decide, by decide, by decide, by decide⟩,
    c5_complete_ops_amended c5S 10 "A" "B" c5A c5B (by decide) (by decide)
      (by decide) (by decide)⟩

/-! ## Claim C6 -/

/-- Task "A" of the C6 scenario. -/
def c6A : Task :=
  { id := "A", title := "a", createdAt := 0, updatedAt := 0
    doneAt := none, restoredAt := none, attachments := [], subtasks := []
    notesMd := "", ui := ⟨false, false, false, false⟩
    snoozeUntil := none, snoozeSeq := none }

/-- The C6 scenario state: "A" is the only task and is current; both
queues are empty. -/
def c6S : AppState :=
  { rev := 0, updatedAt := 0, clientId := "c", version := 2
    currentTaskId := some "A", wokenQueue := [], readyQueue := []
    snoozedIds := [], completedIds := [], deletedIds := []
    tasks := [("A", c6A)], nextSnoozeSeq := 1 }

/-- C6 counterexample: `snoozeTask(0)` — a duration that IS given — does
not snooze until `now + 0`: the `durationMs > 0` guard routes it to the
quick-defer path, which on a lone task auto-snoozes for 60000 ms
(`snoozeUntil = 100 + 60000`, not `100 + 0`). -/
theorem c6_zero_duration_counterexample :
    (snoozeTaskBody (some 0) 100 c6S).bind (fun t => lookupTask t.tasks "A") =
      some { c6A with snoozeUntil := some 60100, snoozeSeq := some 1 } ∧
    (60100 : Int) ≠ 100 + 0 := by
  exact ⟨by decide, by decide⟩

/-- C6 amended: with a current task that exists, `snoozeTask(d)` with
`d > 0` snoozes until `now + d` with a fresh `snoozeSeq` and refills via
`takeNext`; with `d ≤ 0` it behaves exactly like the argument-less call;
the argument-less call rotates (append current to `readyQueue`, refill via
`takeNext`) when another runnable task exists, and otherwise auto-snoozes
for exactly 60000 ms and clears `currentTaskId`. -/
theorem c6_snooze_task_amended (s : AppState) (now d : Int) (cur : TaskId)
    (task : Task)
    (hcur : s.currentTaskId = some cur)
    (hlu : lookupTask s.tasks cur = some task) :
    (0 < d → snoozeTaskBody (some d) now s = some
      { s with
        tasks := (setTask s.tasks cur
          { task with snoozeUntil := some (now + d)
                      snoozeSeq := some s.nextSnoozeSeq })
        wokenQueue := (takeNextTaskId s.wokenQueue s.readyQueue).wokenQueue
        readyQueue := (takeNextTaskId s.wokenQueue s.readyQueue).readyQueue
        snoozedIds := if cur ∈ s.snoozedIds then s.snoozedIds
                      else s.snoozedIds ++ [cur]
        currentTaskId := (takeNextTaskId s.wokenQueue s.readyQueue).nextId
        nextSnoozeSeq := s.nextSnoozeSeq + 1 }) ∧
    (d ≤ 0 → snoozeTaskBody (some d) now s = snoozeTaskBody none now s) ∧
    (0 < s.wokenQueue.length ∨ 0 < s.readyQueue.length →
      snoozeTaskBody none now s = some
      { s with
        wokenQueue :=
          (takeNextTaskId s.wokenQueue (s.readyQueue ++ [cur])).wokenQueue
        readyQueue :=
          (takeNextTaskId s.wokenQueue (s.readyQueue ++ [cur])).readyQueue
        currentTaskId :=
          (takeNextTaskId s.wokenQueue (s.readyQueue ++ [cur])).nextId }) ∧
    (¬(0 < s.wokenQueue.length ∨ 0 < s.readyQueue.length) →
      snoozeTaskBody none now s = some
      { s with
        tasks := (setTask s.tasks cur
          { task with snoozeUntil := some (now + 60 * 1000)
                      snoozeSeq := some s.nextSnoozeSeq })
        snoozedIds := if cur ∈ s.snoozedIds then s.snoozedIds
                      else s.snoozedIds ++ [cur]
        currentTaskId := none
        nextSnoozeSeq := s.nextSnoozeSeq + 1 }) := by
  refine ⟨?_, ?_, ?_, ?_⟩
  · intro hd
    simp [snoozeTaskBody, hcur, hlu, hd]
  · intro hd
    simp [snoozeTaskBody, hcur, hlu, not_lt.mpr hd]
  · intro h
    simp [snoozeTaskBody, hcur, hlu, snoozeQuickDefer, h]
  · intro h
    simp only [snoozeTaskBody, hcur, hlu, snoozeQuickDefer, h, if_false,
      ite_false]

/-- Witness for C6 at the lone-task scenario state with `d = 5`. -/
theorem c6_snooze_task_amended_witness :
    (c6S.currentTaskId = some "A" ∧ lookupTask c6S.tasks "A" = some c6A) ∧
    ((0 < (5 : Int) → snoozeTaskBody (some 5) 100 c6S = some
      { c6S with
        tasks := (setTask c6S.tasks "A"
          { c6A with snoozeUntil := some (100 + 5)
                     snoozeSeq := some c6S.nextSnoozeSeq })
        wokenQueue := (takeNextTaskId c6S.wokenQueue c6S.readyQueue).wokenQueue
        readyQueue := (takeNextTaskId c6S.wokenQueue c6S.readyQueue).readyQueue
        snoozedIds := if "A" ∈ c6S.snoozedIds then c6S.snoozedIds
                      else c6S.snoozedIds ++ ["A"]
        currentTaskId := (takeNextTaskId c6S.wokenQueue c6S.readyQueue).nextId
        nextSnoozeSeq := c6S.nextSnoozeSeq + 1 }) ∧
    ((5 : Int) ≤ 0 →
      snoozeTaskBody (some 5) 100 c6S = snoozeTaskBody none 100 c6S) ∧
    (0 < c6S.wokenQueue.length ∨ 0 < c6S.readyQueue.length →
      snoozeTaskBody none 100 c6S = some
      { c6S with
        wokenQueue :=
          (takeNextTaskId c6S.wokenQueue (c6S.readyQueue ++ ["A"])).wokenQueue
        readyQueue :=
          (takeNextTaskId c6S.wokenQueue (c6S.readyQueue ++ ["A"])).readyQueue
        currentTaskId :=
          (takeNextTaskId c6S.wokenQueue (c6S.readyQueue ++ ["A"])).nextId }) ∧
    (¬(0 < c6S.wokenQueue.length ∨ 0 < c6S.readyQueue.length) →
      snoozeTaskBody none 100 c6S = some
      { c6S with
        tasks := (setTask c6S.tasks "A"
          { c6A with snoozeUntil := some (100 + 60 * 1000)
                     snoozeSeq := some c6S.nextSnoozeSeq })
        snoozedIds := if "A" ∈ c6S.snoozedIds then c6S.snoozedIds
                      else c6S.snoozedIds ++ ["A"]
        currentTaskId := none
        nextSnoozeSeq := c6S.nextSnoozeSeq + 1 })) :=
  ⟨⟨by decide, by decide⟩,
    c6_snooze_task_amended c6S 100 5 "A" c6A (by decide) (by decide)⟩

/-! ## Claim C3 -/

/-- C3: both merge entry points produce `deletedIds` equal to the
duplicate-free sorted union of the two inputs' tombstone lists, and no id
of that union is a key of the result's task map, even when one input still
holds a task record for it. -/
theorem c3_tombstones_union_and_win (a b : AppState) :
    (mergeAppState a b).deletedIds =
      uniqueSortedIds (a.deletedIds ++ b.deletedIds) ∧
    (mergeRemoteIntoLocalState a b).deletedIds =
      uniqueSortedIds (a.deletedIds ++ b.deletedIds) ∧
    (∀ id, id ∈ (mergeAppState a b).deletedIds ↔
      id ∈ a.deletedIds ∨ id ∈ b.deletedIds) ∧
    (mergeAppState a b).deletedIds.Nodup ∧
    (mergeAppState a b).deletedIds.Sorted (· ≤ ·) ∧
    (∀ id ∈ (mergeAppState a b).deletedIds,
      lookupTask (mergeAppState a b).tasks id = none) ∧
    (∀ id ∈ (mergeRemoteIntoLocalState a b).deletedIds,
      lookupTask (mergeRemoteIntoLocalState a b).tasks id = none) := by
  refine ⟨rfl, rfl, ?_, ?_, ?_, ?_, ?_⟩
  · intro id
    show id ∈ mergeDeletedIds a b ↔ _
    rw [mergeDeletedIds, mem_uniqueSortedIds, List.mem_append]
  · exact uniqueSortedIds_nodup _
  · show (uniqueSortedIds (a.deletedIds ++ b.deletedIds)).Sorted (· ≤ ·)
    rw [uniqueSortedIds]
    exact List.sorted_insertionSort _ _
  · exact (inv_mergeAppState a b).deletedGone
  · intro id hid
    have hid' : id ∈ uniqueSortedIds (a.deletedIds ++ b.deletedIds) := hid
    have h0 := reconcileTasks_deleted_none a b _ id hid'
    have hnk : id ∉ keysOf (reconcileTasks a b
        (uniqueSortedIds (a.deletedIds ++ b.deletedIds))) := by
      rw [mem_keysOf_iff, h0]
      simp
    show lookupTask (allocSnoozeSeq
      (completedIdsOf (reconcileTasks a b
        (uniqueSortedIds (a.deletedIds ++ b.deletedIds))))
      (reconcileTasks a b
        (uniqueSortedIds (a.deletedIds ++ b.deletedIds)))
      (maxSnoozeSeqOf (reconcileTasks a b
        (uniqueSortedIds (a.deletedIds ++ b.deletedIds))))).1 id = none
    refine lookup_none_of_not_mem_keys _ _ ?_
    rw [allocSnoozeSeq_keys]
    exact hnk

/-! ## Claim C4 -/

theorem queueWalk_sublist (cur : Option TaskId) (active skipA : List TaskId) :
    ∀ (src seen : List TaskId),
      (queueWalk cur active skipA seen src).1.Sublist src := by
  intro src
  induction src with
  | nil => intro seen; exact List.Sublist.refl _
  | cons id rest ih =>
    intro seen
    rw [queueWalk]
    split
    · exact (ih seen).cons id
    · exact (ih (id :: seen)).cons₂ id

theorem refill_woken_sublist (cur : Option TaskId) (w r : List TaskId) :
    (refillCurrent cur w r).2.1.Sublist w := by
  cases cur with
  | some c => exact List.Sublist.refl _
  | none =>
    cases w with
    | cons h t => exact (List.Sublist.refl t).cons h
    | nil =>
      cases r with
      | cons h1 t1 => exact List.Sublist.refl _
      | nil => exact List.Sublist.refl _

theorem refill_ready_decomp (cur : Option TaskId) (w r1 extra : List TaskId) :
    ∃ kept rest, (refillCurrent cur w (r1 ++ extra)).2.2 = kept ++ rest ∧
      kept.Sublist r1 ∧ rest.Sublist extra := by
  cases cur with
  | some c => exact ⟨r1, extra, rfl, List.Sublist.refl _, List.Sublist.refl _⟩
  | none =>
    cases w with
    | cons h t =>
      exact ⟨r1, extra, rfl, List.Sublist.refl _, List.Sublist.refl _⟩
    | nil =>
      cases r1 with
      | cons h1 t1 =>
        exact ⟨t1, extra, rfl, (List.Sublist.refl t1).cons h1,
          List.Sublist.refl _⟩
      | nil =>
        cases extra with
        | nil => exact ⟨[], [], rfl, List.Sublist.refl _, List.Sublist.refl _⟩
        | cons e es =>
          exact ⟨[], es, rfl, List.Sublist.refl _, (List.Sublist.refl es).cons e⟩

theorem nextSeq_le (l r M : Int) :
    l ≤ (if max (max l r) (M + 1) ≤ M then M + 1 else max (max l r) (M + 1)) ∧
    r ≤ (if max (max l r) (M + 1) ≤ M then M + 1 else max (max l r) (M + 1)) := by
  have h1 := le_max_right (max l r) (M + 1)
  have h2 := le_max_left (max l r) (M + 1)
  have h3 := le_max_left l r
  have h4 := le_max_right l r
  rw [if_neg (by omega)]
  omega

/-! ## Claim C2 -/

theorem lookupTask_mem : ∀ (ts : Tasks) (id : TaskId) (t : Task),
    lookupTask ts id = some t → (id, t) ∈ ts := by
  intro ts
  induction ts with
  | nil => intro id t h; cases h
  | cons p rest ih =>
    obtain ⟨k, v⟩ := p
    intro id t h
    by_cases hk : k = id
    · subst hk
      have hv : v = t := by simpa [lookupTask] using h
      subst hv
      exact List.mem_cons_self _ _
    · have h2 : lookupTask rest id = some t := by simpa [lookupTask, hk] using h
      exact List.mem_cons_of_mem _ (ih id t h2)

theorem lookup_filterMap_pairs_none (g : TaskId → Option Task) :
    ∀ (l : List TaskId) (id : TaskId), id ∉ l →
      lookupTask (l.filterMap (fun i => (g i).map (fun t => (i, t)))) id =
        none := by
  intro l
  induction l with
  | nil => intro id _; rfl
  | cons a rest ih =>
    intro id hid
    have hna : ¬a = id := fun h => hid (h ▸ List.mem_cons_self a rest)
    have hnr : id ∉ rest := fun h => hid (List.mem_cons_of_mem a h)
    cases hg : g a with
    | none =>
      simp only [List.filterMap_cons, hg, Option.map_none']
      exact ih id hnr
    | some t =>
      simp only [List.filterMap_cons, hg, Option.map_some']
      simpa [lookupTask, hna] using ih id hnr

theorem lookup_filterMap_pairs (g : TaskId → Option Task) :
    ∀ (l : List TaskId), l.Nodup → ∀ id ∈ l,
      lookupTask (l.filterMap (fun i => (g i).map (fun t => (i, t)))) id =
        g id := by
  intro l
  induction l with
  | nil => intro _ id hid; cases hid
  | cons a rest ih =>
    intro hnd id hid
    have hnd2 := List.nodup_cons.mp hnd
    cases hg : g a with
    | none =>
      simp only [List.filterMap_cons, hg, Option.map_none']
      rcases List.mem_cons.mp hid with h | h
      · subst h
        rw [lookup_filterMap_pairs_none g rest id hnd2.1, hg]
      · exact ih hnd2.2 id h
    | some t =>
      simp only [List.filterMap_cons, hg, Option.map_some']
      by_cases hai : a = id
      · subst hai
        simp [lookupTask, hg]
      · have hmem : id ∈ rest := by
          rcases List.mem_cons.mp hid with h | h
          · exact absurd h.symm hai
          · exact h
        simpa [lookupTask, hai] using ih hnd2.2 id hmem

theorem lookup_mergeTasks0_present (a b : AppState) (id : TaskId)
    (hnd : id ∉ mergeDeletedIds a b)
    (hin : id ∈ keysOf a.tasks ∨ id ∈ keysOf b.tasks) :
    lookupTask (mergeTasks0 a b) id = mergeTaskAt a b id := by
  have hmem : id ∈ uniqueFirst (keysOf a.tasks ++ keysOf b.tasks) :=
    uniqueFirst_mem_of _ id (List.mem_append.mpr hin)
  have hnodup : (uniqueFirst (keysOf a.tasks ++ keysOf b.tasks)).Nodup :=
    uniqueFirst_nodup _
  have heq : mergeTasks0 a b =
      (uniqueFirst (keysOf a.tasks ++ keysOf b.tasks)).filterMap
        (fun i => ((if i ∈ mergeDeletedIds a b then none
                    else mergeTaskAt a b i)).map (fun t => (i, t))) := by
    rw [mergeTasks0]
    congr 1
    funext i
    by_cases h : i ∈ mergeDeletedIds a b
    · simp [h]
    · simp [h]
  rw [heq, lookup_filterMap_pairs _ _ hnodup id hmem, if_neg hnd]

theorem lookup_allocSnoozeSeq (completed : List TaskId) :
    ∀ (ts : Tasks) (m : Int) (id : TaskId) (t : Task),
      lookupTask ts id = some t →
      lookupTask (allocSnoozeSeq completed ts m).1 id = some t ∨
      (id ∉ completed ∧ t.snoozeUntil.isSome = true ∧ t.snoozeSeq = none ∧
        ∃ sq, lookupTask (allocSnoozeSeq completed ts m).1 id =
          some { t with snoozeSeq := some sq }) := by
  intro ts
  induction ts with
  | nil => intro m id t h; cases h
  | cons p rest ih =>
    obtain ⟨i, u⟩ := p
    intro m id t h
    by_cases hic : i ∈ completed
    · simp only [allocSnoozeSeq, if_pos hic]
      by_cases hii : i = id
      · left
        have ht : u = t := by simpa [lookupTask, hii] using h
        simp [lookupTask, hii, ht]
      · have h2 : lookupTask rest id = some t := by
          simpa [lookupTask, hii] using h
        rcases ih m id t h2 with hl | ⟨hc, hs, hq, sq, hr⟩
        · left
          simpa [lookupTask, hii] using hl
        · right
          exact ⟨hc, hs, hq, sq, by simpa [lookupTask, hii] using hr⟩
    · cases hsu : u.snoozeUntil with
      | none =>
        simp only [allocSnoozeSeq, if_neg hic, hsu]
        by_cases hii : i = id
        · left
          have ht : u = t := by simpa [lookupTask, hii] using h
          simp [lookupTask, hii, ht]
        · have h2 : lookupTask rest id = some t := by
            simpa [lookupTask, hii] using h
          rcases ih m id t h2 with hl | ⟨hc, hs, hq, sq, hr⟩
          · left
            simpa [lookupTask, hii] using hl
          · right
            exact ⟨hc, hs, hq, sq, by simpa [lookupTask, hii] using hr⟩
      | some uu =>
        cases hsq : u.snoozeSeq with
        | some sq0 =>
          simp only [allocSnoozeSeq, if_neg hic, hsu, hsq]
          by_cases hii : i = id
          · left
            have ht : u = t := by simpa [lookupTask, hii] using h
            simp [lookupTask, hii, ht]
          · have h2 : lookupTask rest id = some t := by
              simpa [lookupTask, hii] using h
            rcases ih m id t h2 with hl | ⟨hc, hs, hq, sq, hr⟩
            · left
              simpa [lookupTask, hii] using hl
            · right
              exact ⟨hc, hs, hq, sq, by simpa [lookupTask, hii] using hr⟩
        | none =>
          simp only [allocSnoozeSeq, if_neg hic, hsu, hsq]
          by_cases hii : i = id
          · right
            have ht : u = t := by simpa [lookupTask, hii] using h
            subst ht
            have h1 : id ∉ completed := by rw [← hii]; exact hic
            have h2 : u.snoozeUntil.isSome = true := by rw [hsu]; rfl
            refine ⟨h1, h2, hsq, m + 1, ?_⟩
            simp [lookupTask, hii, hsu]
          · have h2 : lookupTask rest id = some t := by
              simpa [lookupTask, hii] using h
            rcases ih (m + 1) id t h2 with hl | ⟨hc, hs, hq, sq, hr⟩
            · left
              simpa [lookupTask, hii] using hl
            · right
              exact ⟨hc, hs, hq, sq, by simpa [lookupTask, hii] using hr⟩

theorem mem_completedIdsOf_of_lookup (ts : Tasks) (id : TaskId) (t : Task)
    (hlu : lookupTask ts id = some t) (hc : isCompleted t = true)
    (hd : t.doneAt.isSome = true) : id ∈ completedIdsOf ts := by
  obtain ⟨d, hdd⟩ := Option.isSome_iff_exists.mp hd
  have hmem : (id, t) ∈ ts := lookupTask_mem ts id t hlu
  have hentry : (id, d) ∈ completedEntriesOf ts := by
    rw [completedEntriesOf]
    refine List.mem_filterMap.mpr ⟨(id, t), hmem, ?_⟩
    simp [hc, hdd]
  rw [completedIdsOf]
  refine List.mem_map.mpr ⟨(id, d), ?_, rfl⟩
  exact (List.perm_insertionSort completedLe _).mem_iff.mpr hentry

/-- Replica-1 copy of task "T" for C2: completed at 100. -/
def c2TA : Task :=
  { id := "T", title := "orig", createdAt := 10, updatedAt := 100
    doneAt := some 100, restoredAt := none, attachments := [], subtasks := []
    notesMd := "", ui := ⟨false, false, false, false⟩
    snoozeUntil := none, snoozeSeq := none }

/-- Replica-2 copy of task "T" for C2: title edited at 150. -/
def c2TB : Task :=
  { id := "T", title := "edited", createdAt := 10, updatedAt := 150
    doneAt := none, restoredAt := none, attachments := [], subtasks := []
    notesMd := "", ui := ⟨false, false, false, false⟩
    snoozeUntil := none, snoozeSeq := none }

/-- Replica 1 of the C2 scenario. -/
def c2A : AppState :=
  { rev := 1, updatedAt := 100, clientId := "x", version := 2
    currentTaskId := none, wokenQueue := [], readyQueue := []
    snoozedIds := [], completedIds := ["T"], deletedIds := []
    tasks := [("T", c2TA)], nextSnoozeSeq := 1 }

/-- Replica 2 of the C2 scenario. -/
def c2B : AppState :=
  { rev := 2, updatedAt := 150, clientId := "y", version := 2
    currentTaskId := some "T", wokenQueue := [], readyQueue := []
    snoozedIds := [], completedIds := [], deletedIds := []
    tasks := [("T", c2TB)], nextSnoozeSeq := 1 }

/-- A snoozed-without-sequence copy of task "S" on both sides. -/
def c2STA : Task :=
  { id := "S", title := "s", createdAt := 0, updatedAt := 10
    doneAt := none, restoredAt := none, attachments := [], subtasks := []
    notesMd := "", ui := ⟨false, false, false, false⟩
    snoozeUntil := some 50, snoozeSeq := none }

def c2STB : Task :=
  { id := "S", title := "s", createdAt := 0, updatedAt := 20
    doneAt := none, restoredAt := none, attachments := [], subtasks := []
    notesMd := "", ui := ⟨false, false, false, false⟩
    snoozeUntil := some 50, snoozeSeq := none }

def c2SA : AppState :=
  { rev := 1, updatedAt := 10, clientId := "x", version := 2
    currentTaskId := none, wokenQueue := [], readyQueue := []
    snoozedIds := ["S"], completedIds := [], deletedIds := []
    tasks := [("S", c2STA)], nextSnoozeSeq := 1 }

def c2SB : AppState :=
  { rev := 2, updatedAt := 20, clientId := "y", version := 2
    currentTaskId := none, wokenQueue := [], readyQueue := []
    snoozedIds := ["S"], completedIds := [], deletedIds := []
    tasks := [("S", c2STB)], nextSnoozeSeq := 1 }

/-- C2 counterexample: for a task held on both sides whose base copy has a
`snoozeUntil` but no `snoozeSeq` and is not completed, the merge's
snooze-normalization pass allocates a fresh `snoozeSeq` — the merged task
carries `snoozeSeq = some 1` although the base copy's is `none`, so not
every field other than the four recomputed ones is copied from base
untouched. -/
theorem c2_snooze_seq_not_from_base_counterexample :
    (lookupTask (mergeAppState c2SA c2SB).tasks "S").bind
      (fun t => t.snoozeSeq) = some 1 ∧
    (pickNewerTask c2STA c2STB (decide (newerIsA c2SA c2SB))).snoozeSeq =
      none := by
  exact ⟨by decide, by decide⟩

/-- C2 amended: for a non-tombstoned id present on both sides, the merged
task has `createdAt = min`, `doneAt`/`restoredAt` the optional maxima,
`updatedAt = max(base.updatedAt, doneAt, restoredAt)`, and title, notes,
subtasks, attachments, ui flags and `snoozeUntil` from the base copy (the
side with the greater per-task `updatedAt`, ties toward the newer
snapshot); `snoozeSeq` also comes from base EXCEPT that a base copy with a
`snoozeUntil` but no `snoozeSeq` that is not completed gets a freshly
allocated sequence; a task completed on one side stays completed and, when
its merged `doneAt` is set, appears in the result's `completedIds`. -/
theorem c2_both_sides_merge_amended (a b : AppState) (id : TaskId)
    (ta tb : Task)
    (hlua : lookupTask a.tasks id = some ta)
    (hlub : lookupTask b.tasks id = some tb)
    (hda : id ∉ a.deletedIds) (hdb : id ∉ b.deletedIds) :
    ∃ t, lookupTask (mergeAppState a b).tasks id = some t ∧
      t.createdAt = min ta.createdAt tb.createdAt ∧
      t.doneAt = maxOptionalNumber ta.doneAt tb.doneAt ∧
      t.restoredAt = maxOptionalNumber ta.restoredAt tb.restoredAt ∧
      t.updatedAt =
        max (pickNewerTask ta tb (decide (newerIsA a b))).updatedAt
          (max ((maxOptionalNumber ta.doneAt tb.doneAt).getD (-1))
            ((maxOptionalNumber ta.restoredAt tb.restoredAt).getD (-1))) ∧
      t.title = (pickNewerTask ta tb (decide (newerIsA a b))).title ∧
      t.notesMd = (pickNewerTask ta tb (decide (newerIsA a b))).notesMd ∧
      t.subtasks = (pickNewerTask ta tb (decide (newerIsA a b))).subtasks ∧
      t.attachments =
        (pickNewerTask ta tb (decide (newerIsA a b))).attachments ∧
      t.ui = (pickNewerTask ta tb (decide (newerIsA a b))).ui ∧
      t.snoozeUntil =
        (pickNewerTask ta tb (decide (newerIsA a b))).snoozeUntil ∧
      (t.snoozeSeq = (pickNewerTask ta tb (decide (newerIsA a b))).snoozeSeq ∨
        ((pickNewerTask ta tb (decide (newerIsA a b))).snoozeSeq = none ∧
         (pickNewerTask ta tb
           (decide (newerIsA a b))).snoozeUntil.isSome = true ∧
         ∃ sq, t.snoozeSeq = some sq)) ∧
      (isCompleted t = true → t.doneAt.isSome = true →
        id ∈ (mergeAppState a b).completedIds) := by
  have hnd : id ∉ mergeDeletedIds a b := by
    intro hmem
    rw [mergeDeletedIds, mem_uniqueSortedIds] at hmem
    rcases List.mem_append.mp hmem with h | h
    · exact hda h
    · exact hdb h
  have hin : id ∈ keysOf a.tasks ∨ id ∈ keysOf b.tasks := by
    left
    rw [mem_keysOf_iff, hlua]
    rfl
  have h0 : lookupTask (mergeTasks0 a b) id =
      some (mergeBoth ta tb (decide (newerIsA a b)) id) := by
    rw [lookup_mergeTasks0_present a b id hnd hin]
    simp [mergeTaskAt, hlua, hlub]
  have halloc := lookup_allocSnoozeSeq (completedIdsOf (mergeTasks0 a b))
    (mergeTasks0 a b) (maxSnoozeSeqOf (mergeTasks0 a b)) id
    (mergeBoth ta tb (decide (newerIsA a b)) id) h0
  have hco : isCompleted (mergeBoth ta tb (decide (newerIsA a b)) id) = true →
      (mergeBoth ta tb (decide (newerIsA a b)) id).doneAt.isSome = true →
      id ∈ (mergeAppState a b).completedIds := by
    intro hc hd
    show id ∈ completedIdsOf (mergeTasks0 a b)
    exact mem_completedIdsOf_of_lookup (mergeTasks0 a b) id _ h0 hc hd
  rcases halloc with hl | ⟨hnc, hs, hq, sq, hr⟩
  · refine ⟨mergeBoth ta tb (decide (newerIsA a b)) id, hl, rfl, rfl, rfl,
      rfl, rfl, rfl, rfl, rfl, rfl, rfl, Or.inl rfl, hco⟩
  · refine ⟨{ mergeBoth ta tb (decide (newerIsA a b)) id with
        snoozeSeq := some sq }, hr, rfl, rfl, rfl, rfl, rfl, rfl, rfl, rfl,
      rfl, rfl, Or.inr ⟨hq, hs, sq, rfl⟩, fun hc hd => hco hc hd⟩

/-- Witness for C2 at the two-replica scenario: "T" completed at 100 on
replica 1, title-edited at 150 on replica 2. -/
theorem c2_both_sides_merge_amended_witness :
    (lookupTask c2A.tasks "T" = some c2TA ∧
     lookupTask c2B.tasks "T" = some c2TB ∧
     "T" ∉ c2A.deletedIds ∧ "T" ∉ c2B.deletedIds) ∧
    (∃ t, lookupTask (mergeAppState c2A c2B).tasks "T" = some t ∧
      t.createdAt = min c2TA.createdAt c2TB.createdAt ∧
      t.doneAt = maxOptionalNumber c2TA.doneAt c2TB.doneAt ∧
      t.restoredAt = maxOptionalNumber c2TA.restoredAt c2TB.restoredAt ∧
      t.updatedAt =
        max (pickNewerTask c2TA c2TB (decide (newerIsA c2A c2B))).updatedAt
          (max ((maxOptionalNumber c2TA.doneAt c2TB.doneAt).getD (-1))
            ((maxOptionalNumber c2TA.restoredAt c2TB.restoredAt).getD (-1))) ∧
      t.title = (pickNewerTask c2TA c2TB (decide (newerIsA c2A c2B))).title ∧
      t.notesMd =
        (pickNewerTask c2TA c2TB (decide (newerIsA c2A c2B))).notesMd ∧
      t.subtasks =
        (pickNewerTask c2TA c2TB (decide (newerIsA c2A c2B))).subtasks ∧
      t.attachments =
        (pickNewerTask c2TA c2TB (decide (newerIsA c2A c2B))).attachments ∧
      t.ui = (pickNewerTask c2TA c2TB (decide (newerIsA c2A c2B))).ui ∧
      t.snoozeUntil =
        (pickNewerTask c2TA c2TB (decide (newerIsA c2A c2B))).snoozeUntil ∧
      (t.snoozeSeq =
        (pickNewerTask c2TA c2TB (decide (newerIsA c2A c2B))).snoozeSeq ∨
        ((pickNewerTask c2TA c2TB (decide (newerIsA c2A c2B))).snoozeSeq =
          none ∧
         (pickNewerTask c2TA c2TB
           (decide (newerIsA c2A c2B))).snoozeUntil.isSome = true ∧
         ∃ sq, t.snoozeSeq = some sq)) ∧
      (isCompleted t = true → t.doneAt.isSome = true →
        "T" ∈ (mergeAppState c2A c2B).completedIds)) :=
  ⟨⟨by decide, by decide, by decide, by decide⟩,
    c2_both_sides_merge_amended c2A c2B "T" c2TA c2TB (by decide) (by decide)
      (by decide) (by decide)⟩

/-! ## Claim C4 -/

instance (ts : Tasks) : IsTrans TaskId (createdLe ts) := by
  constructor
  intro a b c hab hbc
  simp only [createdLe] at hab hbc ⊢
  rcases hab with h1 | ⟨h1, h2⟩ <;> rcases hbc with h3 | ⟨h3, h4⟩
  · exact Or.inl (by omega)
  · exact Or.inl (by omega)
  · exact Or.inl (by omega)
  · exact Or.inr ⟨by omega, le_trans h2 h4⟩

instance (ts : Tasks) : IsTotal TaskId (createdLe ts) := by
  constructor
  intro a b
  simp only [createdLe]
  rcases lt_trichotomy (createdAtOf ts a) (createdAtOf ts b) with h | h | h
  · exact Or.inl (Or.inl h)
  · rcases le_total a b with hab | hba
    · exact Or.inl (Or.inr ⟨h, hab⟩)
    · exact Or.inr (Or.inr ⟨h.symm, hba⟩)
  · exact Or.inr (Or.inl h)

theorem lookup_filter_deleted (dels : List TaskId) :
    ∀ (ts : Tasks) (id : TaskId), id ∉ dels →
      lookupTask (ts.filter (fun p => p.1 ∉ dels)) id = lookupTask ts id := by
  intro ts
  induction ts with
  | nil => intro id _; rfl
  | cons p rest ih =>
    obtain ⟨k, v⟩ := p
    intro id hid
    by_cases hk : k = id
    · subst hk
      rw [List.filter_cons, if_pos (by simpa using hid)]
      simp [lookupTask]
    · rw [List.filter_cons]
      by_cases hkd : k ∈ dels
      · rw [if_neg (by simpa using hkd), ih id hid]
        simp [lookupTask, hk]
      · rw [if_pos (by simpa using hkd)]
        simp only [lookupTask, hk, if_false, ite_false]
        exact ih id hid

theorem lookup_addRemoteTasks_some (deleted : List TaskId) :
    ∀ (rts acc : Tasks) (id : TaskId) (t : Task),
      lookupTask acc id = some t →
      lookupTask (addRemoteTasks deleted acc rts) id = some t := by
  intro rts
  induction rts with
  | nil => intro acc id t h; exact h
  | cons p rest ih =>
    obtain ⟨i, u⟩ := p
    intro acc id t h
    simp only [addRemoteTasks]
    split
    · exact ih acc id t h
    · split
      · exact ih acc id t h
      · refine ih (acc ++ [(i, u)]) id t ?_
        rw [lookupTask_append, h]

theorem lookup_applyRemoteFacts_other (deleted : List TaskId) :
    ∀ (rts acc : Tasks) (id : TaskId), id ∉ keysOf rts →
      lookupTask (applyRemoteFacts deleted acc rts) id = lookupTask acc id := by
  intro rts
  induction rts with
  | nil => intro acc id _; rfl
  | cons p rest ih =>
    obtain ⟨i, u⟩ := p
    intro acc id hid
    have hkeys : keysOf ((i, u) :: rest) = i :: keysOf rest := rfl
    have hi : ¬i = id := by
      intro h
      apply hid
      rw [hkeys, h]
      exact List.mem_cons_self _ _
    have hidr : id ∉ keysOf rest := by
      intro h
      apply hid
      rw [hkeys]
      exact List.mem_cons_of_mem _ h
    simp only [applyRemoteFacts]
    split
    · exact ih acc id hidr
    · cases hlu : lookupTask acc i with
      | none => exact ih acc id hidr
      | some localTask =>
        dsimp only
        split
        · exact ih acc id hidr
        · rw [ih _ id hidr]
          exact lookupTask_set_other acc i id _ (fun hh => hi hh.symm)

theorem lookup_applyRemoteFacts_mem (deleted : List TaskId) :
    ∀ (rts acc : Tasks) (id : TaskId) (lt rt : Task),
      (keysOf rts).Nodup → (id, rt) ∈ rts → id ∉ deleted →
      lookupTask acc id = some lt →
      ∃ mt, lookupTask (applyRemoteFacts deleted acc rts) id = some mt ∧
        mt.doneAt = maxOptionalNumber lt.doneAt rt.doneAt ∧
        mt.restoredAt = maxOptionalNumber lt.restoredAt rt.restoredAt ∧
        mt.title = lt.title ∧ mt.createdAt = lt.createdAt ∧
        mt.notesMd = lt.notesMd ∧ mt.snoozeUntil = lt.snoozeUntil := by
  intro rts
  induction rts with
  | nil => intro acc id lt rt _ hmem _ _; cases hmem
  | cons p rest ih =>
    obtain ⟨i, u⟩ := p
    intro acc id lt rt hnd hmem hdel hacc
    have hkeys : keysOf ((i, u) :: rest) = i :: keysOf rest := rfl
    rw [hkeys] at hnd
    have hnd2 := List.nodup_cons.mp hnd
    by_cases hii : i = id
    · subst hii
      have hu : u = rt := by
        rcases List.mem_cons.mp hmem with h | h
        · exact ((Prod.ext_iff.mp h).2).symm
        · exfalso
          exact hnd2.1 (List.mem_map.mpr ⟨(i, rt), h, rfl⟩)
      subst hu
      have hirest : i ∉ keysOf rest := hnd2.1
      simp only [applyRemoteFacts]
      rw [if_neg hdel, hacc]
      dsimp only
      split
      · rename_i hcond
        refine ⟨lt, ?_, hcond.1.symm, hcond.2.symm, rfl, rfl, rfl, rfl⟩
        rw [lookup_applyRemoteFacts_other deleted rest acc i hirest]
        exact hacc
      · refine ⟨{ lt with
            doneAt := maxOptionalNumber lt.doneAt u.doneAt
            restoredAt := maxOptionalNumber lt.restoredAt u.restoredAt
            updatedAt := max lt.updatedAt
              (max ((maxOptionalNumber lt.doneAt u.doneAt).getD (-1))
                ((maxOptionalNumber lt.restoredAt u.restoredAt).getD (-1))) },
          ?_, rfl, rfl, rfl, rfl, rfl, rfl⟩
        rw [lookup_applyRemoteFacts_other deleted rest _ i hirest]
        exact lookupTask_set_self acc i _
    · have hmem2 : (id, rt) ∈ rest := by
        rcases List.mem_cons.mp hmem with h | h
        · exact absurd ((Prod.ext_iff.mp h).1).symm hii
        · exact h
      simp only [applyRemoteFacts]
      split
      · exact ih acc id lt rt hnd2.2 hmem2 hdel hacc
      · cases hlu : lookupTask acc i with
        | none => exact ih acc id lt rt hnd2.2 hmem2 hdel hacc
        | some localTask =>
          dsimp only
          split
          · exact ih acc id lt rt hnd2.2 hmem2 hdel hacc
          · refine ih _ id lt rt hnd2.2 hmem2 hdel ?_
            rw [lookupTask_set_other acc i id _ (fun hh => hii hh.symm)]
            exact hacc

theorem lookup_reconcileTasks (loc remote : AppState) (deleted : List TaskId)
    (id : TaskId) (lt rt : Task)
    (hremN : (keysOf remote.tasks).Nodup)
    (hlt : lookupTask loc.tasks id = some lt)
    (hrt : lookupTask remote.tasks id = some rt)
    (hd : id ∉ deleted) :
    ∃ mt, lookupTask (reconcileTasks loc remote deleted) id = some mt ∧
      mt.doneAt = maxOptionalNumber lt.doneAt rt.doneAt ∧
      mt.restoredAt = maxOptionalNumber lt.restoredAt rt.restoredAt ∧
      mt.title = lt.title ∧ mt.createdAt = lt.createdAt ∧
      mt.notesMd = lt.notesMd ∧ mt.snoozeUntil = lt.snoozeUntil := by
  have hbase : lookupTask (loc.tasks.filter (fun p => p.1 ∉ deleted)) id =
      some lt := by
    rw [lookup_filter_deleted deleted loc.tasks id hd]
    exact hlt
  have hadd := lookup_addRemoteTasks_some deleted remote.tasks
    (loc.tasks.filter (fun p => p.1 ∉ deleted)) id lt hbase
  have hmem := lookupTask_mem remote.tasks id rt hrt
  simp only [reconcileTasks]
  exact lookup_applyRemoteFacts_mem deleted remote.tasks _ id lt rt hremN
    hmem hd hadd

theorem refill_none_empty (cur : Option TaskId) (w r : List TaskId)
    (h : (refillCurrent cur w r).1 = none) :
    (refillCurrent cur w r).2.1 = [] ∧ (refillCurrent cur w r).2.2 = [] := by
  cases cur with
  | some c => simp [refillCurrent] at h
  | none =>
    cases w with
    | cons a t => simp [refillCurrent] at h
    | nil =>
      cases r with
      | cons a t => simp [refillCurrent] at h
      | nil => simp [refillCurrent]

/-- Shape of the shared queue-rebuild/refill tail of the asymmetric merge,
over the source queues and current id of the local input. -/
theorem reconcile_shape (merged0 : Tasks) (curL : Option TaskId)
    (wL rL : List TaskId)
    (completedIds : List TaskId) (hco : completedIds = completedIdsOf merged0)
    (alloc : Tasks × List (TaskId × Int × Int) × Int)
    (hal : alloc = allocSnoozeSeq completedIds merged0 (maxSnoozeSeqOf merged0))
    (snoozedIds : List TaskId)
    (hsn : snoozedIds = (alloc.2.1.insertionSort snoozeLe).map (·.1))
    (activeIds : List TaskId)
    (hac : activeIds = (keysOf alloc.1).filter
      (fun id => id ∉ completedIds ∧ id ∉ snoozedIds))
    (cur0 : Option TaskId)
    (hcur : cur0 = match curL with
      | some c => if c ∈ activeIds then some c else none
      | none => none)
    (woken ready : List TaskId × List TaskId)
    (hw : woken = queueWalk cur0 activeIds [] [] wL)
    (hr : ready = queueWalk cur0 activeIds woken.1 woken.2 rL)
    (missingActive : List TaskId)
    (hma : missingActive = activeIds.filter
      (fun id => some id ≠ cur0 ∧ id ∉ ready.2))
    (readyQueue1 : List TaskId)
    (hrq : readyQueue1 = ready.1 ++ sortIdsByCreatedAt alloc.1 missingActive)
    (refilled : Option TaskId × List TaskId × List TaskId)
    (hrf : refilled = refillCurrent cur0 woken.1 readyQueue1) :
    refilled.2.1.Sublist wL ∧
    (∃ kept rest, refilled.2.2 = kept ++ rest ∧ kept.Sublist rL ∧
      List.Pairwise (createdLe alloc.1) rest ∧
      ∀ j ∈ rest, j ∈ keysOf alloc.1 ∧ j ∉ completedIds ∧ j ∉ snoozedIds) ∧
    (∀ c, curL = some c → c ∈ keysOf alloc.1 → c ∉ completedIds →
      c ∉ snoozedIds → refilled.1 = some c) ∧
    (∀ c, curL = some c →
      ¬(c ∈ keysOf alloc.1 ∧ c ∉ completedIds ∧ c ∉ snoozedIds) →
      refilled.1 ≠ some c) ∧
    (refilled.1 = none → refilled.2.1 = [] ∧ refilled.2.2 = []) := by
  have hws : woken.1.Sublist wL := by
    rw [hw]
    exact queueWalk_sublist cur0 activeIds [] wL []
  have hrs : ready.1.Sublist rL := by
    rw [hr]
    exact queueWalk_sublist cur0 activeIds woken.1 rL woken.2
  have hwact : ∀ x ∈ woken.1, x ∈ activeIds := by
    intro x hx
    rw [hw] at hx
    exact ((queueWalk_spec cur0 activeIds [] wL []).2.1 x hx).1
  have hract : ∀ x ∈ ready.1, x ∈ activeIds := by
    intro x hx
    rw [hr] at hx
    exact ((queueWalk_spec cur0 activeIds woken.1 rL woken.2).2.1 x hx).1
  have hsact : ∀ x ∈ sortIdsByCreatedAt alloc.1 missingActive,
      x ∈ activeIds := by
    intro x hx
    rw [mem_sortIdsByCreatedAt, hma] at hx
    exact ((mem_filter_curseen _ _ _ _).mp hx).1
  refine ⟨?_, ?_, ?_, ?_, ?_⟩
  · rw [hrf]
    exact (refill_woken_sublist _ _ _).trans hws
  · rw [hrf, hrq]
    obtain ⟨kept, rest, heq, hkept, hrest⟩ := refill_ready_decomp cur0 woken.1
      ready.1 (sortIdsByCreatedAt alloc.1 missingActive)
    refine ⟨kept, rest, heq, hkept.trans hrs, ?_, ?_⟩
    · exact List.Pairwise.sublist hrest (List.sorted_insertionSort _ _)
    · intro j hj
      have hj2 : j ∈ activeIds := hsact j (hrest.subset hj)
      rw [hac] at hj2
      exact (mem_filter_notmem2 _ _ _ _).mp hj2
  · intro c hc hk hc1 hc2
    have hmemA : c ∈ activeIds := by
      rw [hac]
      exact (mem_filter_notmem2 _ _ _ _).mpr ⟨hk, hc1, hc2⟩
    have hcur0 : cur0 = some c := by
      rw [hcur, hc]
      dsimp only
      rw [if_pos hmemA]
    rw [hrf, hcur0]
    rfl
  · intro c hc hnot
    have hnA : c ∉ activeIds := by
      intro hmem
      rw [hac] at hmem
      exact hnot ((mem_filter_notmem2 _ _ _ _).mp hmem)
    have hcur0 : cur0 = none := by
      rw [hcur, hc]
      dsimp only
      rw [if_neg hnA]
    rw [hrf, hcur0]
    cases hwq : woken.1 with
    | cons h t =>
      have hh : h ∈ activeIds := hwact h (by rw [hwq]; exact List.mem_cons_self _ _)
      simp only [refillCurrent, ne_eq, Option.some.injEq]
      intro hhc
      exact hnA (hhc ▸ hh)
    | nil =>
      cases hrq1 : readyQueue1 with
      | cons h t =>
        have hh : h ∈ activeIds := by
          have hm : h ∈ readyQueue1 := by
            rw [hrq1]
            exact List.mem_cons_self _ _
          rw [hrq] at hm
          rcases List.mem_append.mp hm with hmm | hmm
          · exact hract h hmm
          · exact hsact h hmm
        simp only [refillCurrent, ne_eq, Option.some.injEq]
        intro hhc
        exact hnA (hhc ▸ hh)
      | nil => simp [refillCurrent]
  · intro hnone
    rw [hrf] at hnone ⊢
    exact refill_none_empty _ _ _ hnone

/-- Local copy of task "A" for the C4 scenario: active, not completed. -/
def c4LA : Task :=
  { id := "A", title := "a", createdAt := 0, updatedAt := 10
    doneAt := none, restoredAt := none, attachments := [], subtasks := []
    notesMd := "", ui := ⟨false, false, false, false⟩
    snoozeUntil := none, snoozeSeq := none }

/-- Local copy of task "B" for the C4 scenario: queued in readyQueue. -/
def c4LB : Task :=
  { id := "B", title := "b", createdAt := 1, updatedAt := 10
    doneAt := none, restoredAt := none, attachments := [], subtasks := []
    notesMd := "", ui := ⟨false, false, false, false⟩
    snoozeUntil := none, snoozeSeq := none }

/-- Remote copy of task "A": completed remotely (`doneAt = 100`). -/
def c4RA : Task :=
  { id := "A", title := "a", createdAt := 0, updatedAt := 20
    doneAt := some 100, restoredAt := none, attachments := [], subtasks := []
    notesMd := "", ui := ⟨false, false, false, false⟩
    snoozeUntil := none, snoozeSeq := none }

/-- Remote copy of task "A" carrying no new facts. -/
def c4RQ : Task :=
  { id := "A", title := "a", createdAt := 0, updatedAt := 20
    doneAt := none, restoredAt := none, attachments := [], subtasks := []
    notesMd := "", ui := ⟨false, false, false, false⟩
    snoozeUntil := none, snoozeSeq := none }

/-- The local replica of the C4 scenario: "A" current, "B" ready. -/
def c4Loc : AppState :=
  { rev := 7, updatedAt := 70, clientId := "L", version := 2
    currentTaskId := some "A", wokenQueue := [], readyQueue := ["B"]
    snoozedIds := [], completedIds := [], deletedIds := []
    tasks := [("A", c4LA), ("B", c4LB)], nextSnoozeSeq := 1 }

/-- The remote replica of the C4 scenario: completed "A". -/
def c4Rem : AppState :=
  { rev := 50, updatedAt := 500, clientId := "R", version := 3
    currentTaskId := none, wokenQueue := [], readyQueue := []
    snoozedIds := [], completedIds := ["A"], deletedIds := []
    tasks := [("A", c4RA)], nextSnoozeSeq := 9 }

/-- A quiet remote replica carrying no new per-task facts. -/
def c4RemQ : AppState :=
  { rev := 50, updatedAt := 500, clientId := "R", version := 3
    currentTaskId := none, wokenQueue := [], readyQueue := []
    snoozedIds := [], completedIds := [], deletedIds := []
    tasks := [("A", c4RQ)], nextSnoozeSeq := 9 }

/-- C4 counterexample: `reconcile(local, remote)` does NOT inherit every
scalar besides the per-task facts from local — `version` becomes
`max(2, 3) = 3` and `nextSnoozeSeq` becomes 9, both from remote — and even
`currentTaskId` and the readyQueue order are not inherited verbatim: the
remote `doneAt` fact completes local's current task "A", so the result
drops it, refills `currentTaskId` with "B" from the rebuilt ready queue,
and empties `readyQueue`. -/
theorem c4_remote_influence_counterexample :
    (mergeRemoteIntoLocalState c4Loc c4Rem).version = 3 ∧ (2 : Int) ≠ 3 ∧
    (mergeRemoteIntoLocalState c4Loc c4Rem).nextSnoozeSeq = 9 ∧
      (1 : Int) ≠ 9 ∧
    c4Loc.currentTaskId = some "A" ∧
    (mergeRemoteIntoLocalState c4Loc c4Rem).currentTaskId = some "B" ∧
    (some "A" : Option TaskId) ≠ some "B" ∧
    c4Loc.readyQueue = ["B"] ∧
    (mergeRemoteIntoLocalState c4Loc c4Rem).readyQueue = [] ∧
    (lookupTask (mergeRemoteIntoLocalState c4Loc c4Rem).tasks "A").bind
      (fun t => t.doneAt) = some 100 ∧
    (lookupTask c4Loc.tasks "A").bind (fun t => t.doneAt) = none := by
  exact ⟨by decide, by decide, by decide, by decide, by decide, by decide,
    by decide, by decide, by decide, by decide, by decide⟩

/-- C4 amended: `reconcile(local, remote)` takes `rev`, `updatedAt` and
`clientId` from local; `version` is the maximum of the two inputs and
`nextSnoozeSeq` dominates both inputs' values (both flow in from remote);
`deletedIds` is the tombstone union; the rebuilt `wokenQueue` is a
subsequence of local's, the rebuilt `readyQueue` is a subsequence of
local's followed by a block of still-active ids ordered by
`(createdAt, id)`; `currentTaskId` is kept exactly when local's current id
is still active in the result, is never a no-longer-active local current
id, and is null only when both rebuilt queues are empty; and a task held
on both sides keeps local's title, createdAt, notes and `snoozeUntil`
while `doneAt`/`restoredAt` are the optional maxima with the remote copy —
the only per-task facts that flow in. -/
theorem c4_reconcile_amended (loc remote : AppState) (id : TaskId)
    (lt rt : Task)
    (hremN : (keysOf remote.tasks).Nodup)
    (hlt : lookupTask loc.tasks id = some lt)
    (hrt : lookupTask remote.tasks id = some rt)
    (hdl : id ∉ loc.deletedIds) (hdr : id ∉ remote.deletedIds) :
    (mergeRemoteIntoLocalState loc remote).rev = loc.rev ∧
    (mergeRemoteIntoLocalState loc remote).updatedAt = loc.updatedAt ∧
    (mergeRemoteIntoLocalState loc remote).clientId = loc.clientId ∧
    (mergeRemoteIntoLocalState loc remote).version =
      max loc.version remote.version ∧
    loc.nextSnoozeSeq ≤ (mergeRemoteIntoLocalState loc remote).nextSnoozeSeq ∧
    remote.nextSnoozeSeq ≤
      (mergeRemoteIntoLocalState loc remote).nextSnoozeSeq ∧
    (mergeRemoteIntoLocalState loc remote).deletedIds =
      uniqueSortedIds (loc.deletedIds ++ remote.deletedIds) ∧
    (mergeRemoteIntoLocalState loc remote).wokenQueue.Sublist
      loc.wokenQueue ∧
    (∃ kept rest, (mergeRemoteIntoLocalState loc remote).readyQueue =
        kept ++ rest ∧ kept.Sublist loc.readyQueue ∧
      List.Pairwise (createdLe (mergeRemoteIntoLocalState loc remote).tasks)
        rest ∧
      ∀ j ∈ rest, j ∈ keysOf (mergeRemoteIntoLocalState loc remote).tasks ∧
        j ∉ (mergeRemoteIntoLocalState loc remote).completedIds ∧
        j ∉ (mergeRemoteIntoLocalState loc remote).snoozedIds) ∧
    (∀ c, loc.currentTaskId = some c →
      c ∈ keysOf (mergeRemoteIntoLocalState loc remote).tasks →
      c ∉ (mergeRemoteIntoLocalState loc remote).completedIds →
      c ∉ (mergeRemoteIntoLocalState loc remote).snoozedIds →
      (mergeRemoteIntoLocalState loc remote).currentTaskId = some c) ∧
    (∀ c, loc.currentTaskId = some c →
      ¬(c ∈ keysOf (mergeRemoteIntoLocalState loc remote).tasks ∧
        c ∉ (mergeRemoteIntoLocalState loc remote).completedIds ∧
        c ∉ (mergeRemoteIntoLocalState loc remote).snoozedIds) →
      (mergeRemoteIntoLocalState loc remote).currentTaskId ≠ some c) ∧
    ((mergeRemoteIntoLocalState loc remote).currentTaskId = none →
      (mergeRemoteIntoLocalState loc remote).wokenQueue = [] ∧
      (mergeRemoteIntoLocalState loc remote).readyQueue = []) ∧
    (∃ t, lookupTask (mergeRemoteIntoLocalState loc remote).tasks id =
        some t ∧
      t.doneAt = maxOptionalNumber lt.doneAt rt.doneAt ∧
      t.restoredAt = maxOptionalNumber lt.restoredAt rt.restoredAt ∧
      t.title = lt.title ∧ t.createdAt = lt.createdAt ∧
      t.notesMd = lt.notesMd ∧ t.snoozeUntil = lt.snoozeUntil) := by
  have hshape := reconcile_shape
    (reconcileTasks loc remote
      (uniqueSortedIds (loc.deletedIds ++ remote.deletedIds)))
    loc.currentTaskId loc.wokenQueue loc.readyQueue
    _ rfl _ rfl _ rfl _ rfl _ rfl _ _ rfl rfl _ rfl _ rfl _ rfl
  have hdel : id ∉ uniqueSortedIds (loc.deletedIds ++ remote.deletedIds) := by
    intro hmem
    rw [mem_uniqueSortedIds] at hmem
    rcases List.mem_append.mp hmem with h | h
    · exact hdl h
    · exact hdr h
  obtain ⟨mt, hmt, h1, h2, h3, h4, h5, h6⟩ :=
    lookup_reconcileTasks loc remote
      (uniqueSortedIds (loc.deletedIds ++ remote.deletedIds)) id lt rt
      hremN hlt hrt hdel
  have halloc := lookup_allocSnoozeSeq
    (completedIdsOf (reconcileTasks loc remote
      (uniqueSortedIds (loc.deletedIds ++ remote.deletedIds))))
    (reconcileTasks loc remote
      (uniqueSortedIds (loc.deletedIds ++ remote.deletedIds)))
    (maxSnoozeSeqOf (reconcileTasks loc remote
      (uniqueSortedIds (loc.deletedIds ++ remote.deletedIds))))
    id mt hmt
  refine ⟨rfl, rfl, rfl, rfl,
    (nextSeq_le loc.nextSnoozeSeq remote.nextSnoozeSeq _).1,
    (nextSeq_le loc.nextSnoozeSeq remote.nextSnoozeSeq _).2, rfl,
    hshape.1, hshape.2.1, hshape.2.2.1, hshape.2.2.2.1, hshape.2.2.2.2, ?_⟩
  rcases halloc with hl | ⟨_, _, _, sq, hr⟩
  · exact ⟨mt, hl, h1, h2, h3, h4, h5, h6⟩
  · exact ⟨{ mt with snoozeSeq := some sq }, hr, h1, h2, h3, h4, h5, h6⟩

/-- Witness for C4: reconciling the local replica with a quiet remote that
carries no new facts; local's current task stays current. -/
theorem c4_reconcile_amended_witness :
    ((keysOf c4RemQ.tasks).Nodup ∧
     lookupTask c4Loc.tasks "A" = some c4LA ∧
     lookupTask c4RemQ.tasks "A" = some c4RQ ∧
     "A" ∉ c4Loc.deletedIds ∧ "A" ∉ c4RemQ.deletedIds) ∧
    ((mergeRemoteIntoLocalState c4Loc c4RemQ).rev = c4Loc.rev ∧
    (mergeRemoteIntoLocalState c4Loc c4RemQ).updatedAt = c4Loc.updatedAt ∧
    (mergeRemoteIntoLocalState c4Loc c4RemQ).clientId = c4Loc.clientId ∧
    (mergeRemoteIntoLocalState c4Loc c4RemQ).version =
      max c4Loc.version c4RemQ.version ∧
    c4Loc.nextSnoozeSeq ≤
      (mergeRemoteIntoLocalState c4Loc c4RemQ).nextSnoozeSeq ∧
    c4RemQ.nextSnoozeSeq ≤
      (mergeRemoteIntoLocalState c4Loc c4RemQ).nextSnoozeSeq ∧
    (mergeRemoteIntoLocalState c4Loc c4RemQ).deletedIds =
      uniqueSortedIds (c4Loc.deletedIds ++ c4RemQ.deletedIds) ∧
    (mergeRemoteIntoLocalState c4Loc c4RemQ).wokenQueue.Sublist
      c4Loc.wokenQueue ∧
    (∃ kept rest, (mergeRemoteIntoLocalState c4Loc c4RemQ).readyQueue =
        kept ++ rest ∧ kept.Sublist c4Loc.readyQueue ∧
      List.Pairwise
        (createdLe (mergeRemoteIntoLocalState c4Loc c4RemQ).tasks) rest ∧
      ∀ j ∈ rest,
        j ∈ keysOf (mergeRemoteIntoLocalState c4Loc c4RemQ).tasks ∧
        j ∉ (mergeRemoteIntoLocalState c4Loc c4RemQ).completedIds ∧
        j ∉ (mergeRemoteIntoLocalState c4Loc c4RemQ).snoozedIds) ∧
    (∀ c, c4Loc.currentTaskId = some c →
      c ∈ keysOf (mergeRemoteIntoLocalState c4Loc c4RemQ).tasks →
      c ∉ (mergeRemoteIntoLocalState c4Loc c4RemQ).completedIds →
      c ∉ (mergeRemoteIntoLocalState c4Loc c4RemQ).snoozedIds →
      (mergeRemoteIntoLocalState c4Loc c4RemQ).currentTaskId = some c) ∧
    (∀ c, c4Loc.currentTaskId = some c →
      ¬(c ∈ keysOf (mergeRemoteIntoLocalState c4Loc c4RemQ).tasks ∧
        c ∉ (mergeRemoteIntoLocalState c4Loc c4RemQ).completedIds ∧
        c ∉ (mergeRemoteIntoLocalState c4Loc c4RemQ).snoozedIds) →
      (mergeRemoteIntoLocalState c4Loc c4RemQ).currentTaskId ≠ some c) ∧
    ((mergeRemoteIntoLocalState c4Loc c4RemQ).currentTaskId = none →
      (mergeRemoteIntoLocalState c4Loc c4RemQ).wokenQueue = [] ∧
      (mergeRemoteIntoLocalState c4Loc c4RemQ).readyQueue = []) ∧
    (∃ t, lookupTask (mergeRemoteIntoLocalState c4Loc c4RemQ).tasks "A" =
        some t ∧
      t.doneAt = maxOptionalNumber c4LA.doneAt c4RQ.doneAt ∧
      t.restoredAt = maxOptionalNumber c4LA.restoredAt c4RQ.restoredAt ∧
      t.title = c4LA.title ∧ t.createdAt = c4LA.createdAt ∧
      t.notesMd = c4LA.notesMd ∧ t.snoozeUntil = c4LA.snoozeUntil)) :=
  ⟨⟨by decide, by decide, by decide, by decide, by decide⟩,
    c4_reconcile_amended c4Loc c4RemQ "A" c4LA c4RQ (by decide) (by decide)
      (by decide) (by decide) (by decide)⟩

end RoundRobin
